import Mathlib

/-!
UltraRISC pin controller (drivers/pinctrl/ultrarisc)

A shallow embedding of the pin index mapper, the mux engine and the config
engine of `pinctrl-ultrarisc.c`, with the DP1000 port table of
`pinctrl-ultrarisc-dp1000.c`.

Conventions of the embedding:

* a C `u32` is a `Nat` reduced with `u32` (modulo `2 ^ 32`) wherever the C
  arithmetic can wrap; a C `int` is an `Int` (`to_int` and `of_int` are the
  conversions between the two);
* a C function returning `int` and writing through pointers returns the pair
  of its return code and the written values;
* `Option.none` is never an error code of the driver: it marks an execution
  that C leaves undefined (reading `ports[i]` past the end of the port table,
  reading a group's data past its end, shifting a 32-bit value by 32 or more);
* the memory-mapped register block is a function from the byte offset
  relative to `base` to the stored word; `readl_relaxed` delivers 32 bits.
-/

namespace UltraRisc

set_option linter.unusedVariables false

/-! ## Machine integers -/

/-- Reduction of a natural number to an unsigned 32-bit value. -/
def u32 (n : Nat) : Nat := n % 2 ^ 32

/-- Conversion of an unsigned 32-bit pattern to a C `int` (two's complement). -/
def to_int (n : Nat) : Int :=
  if n % 2 ^ 32 < 2 ^ 31 then ((n % 2 ^ 32 : Nat) : Int) else ((n % 2 ^ 32 : Nat) : Int) - 2 ^ 32

/-- Conversion of a C `int` to `unsigned int`. -/
def of_int (i : Int) : Nat := (i % 2 ^ 32).toNat

/-- Bitwise complement of a 32-bit value (the C operator `~` on `u32`/`int`). -/
def not32 (x : Nat) : Nat := 0xFFFFFFFF ^^^ u32 x

/-- Left shift within 32 bits: the low 32 bits of `x << s`; C leaves a shift by
32 or more undefined. The `int` shifts of the driver (`(UR_FUNC0 | UR_FUNC1) << pin`,
`UR_BIAS_MASK << s`) are taken with the two's-complement wrap the kernel is built with. -/
def shl32 (x s : Nat) : Option Nat := if s < 32 then some (u32 (x <<< s)) else none

def EINVAL : Int := 22
def ENOENT : Int := 2
def ENOMEM : Int := 12
def EEXIST : Int := 17
def EOPNOTSUPP : Int := 95

/-! ## pinctrl-ultrarisc.h -/

def PINMUX_PROP_NAME : String := "pinctrl-pins"
def PINCONF_PROP_NAME : String := "pinconf-pins"

/-- The C `struct ur_pin_val`; the field `mode` is the anonymous union of `mode` and `conf`. -/
structure ur_pin_val where
  port : Nat
  pin : Nat
  mode : Nat
  deriving DecidableEq, Repr

/-- The `conf` member of the union in `struct ur_pin_val`. -/
@[reducible] def ur_pin_val.conf (v : ur_pin_val) : Nat := v.mode

def UR_FUNC_DEF : Nat := 0
def UR_FUNC0 : Nat := 1
def UR_FUNC1 : Nat := 0x10000

def UR_BIAS_MASK : Nat := 0x0000000F
def UR_PULL_MASK : Nat := 0x0C
def UR_PULL_DIS : Nat := 0
def UR_PULL_UP : Nat := 1
def UR_PULL_DOWN : Nat := 2
def UR_DRIVE_MASK : Nat := 0x03

structure ur_port_desc where
  name : String
  npins : Nat
  func_offset : Nat
  conf_offset : Nat
  deriving DecidableEq, Repr

/-- The `struct pinctrl_pin_desc` built by `PINCTRL_PIN(number, name)`. -/
structure pinctrl_pin_desc where
  number : Nat
  name : String
  deriving DecidableEq, Repr

structure ur_pinctrl_match_data where
  pins : List pinctrl_pin_desc
  npins : Nat
  offset : Nat
  num_ports : Nat
  ports : List ur_port_desc
  deriving DecidableEq, Repr

/-- The register block behind `base`: byte offset to stored word. -/
abbrev Regs := Nat → Nat

/-- The part of `struct ur_pinctrl` the engine uses: the match data and the
register block mapped at `base`. -/
structure ur_pinctrl where
  match_data : ur_pinctrl_match_data
  regs : Regs

/-- A 32-bit relaxed read of the register at byte offset `reg`. -/
def readl_relaxed (regs : Regs) (reg : Nat) : Nat := u32 (regs reg)

/-- A 32-bit relaxed write of `val` to the register at byte offset `reg`. -/
def writel_relaxed (val : Nat) (reg : Nat) (regs : Regs) : Regs :=
  Function.update regs reg (u32 val)

/-! ## dt-bindings/pinctrl/ultrarisc,dp1000-pinctrl.h -/

def UR_DP1000_IOMUX_A : Nat := 0x0
def UR_DP1000_IOMUX_B : Nat := 0x1
def UR_DP1000_IOMUX_C : Nat := 0x2
def UR_DP1000_IOMUX_D : Nat := 0x3
def UR_DP1000_IOMUX_LPC : Nat := 0x4

def UR_DRIVE_DEF : Nat := 2
def UR_DRIVE_0 : Nat := 0
def UR_DRIVE_1 : Nat := 1
def UR_DRIVE_2 : Nat := 2
def UR_DRIVE_3 : Nat := 3

/-- The C macro `UR_DP1000_BIAS(pull, drive)`: `(((pull) << 2) + (drive))`. -/
def UR_DP1000_BIAS (pull drive : Nat) : Nat := (pull <<< 2) + drive

/-! ## pinctrl-ultrarisc-dp1000.c -/

def ur_dp1000_pins : List pinctrl_pin_desc :=
  [ ⟨0, "PA0"⟩, ⟨1, "PA1"⟩, ⟨2, "PA2"⟩, ⟨3, "PA3"⟩, ⟨4, "PA4"⟩, ⟨5, "PA5"⟩, ⟨6, "PA6"⟩,
    ⟨7, "PA7"⟩, ⟨8, "PA8"⟩, ⟨9, "PA9"⟩, ⟨10, "PA10"⟩, ⟨11, "PA11"⟩, ⟨12, "PA12"⟩,
    ⟨13, "PA13"⟩, ⟨14, "PA14"⟩, ⟨15, "PA15"⟩,
    ⟨16, "PB0"⟩, ⟨17, "PB1"⟩, ⟨18, "PB2"⟩, ⟨19, "PB3"⟩, ⟨20, "PB4"⟩, ⟨21, "PB5"⟩,
    ⟨22, "PB6"⟩, ⟨23, "PB7"⟩,
    ⟨24, "PC0"⟩, ⟨25, "PC1"⟩, ⟨26, "PC2"⟩, ⟨27, "PC3"⟩, ⟨28, "PC4"⟩, ⟨29, "PC5"⟩,
    ⟨30, "PC6"⟩, ⟨31, "PC7"⟩,
    ⟨32, "PD0"⟩, ⟨33, "PD1"⟩, ⟨34, "PD2"⟩, ⟨35, "PD3"⟩, ⟨36, "PD4"⟩, ⟨37, "PD5"⟩,
    ⟨38, "PD6"⟩, ⟨39, "PD7"⟩,
    ⟨40, "LPC0"⟩, ⟨41, "LPC1"⟩, ⟨42, "LPC2"⟩, ⟨43, "LPC3"⟩, ⟨44, "LPC4"⟩, ⟨45, "LPC5"⟩,
    ⟨46, "LPC6"⟩, ⟨47, "LPC7"⟩, ⟨48, "LPC8"⟩, ⟨49, "LPC9"⟩, ⟨50, "LPC10"⟩, ⟨51, "LPC11"⟩,
    ⟨52, "LPC12"⟩ ]

def ur_dp1000_match_data : ur_pinctrl_match_data where
  pins := ur_dp1000_pins
  npins := ur_dp1000_pins.length
  offset := 0x2c0
  num_ports := 5
  ports :=
    [ ⟨"A", 16, 0x2c0, 0x310⟩,
      ⟨"B", 8, 0x2c4, 0x318⟩,
      ⟨"C", 8, 0x2c8, 0x31c⟩,
      ⟨"D", 8, 0x2cc, 0x320⟩,
      ⟨"LPC", 13, 0x2d0, 0x324⟩ ]

def PORT_A : Nat := 0
def PORT_B : Nat := 1
def PORT_C : Nat := 2
def PORT_D : Nat := 3
def PORT_LPC : Nat := 4

/-! ## Pin index mapper -/

/-- The loop of `ur_pin_to_desc`: `n` iterations are left, `i` is the loop
variable and `index` the 32-bit pattern of the accumulator. -/
def ur_pin_to_desc_loop (ports : List ur_port_desc) : Nat → Nat → Nat → Option Nat
  | 0, _, index => some index
  | n + 1, i, index =>
    match ports[i]? with
    | none => none
    | some port_desc => ur_pin_to_desc_loop ports n (i + 1) (u32 (index + port_desc.npins))

/-- The C function `ur_pin_to_desc`: the global pin index of `(port, pin)`. -/
def ur_pin_to_desc (match_data : ur_pinctrl_match_data) (pin_val : ur_pin_val) : Option Int :=
  match ur_pin_to_desc_loop match_data.ports pin_val.port 0 0 with
  | none => none
  | some index => some (to_int (u32 (index + pin_val.pin)))

/-- The loop of `ur_pin_num_to_port_pin`: `n` iterations are left and `i` is
the loop variable. The result is the return code and the updated `*pin_val`. -/
def ur_pin_num_to_port_pin_loop (ports : List ur_port_desc) :
    Nat → Nat → ur_pin_val → Nat → Option (Int × ur_pin_val)
  | 0, _, pin_val, _ => some (-EINVAL, pin_val)
  | n + 1, i, pin_val, pin_num =>
    match ports[i]? with
    | none => none
    | some port_desc =>
      if pin_num < port_desc.npins then
        some (0, { port := i, pin := pin_num, mode := 0 })
      else
        ur_pin_num_to_port_pin_loop ports n (i + 1) pin_val (u32 (pin_num - port_desc.npins))

/-- The C function `ur_pin_num_to_port_pin`. -/
def ur_pin_num_to_port_pin (match_data : ur_pinctrl_match_data) (pin_val : ur_pin_val)
    (pin_num : Nat) : Option (Int × ur_pin_val) :=
  ur_pin_num_to_port_pin_loop match_data.ports match_data.num_ports 0 pin_val pin_num

/-- The sum of the pin counts of all ports of the table. -/
def total_pins (match_data : ur_pinctrl_match_data) : Nat :=
  (match_data.ports.map ur_port_desc.npins).sum

/-- The sum of the pin counts of the ports preceding `port`. -/
def pins_before (match_data : ur_pinctrl_match_data) (port : Nat) : Nat :=
  ((match_data.ports.take port).map ur_port_desc.npins).sum

/-- The data-model invariant of a port table: `num_ports` counts the entries of
the flexible array `ports`, and the pin counts of the ports add up to the
advertised total `npins`, which is a `u32` field. A table with this property is
called well-formed below. -/
def port_table_ok (match_data : ur_pinctrl_match_data) : Prop :=
  match_data.num_ports = match_data.ports.length ∧
  total_pins match_data = match_data.npins ∧
  match_data.npins < 2 ^ 32

instance (match_data : ur_pinctrl_match_data) : Decidable (port_table_ok match_data) := by
  unfold port_table_ok
  infer_instance

/-- The pin count of port `port` of the table (0 when there is no such port). -/
def npins_of (match_data : ur_pinctrl_match_data) (port : Nat) : Nat :=
  match match_data.ports[port]? with
  | some port_desc => port_desc.npins
  | none => 0

/-- A pair `(port, pin)` is valid when `port < num_ports` and `pin < npins[port]`. -/
def valid_pair (match_data : ur_pinctrl_match_data) (port pin : Nat) : Prop :=
  port < match_data.num_ports ∧ pin < npins_of match_data port

instance (match_data : ur_pinctrl_match_data) (port pin : Nat) :
    Decidable (valid_pair match_data port pin) := by
  unfold valid_pair
  infer_instance

/-! ## The host pin-control framework and the board configuration source

The driver calls into `drivers/pinctrl/core.c`, `pinmux.c` and `devicetree.c`
and reads `include/linux/pinctrl/pinconf-generic.h`; these are modelled here.
Memory allocation (`devm_kcalloc`, `devm_kzalloc`) is taken to succeed, except in
`ur_subnode_to_pin_alloc`, which takes the outcome of every allocation on its
path as an input. -/

/-- The C `struct pingroup`. -/
structure pingroup where
  name : String
  pins : List Int
  npins : Nat
  deriving DecidableEq, Repr

/-- The C `struct group_desc`; `data` is the `void *` the driver stores its
`ur_pin_val` array in (`none` for a null pointer). -/
structure group_desc where
  grp : pingroup
  data : Option (List ur_pin_val)
  deriving DecidableEq, Repr

/-- The C `struct function_desc`. -/
structure function_desc where
  name : String
  group_names : List String
  num_group_names : Nat
  deriving DecidableEq, Repr

/-- The part of `struct pinctrl_dev` the driver reaches: its driver data and
the registry of groups and functions, each keyed by selector. -/
structure pinctrl_dev where
  drvdata : ur_pinctrl
  pin_group_tree : List (Nat × group_desc)
  num_groups : Nat
  pin_function_tree : List (Nat × function_desc)
  num_functions : Nat

def pinctrl_dev_get_drvdata (pctldev : pinctrl_dev) : ur_pinctrl := pctldev.drvdata

/-- Modelled from the spec: `pinctrl_generic_get_group` of `drivers/pinctrl/core.c`
(not under src/), which resolves a group selector through the registry, or
yields nothing when the selector does not resolve. -/
def pinctrl_generic_get_group (pctldev : pinctrl_dev) (selector : Nat) : Option group_desc :=
  (pctldev.pin_group_tree.find? fun entry => entry.1 == selector).map Prod.snd

/-- Modelled from the spec: `pinctrl_generic_add_group` of `drivers/pinctrl/core.c`
(not under src/). Registration fails with `DuplicateName` (here `-EEXIST`) if a
group of the same name already exists; otherwise the group is stored under the
next selector, which is returned. -/
def pinctrl_generic_add_group (pctldev : pinctrl_dev) (name : String) (pins : List Int)
    (num_pins : Nat) (data : Option (List ur_pin_val)) : Int × pinctrl_dev :=
  if pctldev.pin_group_tree.any fun entry => entry.2.grp.name == name then
    (-EEXIST, pctldev)
  else
    ((pctldev.num_groups : Int),
      { pctldev with
        pin_group_tree := pctldev.pin_group_tree ++
          [(pctldev.num_groups, { grp := { name := name, pins := pins, npins := num_pins },
                                  data := data })]
        num_groups := pctldev.num_groups + 1 })

/-- Modelled from the spec: `pinmux_generic_add_function` of `drivers/pinctrl/pinmux.c`
(not under src/). Registration fails with `DuplicateName` (here `-EEXIST`) if a
function of the same name already exists; otherwise the function is stored under
the next selector, which is returned. -/
def pinmux_generic_add_function (pctldev : pinctrl_dev) (name : String)
    (groups : List String) (num_groups : Nat) : Int × pinctrl_dev :=
  if pctldev.pin_function_tree.any fun entry => entry.2.name == name then
    (-EEXIST, pctldev)
  else
    ((pctldev.num_functions : Int),
      { pctldev with
        pin_function_tree := pctldev.pin_function_tree ++
          [(pctldev.num_functions,
            { name := name, group_names := groups, num_group_names := num_groups })]
        num_functions := pctldev.num_functions + 1 })

/-- Modelled from the spec: `pinctrl_generic_remove_group` of `drivers/pinctrl/core.c`
(not under src/): the group stored under `selector` is removed from the registry;
when no group is stored under `selector` the registry is left as it is and
`-ENOENT` is returned. -/
def pinctrl_generic_remove_group (pctldev : pinctrl_dev) (selector : Nat) : Int × pinctrl_dev :=
  if pctldev.pin_group_tree.any fun entry => entry.1 == selector then
    (0, { pctldev with
          pin_group_tree := pctldev.pin_group_tree.filter fun entry => !(entry.1 == selector)
          num_groups := pctldev.num_groups - 1 })
  else
    (-ENOENT, pctldev)

/-- The outcomes of the memory allocations on the path of `ur_subnode_to_pin`,
`true` for an allocation that succeeds: the `devm_kcalloc` of `pin_vals` (line 61),
the `devm_kcalloc` of `group_pins` (line 65), the `devm_kzalloc` of `pgnames`
(line 71), and the allocations the pin-control core makes for the new entry inside
`pinctrl_generic_add_group` and inside `pinmux_generic_add_function`. -/
structure alloc_outcome where
  pin_vals : Bool
  group_pins : Bool
  pgnames : Bool
  add_group : Bool
  add_function : Bool
  deriving DecidableEq, Repr

/-- Modelled from the spec: `pinctrl_generic_add_group` of `drivers/pinctrl/core.c`
(not under src/) with the outcome of its allocation as an input. When the
allocation succeeds it is `pinctrl_generic_add_group`; when it fails, a name that
is already taken is still rejected with `DuplicateName` (`-EEXIST`) and any other
registration fails with `AllocationFailure` (here `-ENOMEM`), the registry being
left as it is. -/
def pinctrl_generic_add_group_alloc (alloc_ok : Bool) (pctldev : pinctrl_dev) (name : String)
    (pins : List Int) (num_pins : Nat) (data : Option (List ur_pin_val)) : Int × pinctrl_dev :=
  if alloc_ok then pinctrl_generic_add_group pctldev name pins num_pins data
  else if pctldev.pin_group_tree.any fun entry => entry.2.grp.name == name then
    (-EEXIST, pctldev)
  else
    (-ENOMEM, pctldev)

/-- Modelled from the spec: `pinmux_generic_add_function` of `drivers/pinctrl/pinmux.c`
(not under src/) with the outcome of its allocation as an input. When the
allocation succeeds it is `pinmux_generic_add_function`; when it fails, a name
that is already taken is still rejected with `DuplicateName` (`-EEXIST`) and any
other registration fails with `AllocationFailure` (here `-ENOMEM`), the registry
being left as it is. -/
def pinmux_generic_add_function_alloc (alloc_ok : Bool) (pctldev : pinctrl_dev) (name : String)
    (groups : List String) (num_groups : Nat) : Int × pinctrl_dev :=
  if alloc_ok then pinmux_generic_add_function pctldev name groups num_groups
  else if pctldev.pin_function_tree.any fun entry => entry.2.name == name then
    (-EEXIST, pctldev)
  else
    (-ENOMEM, pctldev)

/-- Modelled from the spec: a configuration subnode of the board configuration
source (`struct device_node`, not under src/): its name and, per property name,
the ordered list of tuples of 32-bit cells. -/
structure device_node where
  name : String
  properties : List (String × List (List Nat))
  deriving DecidableEq, Repr

/-- The C `struct of_phandle_args`, without the node pointer. -/
structure of_phandle_args where
  args_count : Nat
  args : List Nat
  deriving DecidableEq, Repr

/-- The rows of property `name` of the node, if the node has that property. -/
def device_node.rows (np : device_node) (name : String) : Option (List (List Nat)) :=
  (np.properties.find? fun entry => entry.1 == name).map Prod.snd

/-- Modelled from the spec: `of_property_present` (not under src/). -/
def of_property_present (np : device_node) (name : String) : Bool :=
  (np.rows name).isSome

/-- Modelled from the spec: `pinctrl_count_index_with_args` of
`drivers/pinctrl/devicetree.c` (not under src/): the number of tuples of the
property, or a negative code when the node has no such property. -/
def pinctrl_count_index_with_args (np : device_node) (name : String) : Int :=
  match np.rows name with
  | some rows => (rows.length : Int)
  | none => -ENOENT

/-- Modelled from the spec: `pinctrl_parse_index_with_args` of
`drivers/pinctrl/devicetree.c` (not under src/): tuple `index` of the property,
with `args_count` the number of its fields; `-EINVAL` when there is no such tuple. -/
def pinctrl_parse_index_with_args (np : device_node) (name : String) (index : Nat) :
    Int × of_phandle_args :=
  match np.rows name with
  | none => (-ENOENT, { args_count := 0, args := [] })
  | some rows =>
    match rows[index]? with
    | none => (-EINVAL, { args_count := 0, args := [] })
    | some row => (0, { args_count := row.length, args := row })

/-- The C `enum pinctrl_map_type`. -/
inductive pinctrl_map_type
  | PIN_MAP_TYPE_INVALID
  | PIN_MAP_TYPE_DUMMY_STATE
  | PIN_MAP_TYPE_MUX_GROUP
  | PIN_MAP_TYPE_CONFIGS_PIN
  | PIN_MAP_TYPE_CONFIGS_GROUP
  deriving DecidableEq, Repr

/-- Modelled from the spec: the abstract configuration parameters, the C
`enum pin_config_param` of `include/linux/pinctrl/pinconf-generic.h` (not under
src/); `PIN_CONFIG_CUSTOM` stands for any value outside the generic names. -/
inductive pin_config_param
  | PIN_CONFIG_BIAS_BUS_HOLD
  | PIN_CONFIG_BIAS_DISABLE
  | PIN_CONFIG_BIAS_HIGH_IMPEDANCE
  | PIN_CONFIG_BIAS_PULL_DOWN
  | PIN_CONFIG_BIAS_PULL_PIN_DEFAULT
  | PIN_CONFIG_BIAS_PULL_UP
  | PIN_CONFIG_DRIVE_OPEN_DRAIN
  | PIN_CONFIG_DRIVE_OPEN_SOURCE
  | PIN_CONFIG_DRIVE_PUSH_PULL
  | PIN_CONFIG_DRIVE_STRENGTH
  | PIN_CONFIG_DRIVE_STRENGTH_UA
  | PIN_CONFIG_INPUT_DEBOUNCE
  | PIN_CONFIG_INPUT_ENABLE
  | PIN_CONFIG_INPUT_SCHMITT
  | PIN_CONFIG_INPUT_SCHMITT_ENABLE
  | PIN_CONFIG_MODE_LOW_POWER
  | PIN_CONFIG_MODE_PWM
  | PIN_CONFIG_OUTPUT
  | PIN_CONFIG_OUTPUT_ENABLE
  | PIN_CONFIG_OUTPUT_IMPEDANCE_OHMS
  | PIN_CONFIG_PERSIST_STATE
  | PIN_CONFIG_POWER_SOURCE
  | PIN_CONFIG_SKEW_DELAY
  | PIN_CONFIG_SLEEP_HARDWARE_STATE
  | PIN_CONFIG_SLEW_RATE
  | PIN_CONFIG_CUSTOM (code : Nat)
  deriving DecidableEq, Repr

/-- Modelled from the spec: the packed `unsigned long` configuration word of
`pinconf-generic.h` (not under src/), as the parameter and the argument that
`pinconf_to_config_param` and `pinconf_to_config_argument` read from it. -/
structure packed_config where
  param : pin_config_param
  argument : Nat
  deriving DecidableEq, Repr

def pinconf_to_config_param (config : packed_config) : pin_config_param := config.param

def pinconf_to_config_argument (config : packed_config) : Nat := config.argument

/-! ## Group/function registry: configuration parsing -/

/-- The loop over the rows in `ur_subnode_to_pin`: `n` iterations are left and
`i` is the loop variable; `pin_vals` and `group_pins` are the two arrays being
filled. The returned code is 0 when the loop ran to its end and the code of
the failing step otherwise. -/
def ur_subnode_to_pin_loop (match_data : ur_pinctrl_match_data) (np : device_node)
    (name : String) : Nat → Nat → List ur_pin_val → List Int →
    Option (Int × List ur_pin_val × List Int)
  | 0, _, pin_vals, group_pins => some (0, pin_vals, group_pins)
  | n + 1, i, pin_vals, group_pins =>
    let (ret, pin_args) := pinctrl_parse_index_with_args np name i
    if ret ≠ 0 then some (ret, pin_vals, group_pins)
    else if pin_args.args_count < 3 then some (-EINVAL, pin_vals, group_pins)
    else
      let pin_val : ur_pin_val :=
        { port := pin_args.args.getD 0 0, pin := pin_args.args.getD 1 0,
          mode := pin_args.args.getD 2 0 }
      let pin_vals := pin_vals.set i pin_val
      match ur_pin_to_desc match_data pin_val with
      | none => none
      | some index => ur_subnode_to_pin_loop match_data np name n (i + 1) pin_vals
          (group_pins.set i index)

/-- The C function `ur_subnode_to_pin`. The result is the return code, the
values stored through `pins`, `pin_val` and `pin_num` (when they are stored)
and the device with its registry afterwards. -/
def ur_subnode_to_pin (pctldev : pinctrl_dev) (name : String) (type : pinctrl_map_type)
    (np : device_node) :
    Option (Int × Option (List Int × List ur_pin_val × Nat) × pinctrl_dev) :=
  let rows := pinctrl_count_index_with_args np name
  if rows < 0 then some (rows, none, pctldev)
  else
    let pin_vals : List ur_pin_val := List.replicate rows.toNat { port := 0, pin := 0, mode := 0 }
    let group_pins : List Int := List.replicate rows.toNat 0
    match ur_subnode_to_pin_loop (pinctrl_dev_get_drvdata pctldev).match_data np name
        rows.toNat 0 pin_vals group_pins with
    | none => none
    | some (ret, pin_vals, group_pins) =>
      if ret ≠ 0 then some (ret, none, pctldev)
      else
        let (ret, pctldev1) :=
          pinctrl_generic_add_group pctldev np.name group_pins rows.toNat (some pin_vals)
        if ret < 0 then some (ret, none, pctldev1)
        else
          let pgnames := [np.name]
          let (ret, pctldev2) := pinmux_generic_add_function pctldev1 np.name pgnames 1
          if ret < 0 then
            let (_, pctldev3) := pinctrl_generic_remove_group pctldev2 (of_int ret)
            some (ret, none, pctldev3)
          else
            some (0, some (group_pins, pin_vals, rows.toNat), pctldev2)

/-- The C function `ur_subnode_to_pin` with the outcomes of the memory
allocations on its path as an input, so that the exits through `-ENOMEM` and the
label `free_group` after a failed `pinmux_generic_add_function` are covered. The
result is the return code, the values stored through `pins`, `pin_val` and
`pin_num` (when they are stored) and the device with its registry afterwards.
When every allocation succeeds this is `ur_subnode_to_pin`. -/
def ur_subnode_to_pin_alloc (alloc : alloc_outcome) (pctldev : pinctrl_dev) (name : String)
    (type : pinctrl_map_type) (np : device_node) :
    Option (Int × Option (List Int × List ur_pin_val × Nat) × pinctrl_dev) :=
  let rows := pinctrl_count_index_with_args np name
  if rows < 0 then some (rows, none, pctldev)
  else if alloc.pin_vals = false then some (-ENOMEM, none, pctldev)
  else if alloc.group_pins = false then some (-ENOMEM, none, pctldev)
  else if alloc.pgnames = false then some (-ENOMEM, none, pctldev)
  else
    let pin_vals : List ur_pin_val := List.replicate rows.toNat { port := 0, pin := 0, mode := 0 }
    let group_pins : List Int := List.replicate rows.toNat 0
    match ur_subnode_to_pin_loop (pinctrl_dev_get_drvdata pctldev).match_data np name
        rows.toNat 0 pin_vals group_pins with
    | none => none
    | some (ret, pin_vals, group_pins) =>
      if ret ≠ 0 then some (ret, none, pctldev)
      else
        let (ret, pctldev1) :=
          pinctrl_generic_add_group_alloc alloc.add_group pctldev np.name group_pins rows.toNat
            (some pin_vals)
        if ret < 0 then some (ret, none, pctldev1)
        else
          let pgnames := [np.name]
          let (ret, pctldev2) :=
            pinmux_generic_add_function_alloc alloc.add_function pctldev1 np.name pgnames 1
          if ret < 0 then
            let (_, pctldev3) := pinctrl_generic_remove_group pctldev2 (of_int ret)
            some (ret, none, pctldev3)
          else
            some (0, some (group_pins, pin_vals, rows.toNat), pctldev2)

/-- The member of the union `data` of the C `struct pinctrl_map` that the driver fills. -/
inductive pinctrl_map_data
  | mux (group : String) (function : String)
  | configs (group_or_pin : String) (configs : List ur_pin_val) (num_configs : Nat)
  deriving DecidableEq, Repr

/-- The fields of the C `struct pinctrl_map` that the driver writes. -/
structure pinctrl_map where
  type : pinctrl_map_type
  data : pinctrl_map_data
  deriving DecidableEq, Repr

/-- The C function `ur_pinmux_to_map`: the return code, the map entry when it
is written, and the device afterwards. -/
def ur_pinmux_to_map (pctldev : pinctrl_dev) (np : device_node) :
    Option (Int × Option pinctrl_map × pinctrl_dev) :=
  match ur_subnode_to_pin pctldev PINMUX_PROP_NAME .PIN_MAP_TYPE_MUX_GROUP np with
  | none => none
  | some (ret, _, pctldev) =>
    if ret ≠ 0 then some (ret, none, pctldev)
    else
      some (0, some { type := .PIN_MAP_TYPE_MUX_GROUP, data := .mux np.name np.name }, pctldev)

/-- The C function `ur_pinconf_to_map`: the return code, the map entry when it
is written, and the device afterwards. `ur_subnode_to_pin` stores its three
out-parameters whenever it returns 0, so they are read only after being stored. -/
def ur_pinconf_to_map (pctldev : pinctrl_dev) (np : device_node) :
    Option (Int × Option pinctrl_map × pinctrl_dev) :=
  match ur_subnode_to_pin pctldev PINCONF_PROP_NAME .PIN_MAP_TYPE_CONFIGS_GROUP np with
  | none => none
  | some (ret, out, pctldev) =>
    if ret ≠ 0 then some (ret, none, pctldev)
    else
      match out with
      | none => none
      | some (_, pin, pin_num) =>
        some (0, some { type := .PIN_MAP_TYPE_CONFIGS_GROUP,
                        data := .configs np.name pin pin_num }, pctldev)

/-- The C function `ur_dt_node_to_map`. The result is the return code, the map
entries written to `*map` together with the value stored in `*num_maps` (when
it is stored) and the device afterwards. The local `ret` is assigned by one of
the two builds before it is read, since `prop_count` is not zero there; the
array allocation is taken to succeed. -/
def ur_dt_node_to_map (pctldev : pinctrl_dev) (np : device_node) :
    Option (Int × Option (List pinctrl_map × Nat) × pinctrl_dev) :=
  let mux_present := of_property_present np PINMUX_PROP_NAME
  let conf_present := of_property_present np PINCONF_PROP_NAME
  let prop_count : Nat := (if mux_present then 1 else 0) + (if conf_present then 1 else 0)
  if prop_count = 0 then some (-EINVAL, none, pctldev)
  else
    let after_mux : Option (Int × List pinctrl_map × Nat × pinctrl_dev) :=
      if mux_present then
        match ur_pinmux_to_map pctldev np with
        | none => none
        | some (ret, map, pctldev) =>
          if ret = 0 then some (ret, map.toList, 1, pctldev) else some (ret, [], 0, pctldev)
      else some (0, [], 0, pctldev)
    match after_mux with
    | none => none
    | some (ret, new_map, map_num, pctldev) =>
      let after_conf : Option (Int × List pinctrl_map × Nat × pinctrl_dev) :=
        if conf_present then
          match ur_pinconf_to_map pctldev np with
          | none => none
          | some (ret, map, pctldev) =>
            if ret = 0 then some (ret, new_map ++ map.toList, map_num + 1, pctldev)
            else some (ret, new_map, map_num, pctldev)
        else some (ret, new_map, map_num, pctldev)
      match after_conf with
      | none => none
      | some (ret, new_map, map_num, pctldev) =>
        if map_num = 0 then some (ret, none, pctldev)
        else some (0, some (new_map, map_num), pctldev)

/-! ## Mux engine -/

/-- The C function `ur_set_pin_mux`: the read-modify-write of the two mode bits
of one pin in the mux register of its port. -/
def ur_set_pin_mux (pin_ctrl : ur_pinctrl) (pin_vals : ur_pin_val) : Option (Int × ur_pinctrl) :=
  match pin_ctrl.match_data.ports[pin_vals.port]? with
  | none => none
  | some port =>
    let reg := port.func_offset
    match shl32 (UR_FUNC0 ||| UR_FUNC1) pin_vals.pin, shl32 pin_vals.mode pin_vals.pin with
    | some mask, some bits =>
      let val := readl_relaxed pin_ctrl.regs reg
      let val := val &&& not32 mask
      let val := val ||| bits
      some (0, { pin_ctrl with regs := writel_relaxed val reg pin_ctrl.regs })
    | _, _ => none

/-- The loop of `ur_set_mux` over the pins of the group: `n` iterations are
left and `i` is the loop variable. -/
def ur_set_mux_loop (pin_vals : List ur_pin_val) : Nat → Nat → ur_pinctrl → Option ur_pinctrl
  | 0, _, pin_ctrl => some pin_ctrl
  | n + 1, i, pin_ctrl =>
    match pin_vals[i]? with
    | none => none
    | some pin_val =>
      match ur_set_pin_mux pin_ctrl pin_val with
      | none => none
      | some (_, pin_ctrl) => ur_set_mux_loop pin_vals n (i + 1) pin_ctrl

/-- The C function `ur_set_mux`. -/
def ur_set_mux (pctldev : pinctrl_dev) (func_selector group_selector : Nat) :
    Option (Int × pinctrl_dev) :=
  let ur_pinctrl := pinctrl_dev_get_drvdata pctldev
  match pinctrl_generic_get_group pctldev group_selector with
  | none => some (-EINVAL, pctldev)
  | some ur_group =>
    match ur_group.data with
    | none => some (-EINVAL, pctldev)
    | some pin_vals =>
      match ur_set_mux_loop pin_vals ur_group.grp.npins 0 ur_pinctrl with
      | none => none
      | some ur_pinctrl => some (0, { pctldev with drvdata := ur_pinctrl })

/-! ## Config engine -/

def UR_CONF_BIT_PER_PIN : Nat := 4
def UR_CONF_PIN_PER_REG : Nat := 32 / UR_CONF_BIT_PER_PIN

/-- The C function `ur_config_to_pin_val`: the return code and the updated `*pin_vals`. -/
def ur_config_to_pin_val (pin_ctrl : ur_pinctrl) (pin_vals : ur_pin_val)
    (config : packed_config) : Int × ur_pin_val :=
  let param := pinconf_to_config_param config
  match param with
  | .PIN_CONFIG_BIAS_DISABLE =>
    (0, { pin_vals with mode := pin_vals.conf &&& not32 UR_BIAS_MASK })
  | .PIN_CONFIG_BIAS_HIGH_IMPEDANCE =>
    (0, { pin_vals with mode := pin_vals.conf &&& not32 (UR_PULL_DOWN ||| UR_PULL_UP) })
  | .PIN_CONFIG_BIAS_PULL_PIN_DEFAULT
  | .PIN_CONFIG_BIAS_PULL_DOWN =>
    (0, { pin_vals with mode := pin_vals.conf ||| UR_PULL_DOWN })
  | .PIN_CONFIG_BIAS_PULL_UP =>
    (0, { pin_vals with mode := pin_vals.conf ||| UR_PULL_UP })
  | .PIN_CONFIG_DRIVE_PUSH_PULL
  | .PIN_CONFIG_PERSIST_STATE =>
    (0, pin_vals)
  | _ => (-EOPNOTSUPP, pin_vals)

/-- The C function `ur_set_pin_conf`: the read-modify-write of the 4-bit field
of one pin in the config registers of its port. -/
def ur_set_pin_conf (pin_ctrl : ur_pinctrl) (pin_vals : ur_pin_val) : Option (Int × ur_pinctrl) :=
  match pin_ctrl.match_data.ports[pin_vals.port]? with
  | none => none
  | some port_desc =>
    let reg := port_desc.conf_offset
    let reg := reg + u32 ((pin_vals.pin / UR_CONF_PIN_PER_REG) * UR_CONF_BIT_PER_PIN)
    let shift := u32 ((pin_vals.pin % UR_CONF_PIN_PER_REG) * UR_CONF_BIT_PER_PIN)
    match shl32 pin_vals.conf shift, shl32 UR_BIAS_MASK shift with
    | some conf, some mask =>
      let val := readl_relaxed pin_ctrl.regs reg
      let val := val &&& not32 mask
      let val := val ||| conf
      some (0, { pin_ctrl with regs := writel_relaxed val reg pin_ctrl.regs })
    | _, _ => none

/-- The C function `ur_pin_config_get`. -/
def ur_pin_config_get (pctldev : pinctrl_dev) (pin : Nat) : Int × pinctrl_dev :=
  (-EOPNOTSUPP, pctldev)

/-- The loop of `ur_pin_config_set` over `configs[0 .. num_configs)`, the array
and its length being the list. -/
def ur_pin_config_set_loop : List packed_config → ur_pinctrl → ur_pin_val →
    Option (Int × ur_pinctrl)
  | [], ur_pinctrl, _ => some (0, ur_pinctrl)
  | config :: configs, ur_pinctrl, pin_val =>
    let (ret, pin_val) := ur_config_to_pin_val ur_pinctrl pin_val config
    if ret < 0 then some (ret, ur_pinctrl)
    else
      match ur_set_pin_conf ur_pinctrl pin_val with
      | none => none
      | some (_, ur_pinctrl) => ur_pin_config_set_loop configs ur_pinctrl pin_val

/-- The C function `ur_pin_config_set`; the local `pin_val` is written in full
by `ur_pin_num_to_port_pin` before it is read. -/
def ur_pin_config_set (pctldev : pinctrl_dev) (pin : Nat) (configs : List packed_config) :
    Option (Int × pinctrl_dev) :=
  let ur_pinctrl := pinctrl_dev_get_drvdata pctldev
  match ur_pin_num_to_port_pin ur_pinctrl.match_data { port := 0, pin := 0, mode := 0 } pin with
  | none => none
  | some (ret, pin_val) =>
    if ret < 0 then some (ret, pctldev)
    else
      match ur_pin_config_set_loop configs ur_pinctrl pin_val with
      | none => none
      | some (ret, ur_pinctrl) => some (ret, { pctldev with drvdata := ur_pinctrl })

/-- The C function `ur_pin_config_group_get`. -/
def ur_pin_config_group_get (pctldev : pinctrl_dev) (selector : Nat) (config : packed_config) :
    Int × pinctrl_dev :=
  (-EOPNOTSUPP, pctldev)

/-- The loop of `ur_pin_config_group_set` over `pin_conf[0 .. num_configs)`, the
array and its length being the list. -/
def ur_pin_config_group_set_loop : List ur_pin_val → ur_pinctrl → Option ur_pinctrl
  | [], ur_pinctrl => some ur_pinctrl
  | pin_conf :: rest, ur_pinctrl =>
    match ur_set_pin_conf ur_pinctrl pin_conf with
    | none => none
    | some (_, ur_pinctrl) => ur_pin_config_group_set_loop rest ur_pinctrl

/-- The C function `ur_pin_config_group_set`. The driver casts `configs` to an
array of `struct ur_pin_val` (the array `ur_pinconf_to_map` stored in the map),
so the argument is that list of pin values. -/
def ur_pin_config_group_set (pctldev : pinctrl_dev) (selector : Nat)
    (configs : List ur_pin_val) : Option (Int × pinctrl_dev) :=
  let ur_pinctrl := pinctrl_dev_get_drvdata pctldev
  match pinctrl_generic_get_group pctldev selector with
  | none => some (-EINVAL, pctldev)
  | some ur_group =>
    match ur_pin_config_group_set_loop configs ur_pinctrl with
    | none => none
    | some ur_pinctrl => some (0, { pctldev with drvdata := ur_pinctrl })

/-- The walk of `ur_pin_num_to_port_pin` over the ports that are still ahead,
used to reason about the indexed loop. -/
def port_walk : List ur_port_desc → Nat → ur_pin_val → Nat → Int × ur_pin_val
  | [], _, pin_val, _ => (-EINVAL, pin_val)
  | port_desc :: rest, i, pin_val, pin_num =>
    if pin_num < port_desc.npins then (0, { port := i, pin := pin_num, mode := 0 })
    else port_walk rest (i + 1) pin_val (u32 (pin_num - port_desc.npins))

/-- The sum of the pin counts of a list of ports. -/
def npins_sum (ports : List ur_port_desc) : Nat := (ports.map ur_port_desc.npins).sum

/-- The word `ur_set_pin_mux` computes from the word `old` read from the mux
register: `(old & ~((UR_FUNC0 | UR_FUNC1) << pin)) | (mode << pin)`. -/
def mux_word (old pin mode : Nat) : Nat :=
  (u32 old &&& not32 (u32 ((UR_FUNC0 ||| UR_FUNC1) <<< pin))) ||| u32 (mode <<< pin)

/-- The word `ur_set_pin_conf` computes from the word `old` read from the config
register: `(old & ~(UR_BIAS_MASK << s)) | (conf << s)` with `s = (pin % 8) * 4`. -/
def conf_word (old pin conf : Nat) : Nat :=
  (u32 old &&& not32 (u32 (UR_BIAS_MASK <<< ((pin % 8) * 4)))) ||| u32 (conf <<< ((pin % 8) * 4))

/-- The byte offset of the config register holding the field of pin `pin` of a port. -/
def conf_reg (port_desc : ur_port_desc) (pin : Nat) : Nat :=
  port_desc.conf_offset + (pin / 8) * 4

/-- The parameters the translation of `ur_config_to_pin_val` accepts. -/
def supported_param : pin_config_param → Bool
  | .PIN_CONFIG_BIAS_DISABLE => true
  | .PIN_CONFIG_BIAS_HIGH_IMPEDANCE => true
  | .PIN_CONFIG_BIAS_PULL_PIN_DEFAULT => true
  | .PIN_CONFIG_BIAS_PULL_DOWN => true
  | .PIN_CONFIG_BIAS_PULL_UP => true
  | .PIN_CONFIG_DRIVE_PUSH_PULL => true
  | .PIN_CONFIG_PERSIST_STATE => true
  | _ => false

/-- A configuration word is supported when its parameter is. -/
def supported (config : packed_config) : Bool := supported_param config.param

/-- The accumulator after the translation of a list of configuration words,
folding `ur_config_to_pin_val` from the left. -/
def fold_configs (pin_ctrl : ur_pinctrl) (pin_val : ur_pin_val) (configs : List packed_config) :
    ur_pin_val :=
  configs.foldl (fun acc config => (ur_config_to_pin_val pin_ctrl acc config).2) pin_val

/-- A device on the DP1000 table whose registers all hold zero and whose registry is empty. -/
def dp1000_dev : pinctrl_dev where
  drvdata := { match_data := ur_dp1000_match_data, regs := fun _ => 0 }
  pin_group_tree := []
  num_groups := 0
  pin_function_tree := []
  num_functions := 0

/-- A subnode whose mux property names offset 8 of port B, a port of 8 pins. -/
def np_offset_past_port : device_node where
  name := "past"
  properties := [(PINMUX_PROP_NAME, [[PORT_B, 8, UR_FUNC0]])]

/-- The DP1000 device after the subnode "uart0" with the mux triple `(A, 2, UR_FUNC0)`
has been registered: one group and one function, all registers zero. -/
def dp1000_uart0_dev : pinctrl_dev where
  drvdata := { match_data := ur_dp1000_match_data, regs := fun _ => 0 }
  pin_group_tree :=
    [(0, { grp := { name := "uart0", pins := [2], npins := 1 },
           data := some [{ port := PORT_A, pin := 2, mode := UR_FUNC0 }] })]
  num_groups := 1
  pin_function_tree := [(0, { name := "uart0", group_names := ["uart0"], num_group_names := 1 })]
  num_functions := 1

/-- The pin value `ur_subnode_to_pin` builds from one tuple of the property. -/
def row_pin_val (row : List Nat) : ur_pin_val :=
  { port := row.getD 0 0, pin := row.getD 1 0, mode := row.getD 2 0 }

/-- The global index of the pin named by one tuple: the pin counts of the ports
preceding its port plus its offset, as the `int` that `ur_pin_to_desc` returns. -/
def row_index (match_data : ur_pinctrl_match_data) (row : List Nat) : Int :=
  to_int (u32 (pins_before match_data (row.getD 0 0) + row.getD 1 0))

/-- The registration steps of `ur_subnode_to_pin` that follow its loop over the
rows: `pinctrl_generic_add_group`, `pinmux_generic_add_function` and the exits
through `free_group` and `free_pgnames`. -/
def subnode_register (pctldev : pinctrl_dev) (node_name : String) (group_pins : List Int)
    (pin_vals : List ur_pin_val) (rows : Nat) :
    Int × Option (List Int × List ur_pin_val × Nat) × pinctrl_dev :=
  let (ret, pctldev1) :=
    pinctrl_generic_add_group pctldev node_name group_pins rows (some pin_vals)
  if ret < 0 then (ret, none, pctldev1)
  else
    let (ret, pctldev2) := pinmux_generic_add_function pctldev1 node_name [node_name] 1
    if ret < 0 then
      let (_, pctldev3) := pinctrl_generic_remove_group pctldev2 (of_int ret)
      (ret, none, pctldev3)
    else
      (0, some (group_pins, pin_vals, rows), pctldev2)

/-- The DP1000 device after the subnode "i2c0" has been registered. -/
def dp1000_i2c0_dev : pinctrl_dev where
  drvdata := { match_data := ur_dp1000_match_data, regs := fun _ => 0 }
  pin_group_tree :=
    [(0, { grp := { name := "i2c0", pins := [4, 19], npins := 2 },
           data := some [{ port := PORT_A, pin := 4, mode := UR_FUNC0 },
                         { port := PORT_B, pin := 3, mode := UR_FUNC1 }] })]
  num_groups := 1
  pin_function_tree := [(0, { name := "i2c0", group_names := ["i2c0"], num_group_names := 1 })]
  num_functions := 1

/-- A subnode whose second tuple has only two fields. -/
def np_short_tuple : device_node where
  name := "spi0"
  properties := [(PINMUX_PROP_NAME, [[PORT_A, 4, UR_FUNC0], [PORT_B, 3], [PORT_C, 1, UR_FUNC1]])]

/-- The subnode "uart0" with the mux triple `(A, 2, UR_FUNC0)`. -/
def np_uart0 : device_node where
  name := "uart0"
  properties := [(PINMUX_PROP_NAME, [[PORT_A, 2, UR_FUNC0]])]

/-- The allocation outcome in which only the allocation inside
`pinmux_generic_add_function` fails. -/
def alloc_function_fails : alloc_outcome :=
  { pin_vals := true, group_pins := true, pgnames := true, add_group := true,
    add_function := false }

/-- The allocation outcome in which every allocation succeeds. -/
def alloc_all_ok : alloc_outcome :=
  { pin_vals := true, group_pins := true, pgnames := true, add_group := true,
    add_function := true }

/-- A subnode "pull" with the config triple `(B, 3, UR_PULL_UP)`. -/
def np_pull : device_node where
  name := "pull"
  properties := [(PINCONF_PROP_NAME, [[PORT_B, 3, UR_PULL_UP]])]

/-- The register state after the config read-modify-write of one pin value on
`regs` (unchanged when the table has no such port). -/
def conf_write (match_data : ur_pinctrl_match_data) (regs : Regs) (pin_val : ur_pin_val) : Regs :=
  match match_data.ports[pin_val.port]? with
  | some port_desc =>
    Function.update regs (conf_reg port_desc pin_val.pin)
      (conf_word (regs (conf_reg port_desc pin_val.pin)) pin_val.pin pin_val.conf)
  | none => regs

/-- The register state after the mux read-modify-write of one pin value on
`regs` (unchanged when the table has no such port). -/
def mux_write (match_data : ur_pinctrl_match_data) (regs : Regs) (pin_val : ur_pin_val) : Regs :=
  match match_data.ports[pin_val.port]? with
  | some port_desc =>
    Function.update regs port_desc.func_offset
      (mux_word (regs port_desc.func_offset) pin_val.pin pin_val.mode)
  | none => regs

/-- Bit `j` of register `reg` lies in the 4-bit config field of the pin named by `pin_val`. -/
def in_conf_field (match_data : ur_pinctrl_match_data) (pin_val : ur_pin_val) (reg j : Nat) :
    Prop :=
  ∃ port_desc, match_data.ports[pin_val.port]? = some port_desc ∧
    reg = conf_reg port_desc pin_val.pin ∧
    (pin_val.pin % 8) * 4 ≤ j ∧ j < (pin_val.pin % 8) * 4 + 4

/-- Bit `j` of register `reg` is one of the two mux bits of the pin named by `pin_val`. -/
def is_mux_bit (match_data : ur_pinctrl_match_data) (pin_val : ur_pin_val) (reg j : Nat) : Prop :=
  ∃ port_desc, match_data.ports[pin_val.port]? = some port_desc ∧
    reg = port_desc.func_offset ∧ (j = pin_val.pin ∨ j = pin_val.pin + 16)

/-- Distinct ports of the table have distinct mux registers. -/
def mux_regs_distinct (match_data : ur_pinctrl_match_data) : Prop :=
  (match_data.ports.map ur_port_desc.func_offset).Nodup

instance (match_data : ur_pinctrl_match_data) : Decidable (mux_regs_distinct match_data) := by
  unfold mux_regs_distinct
  infer_instance

/-- A subnode with both properties: a mux property whose tuple is short and a
complete config property. -/
def np_mux_short_conf_ok : device_node where
  name := "mixed"
  properties := [(PINMUX_PROP_NAME, [[PORT_A, 2]]), (PINCONF_PROP_NAME, [[PORT_B, 3, UR_PULL_UP]])]

/-- The hardware positions of one pin: its port and offset, the byte offset of
its mux register, and the byte offset and shift of its config field. -/
structure pin_slots where
  port : Nat
  offset : Nat
  mux_reg : Nat
  conf_reg : Nat
  conf_shift : Nat
  deriving DecidableEq, Repr

/-- The hardware positions of a global pin index: the pair `(port, offset)` found
by `ur_pin_num_to_port_pin`, the mux register `ur_set_pin_mux` uses for it and
the config register and shift `ur_set_pin_conf` uses for it. -/
def pin_hw (match_data : ur_pinctrl_match_data) (pin_index : Nat) : Option pin_slots :=
  match ur_pin_num_to_port_pin match_data { port := 0, pin := 0, mode := 0 } pin_index with
  | some (0, pin_val) =>
    match match_data.ports[pin_val.port]? with
    | some port_desc =>
      some { port := pin_val.port, offset := pin_val.pin, mux_reg := port_desc.func_offset,
             conf_reg := conf_reg port_desc pin_val.pin, conf_shift := (pin_val.pin % 8) * 4 }
    | none => none
  | _ => none

/-- Two pins share no hardware bit: the mux bits `offset` and `offset + 16` of one
differ from both mux bits of the other, and their config fields differ. -/
def slots_disjoint (a b : pin_slots) : Prop :=
  (a.mux_reg, a.offset) ≠ (b.mux_reg, b.offset) ∧
  (a.mux_reg, a.offset) ≠ (b.mux_reg, b.offset + 16) ∧
  (a.mux_reg, a.offset + 16) ≠ (b.mux_reg, b.offset) ∧
  (a.mux_reg, a.offset + 16) ≠ (b.mux_reg, b.offset + 16) ∧
  (a.conf_reg, a.conf_shift) ≠ (b.conf_reg, b.conf_shift)

instance (a b : pin_slots) : Decidable (slots_disjoint a b) := by
  unfold slots_disjoint
  infer_instance

/-- The registers of two pins never overlap across kinds or ports: a config
word is no mux register, and the config words of different ports differ. All
registers are 4-byte aligned 32-bit words, so different offsets do not overlap. -/
def words_apart (a b : pin_slots) : Prop :=
  a.conf_reg ≠ b.mux_reg ∧ (a.port ≠ b.port → a.conf_reg ≠ b.conf_reg) ∧
  a.mux_reg % 4 = 0 ∧ a.conf_reg % 4 = 0

instance (a b : pin_slots) : Decidable (words_apart a b) := by
  unfold words_apart
  infer_instance

/-- The check of `slots_disjoint` and `words_apart` on two global pin indices. -/
def pins_apart (match_data : ur_pinctrl_match_data) (i j : Nat) : Bool :=
  match pin_hw match_data i, pin_hw match_data j with
  | some a, some b =>
    decide ((i ≠ j → slots_disjoint a b) ∧ words_apart a b ∧ a.offset + 16 < 32 ∧
      a.conf_shift + 4 ≤ 32)
  | _, _ => false

/-! ## Lemmas on machine integers -/

theorem u32_of_lt {n : Nat} (h : n < 2 ^ 32) : u32 n = n := Nat.mod_eq_of_lt h

theorem u32_lt (n : Nat) : u32 n < 2 ^ 32 := Nat.mod_lt _ (by decide)

theorem u32_u32_add (a b : Nat) : u32 (u32 a + b) = u32 (a + b) := by
  unfold u32; omega

theorem of_int_to_int (n : Nat) : of_int (to_int n) = u32 n := by
  unfold of_int to_int u32
  split <;> omega

/-! ## Lemmas on 32-bit words -/

theorem testBit_u32 (n j : Nat) : (u32 n).testBit j = (decide (j < 32) && n.testBit j) :=
  Nat.testBit_mod_two_pow n 32 j

theorem testBit_not32 (m j : Nat) : (not32 m).testBit j = (decide (j < 32) && !m.testBit j) := by
  have h : (0xFFFFFFFF : Nat) = 2 ^ 32 - 1 := by decide
  unfold not32
  rw [h, Nat.testBit_xor, Nat.testBit_two_pow_sub_one, testBit_u32]
  cases decide (j < 32) <;> cases m.testBit j <;> rfl

theorem testBit_func_mask (k : Nat) :
    (UR_FUNC0 ||| UR_FUNC1).testBit k = (decide (k = 0) || decide (k = 16)) := by
  have h : UR_FUNC0 ||| UR_FUNC1 = 2 ^ 0 ||| 2 ^ 16 := by decide
  rw [h, Nat.testBit_or, Nat.testBit_two_pow, Nat.testBit_two_pow]
  simp only [eq_comm]

theorem testBit_bias_mask (k : Nat) : UR_BIAS_MASK.testBit k = decide (k < 4) := by
  have h : UR_BIAS_MASK = 2 ^ 4 - 1 := by decide
  rw [h, Nat.testBit_two_pow_sub_one]

theorem lt_two_pow_32_of_testBit (x : Nat) (h : ∀ j, 32 ≤ j → x.testBit j = false) :
    x < 2 ^ 32 :=
  Nat.lt_pow_two_of_testBit x h

theorem mux_word_testBit (old pin mode j : Nat) :
    (mux_word old pin mode).testBit j
      = (decide (j < 32) &&
          ((old.testBit j && !(decide (pin ≤ j) && (decide (j = pin) || decide (j = pin + 16))))
            || (decide (pin ≤ j) && mode.testBit (j - pin)))) := by
  unfold mux_word
  rw [Nat.testBit_or, Nat.testBit_and, testBit_u32, testBit_not32, testBit_u32, testBit_u32,
    Nat.testBit_shiftLeft, Nat.testBit_shiftLeft, testBit_func_mask]
  by_cases h32 : j < 32 <;> by_cases hle : pin ≤ j <;> by_cases h0 : j = pin <;>
    by_cases h16 : j = pin + 16 <;> by_cases k0 : j - pin = 0 <;>
    by_cases k16 : j - pin = 16 <;>
    simp [h32, hle, h0, h16, k0, k16, ge_iff_le] <;> omega

theorem mux_word_lt (old pin mode : Nat) : mux_word old pin mode < 2 ^ 32 := by
  apply lt_two_pow_32_of_testBit
  intro j hj
  rw [mux_word_testBit]
  have : ¬ j < 32 := by omega
  simp [this]

theorem conf_word_testBit (old pin conf j : Nat) :
    (conf_word old pin conf).testBit j
      = (decide (j < 32) &&
          ((old.testBit j && !(decide ((pin % 8) * 4 ≤ j) && decide (j < (pin % 8) * 4 + 4)))
            || (decide ((pin % 8) * 4 ≤ j) && conf.testBit (j - (pin % 8) * 4)))) := by
  unfold conf_word
  rw [Nat.testBit_or, Nat.testBit_and, testBit_u32, testBit_not32, testBit_u32, testBit_u32,
    Nat.testBit_shiftLeft, Nat.testBit_shiftLeft, testBit_bias_mask]
  by_cases h32 : j < 32 <;> by_cases hle : (pin % 8) * 4 ≤ j <;>
    by_cases h4 : j < (pin % 8) * 4 + 4 <;> by_cases k4 : j - (pin % 8) * 4 < 4 <;>
    simp [h32, hle, h4, k4, ge_iff_le] <;> omega

theorem conf_word_lt (old pin conf : Nat) : conf_word old pin conf < 2 ^ 32 := by
  apply lt_two_pow_32_of_testBit
  intro j hj
  rw [conf_word_testBit]
  have : ¬ j < 32 := by omega
  simp [this]

/-! ## Lemmas on the pin index mapper -/

theorem getElem?_append_length_cons (pre : List ur_port_desc) (p : ur_port_desc)
    (rest : List ur_port_desc) : (pre ++ p :: rest)[pre.length]? = some p := by
  rw [List.getElem?_append_right (Nat.le_refl _)]
  simp

theorem ur_pin_to_desc_loop_spec (rest : List ur_port_desc) :
    ∀ (pre : List ur_port_desc) (n index : Nat), n ≤ rest.length → index < 2 ^ 32 →
      ur_pin_to_desc_loop (pre ++ rest) n pre.length index
        = some (u32 (index + npins_sum (rest.take n))) := by
  induction rest with
  | nil =>
    intro pre n index hn hi
    have : n = 0 := by simpa using hn
    subst this
    simp [ur_pin_to_desc_loop, npins_sum, u32_of_lt hi]
  | cons p rest ih =>
    intro pre n index hn hi
    cases n with
    | zero => simp [ur_pin_to_desc_loop, npins_sum, u32_of_lt hi]
    | succ n =>
      have hn2 : n ≤ rest.length := by simpa using hn
      have h := ih (pre ++ [p]) n (u32 (index + p.npins)) hn2 (u32_lt _)
      simp only [List.append_assoc, List.singleton_append, List.length_append,
        List.length_singleton] at h
      simp only [ur_pin_to_desc_loop, getElem?_append_length_cons, h]
      simp only [npins_sum, List.take_succ_cons, List.map_cons, List.sum_cons]
      rw [u32_u32_add, Nat.add_assoc]

theorem ur_pin_num_to_port_pin_loop_spec (rest : List ur_port_desc) :
    ∀ (pre : List ur_port_desc) (pin_val : ur_pin_val) (pin_num : Nat),
      ur_pin_num_to_port_pin_loop (pre ++ rest) rest.length pre.length pin_val pin_num
        = some (port_walk rest pre.length pin_val pin_num) := by
  induction rest with
  | nil => intro pre pin_val pin_num; simp [ur_pin_num_to_port_pin_loop, port_walk]
  | cons p rest ih =>
    intro pre pin_val pin_num
    have h := ih (pre ++ [p]) pin_val (u32 (pin_num - p.npins))
    simp only [List.append_assoc, List.singleton_append, List.length_append,
      List.length_singleton] at h
    simp only [List.length_cons, ur_pin_num_to_port_pin_loop, getElem?_append_length_cons,
      port_walk, h]
    split <;> rfl

theorem port_walk_hit (ports : List ur_port_desc) :
    ∀ (k i pin : Nat) (pin_val : ur_pin_val) (port_desc : ur_port_desc),
      ports[k]? = some port_desc → pin < port_desc.npins →
      npins_sum (ports.take k) + pin < 2 ^ 32 →
      port_walk ports i pin_val (npins_sum (ports.take k) + pin)
        = (0, { port := i + k, pin := pin, mode := 0 }) := by
  induction ports with
  | nil => intro k i pin pin_val port_desc h; simp at h
  | cons p rest ih =>
    intro k i pin pin_val port_desc h hpin hlt
    cases k with
    | zero =>
      simp only [List.getElem?_cons_zero, Option.some.injEq] at h
      subst h
      simp [port_walk, npins_sum, hpin]
    | succ k =>
      simp only [List.getElem?_cons_succ] at h
      simp only [npins_sum, List.take_succ_cons, List.map_cons, List.sum_cons] at hlt ⊢
      have hge : ¬ (p.npins + ((rest.take k).map ur_port_desc.npins).sum + pin < p.npins) := by
        omega
      have hsub : p.npins + ((rest.take k).map ur_port_desc.npins).sum + pin - p.npins
          = npins_sum (rest.take k) + pin := by
        unfold npins_sum; omega
      have hlt2 : npins_sum (rest.take k) + pin < 2 ^ 32 := by
        unfold npins_sum; omega
      rw [port_walk, if_neg hge, hsub, u32_of_lt hlt2, ih k (i + 1) pin pin_val port_desc h hpin hlt2]
      simp [Nat.add_assoc, Nat.add_comm 1 k]

theorem port_walk_found (ports : List ur_port_desc) :
    ∀ (i pin_num : Nat) (pin_val : ur_pin_val), pin_num < 2 ^ 32 → pin_num < npins_sum ports →
      ∃ k pin port_desc, port_walk ports i pin_val pin_num
          = (0, { port := i + k, pin := pin, mode := 0 }) ∧
        ports[k]? = some port_desc ∧ pin < port_desc.npins ∧
        npins_sum (ports.take k) + pin = pin_num := by
  induction ports with
  | nil => intro i pin_num pin_val _ h; simp [npins_sum] at h
  | cons p rest ih =>
    intro i pin_num pin_val h32 h
    simp only [npins_sum, List.map_cons, List.sum_cons] at h
    by_cases hp : pin_num < p.npins
    · exact ⟨0, pin_num, p, by simp [port_walk, hp], by simp, hp, by simp [npins_sum]⟩
    · have hsmall : pin_num - p.npins < 2 ^ 32 := by omega
      have hlt : pin_num - p.npins < npins_sum rest := by
        unfold npins_sum; omega
      obtain ⟨k, pin, port_desc, hw, hk, hpin, hsum⟩ := ih (i + 1) _ pin_val hsmall hlt
      refine ⟨k + 1, pin, port_desc, ?_, by simpa using hk, hpin, ?_⟩
      · rw [port_walk, if_neg hp, u32_of_lt hsmall, hw]
        simp [Nat.add_assoc, Nat.add_comm 1 k]
      · simp only [npins_sum, List.take_succ_cons, List.map_cons, List.sum_cons]
        unfold npins_sum at hsum
        omega

theorem port_walk_miss (ports : List ur_port_desc) :
    ∀ (i pin_num : Nat) (pin_val : ur_pin_val), pin_num < 2 ^ 32 → npins_sum ports ≤ pin_num →
      port_walk ports i pin_val pin_num = (-EINVAL, pin_val) := by
  induction ports with
  | nil => intro i pin_num pin_val _ _; rfl
  | cons p rest ih =>
    intro i pin_num pin_val h32 h
    simp only [npins_sum, List.map_cons, List.sum_cons] at h
    have hp : ¬ pin_num < p.npins := by omega
    have hsmall : pin_num - p.npins < 2 ^ 32 := by omega
    rw [port_walk, if_neg hp, u32_of_lt hsmall]
    exact ih (i + 1) _ pin_val hsmall (by unfold npins_sum; omega)

theorem npins_sum_take_add_lt (ports : List ur_port_desc) :
    ∀ (k pin : Nat) (port_desc : ur_port_desc), ports[k]? = some port_desc →
      pin < port_desc.npins → npins_sum (ports.take k) + pin < npins_sum ports := by
  induction ports with
  | nil => intro k pin port_desc h; simp at h
  | cons p rest ih =>
    intro k pin port_desc h hpin
    cases k with
    | zero =>
      simp only [List.getElem?_cons_zero, Option.some.injEq] at h
      subst h
      simp [npins_sum]; omega
    | succ k =>
      simp only [List.getElem?_cons_succ] at h
      have := ih k pin port_desc h hpin
      simp only [npins_sum, List.take_succ_cons, List.map_cons, List.sum_cons] at this ⊢
      omega

theorem npins_sum_take_succ (ports : List ur_port_desc) :
    ∀ (k : Nat) (port_desc : ur_port_desc), ports[k]? = some port_desc →
      npins_sum (ports.take (k + 1)) = npins_sum (ports.take k) + port_desc.npins := by
  induction ports with
  | nil => intro k port_desc h; simp at h
  | cons p rest ih =>
    intro k port_desc h
    cases k with
    | zero =>
      simp only [List.getElem?_cons_zero, Option.some.injEq] at h
      subst h
      simp [npins_sum]
    | succ k =>
      simp only [List.getElem?_cons_succ] at h
      have := ih k port_desc h
      simp only [npins_sum, List.take_succ_cons, List.map_cons, List.sum_cons] at this ⊢
      omega

theorem npins_sum_take_mono (ports : List ur_port_desc) :
    ∀ (a b : Nat), a ≤ b → npins_sum (ports.take a) ≤ npins_sum (ports.take b) := by
  induction ports with
  | nil => intro a b _; simp [npins_sum]
  | cons p rest ih =>
    intro a b hab
    cases a with
    | zero => simp [npins_sum]
    | succ a =>
      cases b with
      | zero => omega
      | succ b =>
        have := ih a b (by omega)
        simp only [npins_sum, List.take_succ_cons, List.map_cons, List.sum_cons] at this ⊢
        omega

theorem ur_pin_to_desc_eq (match_data : ur_pinctrl_match_data) (port pin mode : Nat)
    (hport : port ≤ match_data.ports.length) :
    ur_pin_to_desc match_data { port := port, pin := pin, mode := mode }
      = some (to_int (u32 (pins_before match_data port + pin))) := by
  have h := ur_pin_to_desc_loop_spec match_data.ports [] port 0 hport (by decide)
  simp only [List.nil_append, List.length_nil, Nat.zero_add] at h
  simp only [ur_pin_to_desc, h, pins_before, npins_sum, u32_u32_add]

theorem ur_pin_num_to_port_pin_eq (match_data : ur_pinctrl_match_data)
    (hlen : match_data.num_ports = match_data.ports.length) (pin_val : ur_pin_val)
    (pin_num : Nat) :
    ur_pin_num_to_port_pin match_data pin_val pin_num
      = some (port_walk match_data.ports 0 pin_val pin_num) := by
  have h := ur_pin_num_to_port_pin_loop_spec match_data.ports [] pin_val pin_num
  simp only [List.nil_append, List.length_nil] at h
  rw [ur_pin_num_to_port_pin, hlen, h]

theorem valid_pair_getElem? {match_data : ur_pinctrl_match_data} {port pin : Nat}
    (h : valid_pair match_data port pin) :
    ∃ port_desc, match_data.ports[port]? = some port_desc ∧ pin < port_desc.npins := by
  obtain ⟨_, hpin⟩ := h
  unfold npins_of at hpin
  cases hget : match_data.ports[port]? with
  | none => simp [hget] at hpin
  | some port_desc => exact ⟨port_desc, rfl, by simpa [hget] using hpin⟩

theorem valid_pair_of_getElem? {match_data : ur_pinctrl_match_data} {port pin : Nat}
    {port_desc : ur_port_desc} (hlen : match_data.num_ports = match_data.ports.length)
    (hget : match_data.ports[port]? = some port_desc) (hpin : pin < port_desc.npins) :
    valid_pair match_data port pin := by
  refine ⟨?_, by simpa [npins_of, hget] using hpin⟩
  rw [hlen]
  exact (List.getElem?_eq_some_iff.mp hget).1

/-- The forward round trip on a well-formed table, shared by the mapper theorems. -/
theorem round_trip_valid (match_data : ur_pinctrl_match_data) (hok : port_table_ok match_data)
    (port pin mode : Nat) (pin_val : ur_pin_val) (hvalid : valid_pair match_data port pin) :
    ∃ index, ur_pin_to_desc match_data { port := port, pin := pin, mode := mode } = some index ∧
      of_int index = pins_before match_data port + pin ∧
      pins_before match_data port + pin < total_pins match_data ∧
      ur_pin_num_to_port_pin match_data pin_val (of_int index)
        = some (0, { port := port, pin := pin, mode := 0 }) := by
  obtain ⟨hlen, hsum, h32⟩ := hok
  obtain ⟨port_desc, hget, hpin⟩ := valid_pair_getElem? hvalid
  have hport : port ≤ match_data.ports.length :=
    Nat.le_of_lt (List.getElem?_eq_some_iff.mp hget).1
  have hlt : pins_before match_data port + pin < total_pins match_data :=
    npins_sum_take_add_lt match_data.ports port pin port_desc hget hpin
  have hlt32 : pins_before match_data port + pin < 2 ^ 32 := by omega
  refine ⟨_, ur_pin_to_desc_eq match_data port pin mode hport, ?_, hlt, ?_⟩
  · rw [of_int_to_int, u32_of_lt hlt32, u32_of_lt hlt32]
  · rw [of_int_to_int, u32_of_lt hlt32, u32_of_lt hlt32,
      ur_pin_num_to_port_pin_eq match_data hlen]
    have := port_walk_hit match_data.ports port 0 pin pin_val port_desc hget hpin hlt32
    simp only [Nat.zero_add] at this
    exact congrArg some this

/-- An index at or past the end of port `port` that lies below the total pin
count is mapped back to a valid pair of a later port. -/
theorem index_past_port_later (match_data : ur_pinctrl_match_data) (port index : Nat)
    (port_desc : ur_port_desc) (hlen : match_data.num_ports = match_data.ports.length)
    (hget : match_data.ports[port]? = some port_desc)
    (hpast : pins_before match_data port + port_desc.npins ≤ index)
    (hlt : index < total_pins match_data) (h32 : index < 2 ^ 32) :
    ∃ port2 pin2, port < port2 ∧ valid_pair match_data port2 pin2 ∧
      ∀ pin_val, ur_pin_num_to_port_pin match_data pin_val index
        = some (0, { port := port2, pin := pin2, mode := 0 }) := by
  obtain ⟨k, pin2, pd, _, hk, hpin, hadd⟩ :=
    port_walk_found match_data.ports 0 index { port := 0, pin := 0, mode := 0 } h32 hlt
  have hsucc := npins_sum_take_succ match_data.ports k pd hk
  have hsucc0 := npins_sum_take_succ match_data.ports port port_desc hget
  have hpb : pins_before match_data port = npins_sum (match_data.ports.take port) := rfl
  refine ⟨k, pin2, ?_, valid_pair_of_getElem? hlen hk hpin, ?_⟩
  · by_contra hle
    have hmono := npins_sum_take_mono match_data.ports (k + 1) (port + 1) (by omega)
    omega
  · intro pin_val
    rw [ur_pin_num_to_port_pin_eq match_data hlen]
    have := port_walk_hit match_data.ports k 0 pin2 pin_val pd hk hpin (by omega)
    simp only [Nat.zero_add] at this
    rw [← hadd]
    exact congrArg some this

/-! ## The pin index mapper -/

/-- C1: on every well-formed port table and for every valid pair `(port, pin)`
(`port < num_ports`, `pin < npins[port]`), `ur_pin_to_desc` returns an index and
`ur_pin_num_to_port_pin` applied to that index succeeds (return code 0) with
exactly `(port, pin)`; on the DP1000 table, `(B, 3)` maps to 19 and 19 maps back
to `(B, 3)`. -/
theorem pin_index_round_trip :
    (∀ (match_data : ur_pinctrl_match_data) (port pin mode : Nat) (pin_val : ur_pin_val),
      port_table_ok match_data → valid_pair match_data port pin →
      ∃ index, ur_pin_to_desc match_data { port := port, pin := pin, mode := mode } = some index ∧
        ur_pin_num_to_port_pin match_data pin_val (of_int index)
          = some (0, { port := port, pin := pin, mode := 0 })) ∧
    (∀ (mode : Nat) (pin_val : ur_pin_val),
      ur_pin_to_desc ur_dp1000_match_data { port := PORT_B, pin := 3, mode := mode } = some 19 ∧
      ur_pin_num_to_port_pin ur_dp1000_match_data pin_val 19
        = some (0, { port := PORT_B, pin := 3, mode := 0 })) := by
  constructor
  · intro match_data port pin mode pin_val hok hvalid
    obtain ⟨index, h1, _, _, h2⟩ := round_trip_valid match_data hok port pin mode pin_val hvalid
    exact ⟨index, h1, h2⟩
  · intro mode pin_val
    exact ⟨rfl, rfl⟩

/-- Witness of C1: the pair `(LPC, 12)` of the DP1000 table. -/
theorem pin_index_round_trip_witness :
    port_table_ok ur_dp1000_match_data ∧ valid_pair ur_dp1000_match_data PORT_LPC 12 ∧
    ∃ index, ur_pin_to_desc ur_dp1000_match_data { port := PORT_LPC, pin := 12, mode := 1 }
        = some index ∧
      ur_pin_num_to_port_pin ur_dp1000_match_data { port := 0, pin := 0, mode := 0 } (of_int index)
        = some (0, { port := PORT_LPC, pin := 12, mode := 0 }) :=
  ⟨by decide, by decide,
    pin_index_round_trip.1 ur_dp1000_match_data PORT_LPC 12 1 { port := 0, pin := 0, mode := 0 }
      (by decide) (by decide)⟩

/-- C2: on every well-formed port table and for every `pin_index` below the
total pin count, `ur_pin_num_to_port_pin` succeeds with a valid pair
`(port, pin)` that `ur_pin_to_desc` maps to `pin_index` again, and that pair is
the only valid pair mapped to `pin_index`: the mapping is a bijection between
`[0, total_pins)` and the valid pairs. -/
theorem pin_index_bijection (match_data : ur_pinctrl_match_data) (pin_index : Nat)
    (pin_val : ur_pin_val) (hok : port_table_ok match_data)
    (hlt : pin_index < total_pins match_data) :
    ∃ port pin,
      ur_pin_num_to_port_pin match_data pin_val pin_index
        = some (0, { port := port, pin := pin, mode := 0 }) ∧
      valid_pair match_data port pin ∧
      (∀ mode, (ur_pin_to_desc match_data { port := port, pin := pin, mode := mode }).map of_int
        = some pin_index) ∧
      (∀ port2 pin2 mode, valid_pair match_data port2 pin2 →
        (ur_pin_to_desc match_data { port := port2, pin := pin2, mode := mode }).map of_int
          = some pin_index → port2 = port ∧ pin2 = pin) := by
  have hok2 := hok
  obtain ⟨hlen, hsum, h32⟩ := hok2
  have hidx32 : pin_index < 2 ^ 32 := by omega
  obtain ⟨k, pin, port_desc, hw, hget, hpin, hadd⟩ :=
    port_walk_found match_data.ports 0 pin_index pin_val hidx32 hlt
  simp only [Nat.zero_add] at hw
  have hvalid : valid_pair match_data k pin := valid_pair_of_getElem? hlen hget hpin
  have hfwd : ∀ mode, (ur_pin_to_desc match_data { port := k, pin := pin, mode := mode }).map of_int
      = some pin_index := by
    intro mode
    obtain ⟨index, h1, h2, _, _⟩ := round_trip_valid match_data hok k pin mode pin_val hvalid
    rw [h1, Option.map_some', h2]
    exact congrArg some hadd
  refine ⟨k, pin, ?_, hvalid, hfwd, ?_⟩
  · rw [ur_pin_num_to_port_pin_eq match_data hlen, hw]
  · intro port2 pin2 mode hvalid2 hmap
    obtain ⟨index, h1, h2, _, h4⟩ := round_trip_valid match_data hok port2 pin2 mode pin_val hvalid2
    rw [h1, Option.map_some', Option.some.injEq] at hmap
    rw [hmap, ur_pin_num_to_port_pin_eq match_data hlen, hw] at h4
    simp only [Option.some.injEq, Prod.mk.injEq, ur_pin_val.mk.injEq, true_and, and_true] at h4
    exact ⟨h4.1.symm, h4.2.symm⟩

/-- Witness of C2: pin index 52, the last pin of the DP1000 table. -/
theorem pin_index_bijection_witness :
    port_table_ok ur_dp1000_match_data ∧ 52 < total_pins ur_dp1000_match_data ∧
    ∃ port pin,
      ur_pin_num_to_port_pin ur_dp1000_match_data { port := 0, pin := 0, mode := 0 } 52
        = some (0, { port := port, pin := pin, mode := 0 }) ∧
      valid_pair ur_dp1000_match_data port pin ∧
      (∀ mode, (ur_pin_to_desc ur_dp1000_match_data
          { port := port, pin := pin, mode := mode }).map of_int = some 52) ∧
      (∀ port2 pin2 mode, valid_pair ur_dp1000_match_data port2 pin2 →
        (ur_pin_to_desc ur_dp1000_match_data
          { port := port2, pin := pin2, mode := mode }).map of_int = some 52 →
        port2 = port ∧ pin2 = pin) :=
  ⟨by decide, by decide,
    pin_index_bijection ur_dp1000_match_data 52 { port := 0, pin := 0, mode := 0 }
      (by decide) (by decide)⟩

/-- C3: on every port table whose `num_ports` counts its entries and for every
32-bit `pin_index`, `ur_pin_num_to_port_pin` returns `-EINVAL` (leaving
`*pin_val` as it was) exactly when `pin_index >= total_pins`, and otherwise
returns 0 with a valid pair (`port < num_ports`, `pin < npins[port]`) and the
configuration accumulator `conf` set to 0. -/
theorem pin_num_out_of_range (match_data : ur_pinctrl_match_data) (pin_index : Nat)
    (pin_val : ur_pin_val) (hlen : match_data.num_ports = match_data.ports.length)
    (h32 : pin_index < 2 ^ 32) :
    ∃ ret out, ur_pin_num_to_port_pin match_data pin_val pin_index = some (ret, out) ∧
      (ret = -EINVAL ↔ total_pins match_data ≤ pin_index) ∧
      (ret = -EINVAL → out = pin_val) ∧
      (ret ≠ -EINVAL → ret = 0 ∧ valid_pair match_data out.port out.pin ∧ out.conf = 0) := by
  rw [ur_pin_num_to_port_pin_eq match_data hlen]
  by_cases hlt : pin_index < total_pins match_data
  · obtain ⟨k, pin, port_desc, hw, hget, hpin, _⟩ :=
      port_walk_found match_data.ports 0 pin_index pin_val h32 hlt
    simp only [Nat.zero_add] at hw
    refine ⟨0, _, congrArg some hw, ?_, ?_, ?_⟩
    · constructor
      · intro h; exact absurd h (by decide)
      · intro h; omega
    · intro h; exact absurd h (by decide)
    · intro _
      exact ⟨rfl, valid_pair_of_getElem? hlen hget hpin, rfl⟩
  · have hge : total_pins match_data ≤ pin_index := Nat.le_of_not_lt hlt
    have hw := port_walk_miss match_data.ports 0 pin_index pin_val h32 hge
    refine ⟨-EINVAL, pin_val, congrArg some hw, ?_, ?_, ?_⟩
    · exact ⟨fun _ => hge, fun _ => rfl⟩
    · intro _; rfl
    · intro h; exact absurd rfl h

/-- Witness of C3: pin index 53 on the DP1000 table, the first index out of range. -/
theorem pin_num_out_of_range_witness :
    ur_dp1000_match_data.num_ports = ur_dp1000_match_data.ports.length ∧ 53 < 2 ^ 32 ∧
    ∃ ret out, ur_pin_num_to_port_pin ur_dp1000_match_data { port := 7, pin := 7, mode := 7 } 53
        = some (ret, out) ∧
      (ret = -EINVAL ↔ total_pins ur_dp1000_match_data ≤ 53) ∧
      (ret = -EINVAL → out = { port := 7, pin := 7, mode := 7 }) ∧
      (ret ≠ -EINVAL →
        ret = 0 ∧ valid_pair ur_dp1000_match_data out.port out.pin ∧ out.conf = 0) :=
  ⟨by decide, by decide,
    pin_num_out_of_range ur_dp1000_match_data 53 { port := 7, pin := 7, mode := 7 }
      (by decide) (by decide)⟩

theorem any_false_of_forall {α : Type} (l : List α) (p : α → Bool)
    (h : ∀ x ∈ l, p x = false) : l.any p = false := by
  simpa [List.any_eq_false] using h

/-! ## Building a group from out-of-range offsets -/

/-- Counterexample to C4 as stated: offset 8 of port B (which has 8 pins) is
not rejected. `ur_pin_to_desc` returns 24, the index of pin 0 of port C, and
`ur_subnode_to_pin` returns 0 and registers the group with that index. -/
theorem subnode_offset_past_port_accepted :
    ¬ (8 < npins_of ur_dp1000_match_data PORT_B) ∧
    ur_pin_to_desc ur_dp1000_match_data { port := PORT_B, pin := 8, mode := UR_FUNC0 } = some 24 ∧
    (ur_subnode_to_pin dp1000_dev PINMUX_PROP_NAME .PIN_MAP_TYPE_MUX_GROUP
        np_offset_past_port).map (fun r => (r.1, r.2.2.pin_group_tree))
      = some (0, [(0, { grp := { name := "past", pins := [24], npins := 1 },
                         data := some [{ port := PORT_B, pin := 8, mode := UR_FUNC0 }] })]) := by
  refine ⟨by decide, by decide, ?_⟩
  decide

/-- C4, amended: `ur_pin_to_desc` checks no range. For every existing port and
every pin offset, also one that is `>= npins[port]`, it returns the pin counts
of the preceding ports plus the offset (modulo `2 ^ 32`, as an `int`), and
`ur_subnode_to_pin` on a subnode consisting of that one triple, whose name is
not yet in the registry, returns 0 and registers the group with that index.
When the offset is `>= npins[port]` and the sum stays below `2 ^ 31`, the index
is the sum itself and lies at or past the first index after the port; on a table
whose `num_ports` counts its entries it is then either `>= total_pins` or the
index that `ur_pin_num_to_port_pin` maps to a valid pair of a later port. When
the sum reaches `2 ^ 31` this no longer holds: on the DP1000 table
`(B, 0xFFFFFFFF)` gives 15, the index of pin 15 of port A, and `(B, 0x7FFFFFF0)`
gives the negative index `-2147483648`. -/
theorem subnode_offset_unchecked (pctldev : pinctrl_dev) (name : String)
    (type : pinctrl_map_type) (np : device_node) (port pin value : Nat)
    (hport : port < pctldev.drvdata.match_data.ports.length)
    (hrows : np.rows name = some [[port, pin, value]])
    (hgroup : ∀ entry ∈ pctldev.pin_group_tree, (entry.2.grp.name == np.name) = false)
    (hfunc : ∀ entry ∈ pctldev.pin_function_tree, (entry.2.name == np.name) = false) :
    ur_pin_to_desc pctldev.drvdata.match_data { port := port, pin := pin, mode := value }
      = some (to_int (u32 (pins_before pctldev.drvdata.match_data port + pin))) ∧
    (∃ pctldev2, ur_subnode_to_pin pctldev name type np
      = some (0, some ([to_int (u32 (pins_before pctldev.drvdata.match_data port + pin))],
                [{ port := port, pin := pin, mode := value }], 1), pctldev2) ∧
      pctldev2.pin_group_tree = pctldev.pin_group_tree ++
        [(pctldev.num_groups,
          { grp := { name := np.name,
                     pins := [to_int (u32 (pins_before pctldev.drvdata.match_data port + pin))],
                     npins := 1 },
            data := some [{ port := port, pin := pin, mode := value }] })]) ∧
    (npins_of pctldev.drvdata.match_data port ≤ pin →
      pins_before pctldev.drvdata.match_data port + pin < 2 ^ 31 →
      to_int (u32 (pins_before pctldev.drvdata.match_data port + pin))
        = ((pins_before pctldev.drvdata.match_data port + pin : Nat) : Int) ∧
      pins_before pctldev.drvdata.match_data port + npins_of pctldev.drvdata.match_data port
        ≤ pins_before pctldev.drvdata.match_data port + pin ∧
      (pctldev.drvdata.match_data.num_ports = pctldev.drvdata.match_data.ports.length →
        total_pins pctldev.drvdata.match_data ≤ pins_before pctldev.drvdata.match_data port + pin ∨
        ∃ port2 pin2, port < port2 ∧ valid_pair pctldev.drvdata.match_data port2 pin2 ∧
          ∀ pin_val, ur_pin_num_to_port_pin pctldev.drvdata.match_data pin_val
              (pins_before pctldev.drvdata.match_data port + pin)
            = some (0, { port := port2, pin := pin2, mode := 0 }))) ∧
    (¬ (0xFFFFFFFF < npins_of ur_dp1000_match_data PORT_B) ∧
      ur_pin_to_desc ur_dp1000_match_data { port := PORT_B, pin := 0xFFFFFFFF, mode := value }
        = some 15 ∧
      ur_pin_num_to_port_pin ur_dp1000_match_data { port := 0, pin := 0, mode := 0 } 15
        = some (0, { port := PORT_A, pin := 15, mode := 0 }) ∧
      ur_pin_to_desc ur_dp1000_match_data { port := PORT_B, pin := 0x7FFFFFF0, mode := value }
        = some (-2147483648)) := by
  have hdesc := ur_pin_to_desc_eq pctldev.drvdata.match_data port pin value (Nat.le_of_lt hport)
  refine ⟨hdesc, ?_, ?_, ?_⟩
  · have hg := any_false_of_forall _ _ hgroup
    have hf := any_false_of_forall _ _ hfunc
    have hn1 : ¬ ((pctldev.num_groups : Int) < 0) := by omega
    have hn2 : ¬ ((pctldev.num_functions : Int) < 0) := by omega
    simp [ur_subnode_to_pin, pinctrl_count_index_with_args, hrows, ur_subnode_to_pin_loop,
      pinctrl_parse_index_with_args, pinctrl_dev_get_drvdata, hdesc, pinctrl_generic_add_group, hg,
      pinmux_generic_add_function, hf, hn1, hn2]
  · intro hpin h31
    obtain ⟨port_desc, hget⟩ :
        ∃ port_desc, pctldev.drvdata.match_data.ports[port]? = some port_desc :=
      ⟨_, List.getElem?_eq_getElem hport⟩
    have hnp : npins_of pctldev.drvdata.match_data port = port_desc.npins := by
      simp [npins_of, hget]
    refine ⟨?_, by omega, ?_⟩
    · have h32 : pins_before pctldev.drvdata.match_data port + pin < 2 ^ 32 := by omega
      rw [u32_of_lt h32]
      unfold to_int
      rw [Nat.mod_eq_of_lt h32, if_pos h31]
    · intro hlen
      by_cases hlt : pins_before pctldev.drvdata.match_data port + pin
          < total_pins pctldev.drvdata.match_data
      · right
        exact index_past_port_later pctldev.drvdata.match_data port _ port_desc hlen hget
          (by omega) hlt (by omega)
      · left; omega
  · refine ⟨by decide, ?_, by decide, ?_⟩
    · rw [ur_pin_to_desc_eq _ _ _ _ (by decide)]
      decide
    · rw [ur_pin_to_desc_eq _ _ _ _ (by decide)]
      decide


/-- Witness of the amended C4: offset 8 of port B on the DP1000 table, which
yields index 24, mapped back to a pin of a later port. -/
theorem subnode_offset_unchecked_witness :
    npins_of dp1000_dev.drvdata.match_data PORT_B ≤ 8 ∧
    ur_pin_to_desc dp1000_dev.drvdata.match_data { port := PORT_B, pin := 8, mode := UR_FUNC0 }
      = some (to_int (u32 (pins_before dp1000_dev.drvdata.match_data PORT_B + 8))) ∧
    (∃ pctldev2, ur_subnode_to_pin dp1000_dev PINMUX_PROP_NAME .PIN_MAP_TYPE_MUX_GROUP
        np_offset_past_port
      = some (0, some ([to_int (u32 (pins_before dp1000_dev.drvdata.match_data PORT_B + 8))],
                [{ port := PORT_B, pin := 8, mode := UR_FUNC0 }], 1), pctldev2) ∧
      pctldev2.pin_group_tree = dp1000_dev.pin_group_tree ++
        [(dp1000_dev.num_groups,
          { grp := { name := np_offset_past_port.name,
                     pins := [to_int (u32 (pins_before dp1000_dev.drvdata.match_data PORT_B + 8))],
                     npins := 1 },
            data := some [{ port := PORT_B, pin := 8, mode := UR_FUNC0 }] })]) ∧
    to_int (u32 (pins_before dp1000_dev.drvdata.match_data PORT_B + 8))
      = ((pins_before dp1000_dev.drvdata.match_data PORT_B + 8 : Nat) : Int) ∧
    pins_before dp1000_dev.drvdata.match_data PORT_B + npins_of dp1000_dev.drvdata.match_data PORT_B
      ≤ pins_before dp1000_dev.drvdata.match_data PORT_B + 8 ∧
    (total_pins dp1000_dev.drvdata.match_data
        ≤ pins_before dp1000_dev.drvdata.match_data PORT_B + 8 ∨
      ∃ port2 pin2, PORT_B < port2 ∧ valid_pair dp1000_dev.drvdata.match_data port2 pin2 ∧
        ∀ pin_val, ur_pin_num_to_port_pin dp1000_dev.drvdata.match_data pin_val
            (pins_before dp1000_dev.drvdata.match_data PORT_B + 8)
          = some (0, { port := port2, pin := pin2, mode := 0 })) := by
  have h := subnode_offset_unchecked dp1000_dev PINMUX_PROP_NAME .PIN_MAP_TYPE_MUX_GROUP
    np_offset_past_port PORT_B 8 UR_FUNC0 (by decide) (by decide) (by decide) (by decide)
  have h3 := h.2.2.1 (by decide) (by decide)
  exact ⟨by decide, h.1, h.2.1, h3.1, h3.2.1, h3.2.2 (by decide)⟩

/-! ## Lemmas on the mux engine -/

theorem ur_set_pin_mux_eq (pin_ctrl : ur_pinctrl) (port pin mode : Nat) (port_desc : ur_port_desc)
    (hget : pin_ctrl.match_data.ports[port]? = some port_desc) (hpin : pin < 32) :
    ur_set_pin_mux pin_ctrl { port := port, pin := pin, mode := mode }
      = some (0, { pin_ctrl with
          regs := Function.update pin_ctrl.regs port_desc.func_offset
            (mux_word (pin_ctrl.regs port_desc.func_offset) pin mode) }) := by
  simp only [ur_set_pin_mux, hget, shl32, if_pos hpin, writel_relaxed, readl_relaxed]
  rw [show ∀ x y z, (u32 x &&& not32 (u32 ((UR_FUNC0 ||| UR_FUNC1) <<< y))) ||| u32 (z <<< y)
        = mux_word x y z from fun _ _ _ => rfl, u32_of_lt (mux_word_lt _ _ _)]

theorem ur_set_mux_single (pctldev : pinctrl_dev) (func_selector group_selector : Nat)
    (grp : pingroup) (pin_val : ur_pin_val) (rest : List ur_pin_val)
    (hgroup : pinctrl_generic_get_group pctldev group_selector
      = some { grp := grp, data := some (pin_val :: rest) })
    (hnpins : grp.npins = 1) :
    ur_set_mux pctldev func_selector group_selector
      = (ur_set_pin_mux pctldev.drvdata pin_val).map
          fun r => (0, { pctldev with drvdata := r.2 }) := by
  simp only [ur_set_mux, hgroup, hnpins, ur_set_mux_loop, pinctrl_dev_get_drvdata,
    List.getElem?_cons_zero]
  cases ur_set_pin_mux pctldev.drvdata pin_val with
  | none => rfl
  | some r => rfl

theorem mode_code_testBit (mode : Nat)
    (hmode : mode = UR_FUNC_DEF ∨ mode = UR_FUNC0 ∨ mode = UR_FUNC1) (k : Nat)
    (h0 : k ≠ 0) (h16 : k ≠ 16) : mode.testBit k = false := by
  have hor : (UR_FUNC0 ||| UR_FUNC1).testBit k = false := by
    rw [testBit_func_mask]; simp [h0, h16]
  rw [Nat.testBit_or] at hor
  rcases hmode with h | h | h
  · subst h; exact Nat.zero_testBit k
  · subst h; exact (Bool.or_eq_false_iff.mp hor).1
  · subst h; exact (Bool.or_eq_false_iff.mp hor).2

/-! ## The mux engine -/

/-- C5: for every register state, every existing port, every offset below 16
and every mode among `UR_FUNC_DEF`, `UR_FUNC0`, `UR_FUNC1`, `ur_set_mux` on a
group that consists of the single pin `(port, offset, mode)` returns 0 and
leaves bit `offset` of the port's mux register equal to bit 0 of the mode and
bit `offset + 16` equal to bit 16 of the mode, every other bit of that register
and every other register as before; on the DP1000 table the group
`uart0 = [(A, 2, UR_FUNC0)]` turns a mux register holding 0 into 0x00000004. -/
theorem mux_select_single_pin :
    (∀ (pctldev : pinctrl_dev) (func_selector group_selector : Nat) (grp : pingroup)
      (port offset mode : Nat) (port_desc : ur_port_desc),
      pinctrl_generic_get_group pctldev group_selector
        = some { grp := grp, data := some [{ port := port, pin := offset, mode := mode }] } →
      grp.npins = 1 →
      pctldev.drvdata.match_data.ports[port]? = some port_desc →
      offset < 16 →
      (mode = UR_FUNC_DEF ∨ mode = UR_FUNC0 ∨ mode = UR_FUNC1) →
      ∃ pctldev2, ur_set_mux pctldev func_selector group_selector = some (0, pctldev2) ∧
        (readl_relaxed pctldev2.drvdata.regs port_desc.func_offset).testBit offset
          = mode.testBit 0 ∧
        (readl_relaxed pctldev2.drvdata.regs port_desc.func_offset).testBit (offset + 16)
          = mode.testBit 16 ∧
        (∀ j, j ≠ offset → j ≠ offset + 16 →
          (readl_relaxed pctldev2.drvdata.regs port_desc.func_offset).testBit j
            = (readl_relaxed pctldev.drvdata.regs port_desc.func_offset).testBit j) ∧
        (∀ reg, reg ≠ port_desc.func_offset →
          pctldev2.drvdata.regs reg = pctldev.drvdata.regs reg)) ∧
    (∀ (pctldev : pinctrl_dev) (func_selector group_selector : Nat),
      pctldev.drvdata.match_data = ur_dp1000_match_data →
      pinctrl_generic_get_group pctldev group_selector
        = some { grp := { name := "uart0", pins := [2], npins := 1 },
                 data := some [{ port := PORT_A, pin := 2, mode := UR_FUNC0 }] } →
      readl_relaxed pctldev.drvdata.regs 0x2c0 = 0x00000000 →
      ∃ pctldev2, ur_set_mux pctldev func_selector group_selector = some (0, pctldev2) ∧
        pctldev2.drvdata.regs 0x2c0 = 0x00000004) := by
  constructor
  · intro pctldev func_selector group_selector grp port offset mode port_desc hgroup hnpins hget
      hoff hmode
    have hset := ur_set_pin_mux_eq pctldev.drvdata port offset mode port_desc hget (by omega)
    refine ⟨{ pctldev with drvdata := { pctldev.drvdata with
        regs := Function.update pctldev.drvdata.regs port_desc.func_offset
          (mux_word (pctldev.drvdata.regs port_desc.func_offset) offset mode) } },
      ?_, ?_, ?_, ?_, ?_⟩
    · rw [ur_set_mux_single pctldev func_selector group_selector grp _ [] hgroup hnpins, hset]
      rfl
    · simp only [readl_relaxed, Function.update_same, u32_of_lt (mux_word_lt _ _ _)]
      rw [mux_word_testBit]
      have h32 : offset < 32 := by omega
      simp [h32]
    · simp only [readl_relaxed, Function.update_same, u32_of_lt (mux_word_lt _ _ _)]
      rw [mux_word_testBit]
      have h32 : offset + 16 < 32 := by omega
      simp [h32]
    · intro j hj0 hj16
      simp only [readl_relaxed, Function.update_same, u32_of_lt (mux_word_lt _ _ _)]
      rw [mux_word_testBit, testBit_u32]
      have hm : mode.testBit (j - offset) = false ∨ ¬ offset ≤ j := by
        by_cases hle : offset ≤ j
        · exact Or.inl (mode_code_testBit mode hmode _ (by omega) (by omega))
        · exact Or.inr hle
      rcases hm with hm | hm <;> simp [hm, hj0, hj16]
    · intro reg hreg
      exact Function.update_noteq hreg _ _
  · intro pctldev func_selector group_selector hmd hgroup hzero
    have hget : pctldev.drvdata.match_data.ports[PORT_A]?
        = some ⟨"A", 16, 0x2c0, 0x310⟩ := by rw [hmd]; rfl
    have hset := ur_set_pin_mux_eq pctldev.drvdata PORT_A 2 UR_FUNC0 _ hget (by decide)
    refine ⟨{ pctldev with drvdata := { pctldev.drvdata with
        regs := Function.update pctldev.drvdata.regs 0x2c0
          (mux_word (pctldev.drvdata.regs 0x2c0) 2 UR_FUNC0) } }, ?_, ?_⟩
    · rw [ur_set_mux_single pctldev func_selector group_selector _ _ [] hgroup rfl, hset]
      rfl
    · simp only [Function.update_same]
      unfold readl_relaxed at hzero
      unfold mux_word
      rw [hzero]
      decide

/-- Witness of C5: the registered group uart0 on the DP1000 device. -/
theorem mux_select_single_pin_witness :
    ∃ pctldev2, ur_set_mux dp1000_uart0_dev 0 0 = some (0, pctldev2) ∧
      (readl_relaxed pctldev2.drvdata.regs 0x2c0).testBit 2 = UR_FUNC0.testBit 0 ∧
      (readl_relaxed pctldev2.drvdata.regs 0x2c0).testBit (2 + 16) = UR_FUNC0.testBit 16 ∧
      (∀ j, j ≠ 2 → j ≠ 2 + 16 →
        (readl_relaxed pctldev2.drvdata.regs 0x2c0).testBit j
          = (readl_relaxed dp1000_uart0_dev.drvdata.regs 0x2c0).testBit j) ∧
      (∀ reg, reg ≠ 0x2c0 → pctldev2.drvdata.regs reg = dp1000_uart0_dev.drvdata.regs reg) :=
  mux_select_single_pin.1 dp1000_uart0_dev 0 0 { name := "uart0", pins := [2], npins := 1 }
    PORT_A 2 UR_FUNC0 ⟨"A", 16, 0x2c0, 0x310⟩ (by decide) rfl (by decide) (by decide)
    (Or.inr (Or.inl rfl))

/-- Counterexample to C6 as stated: on the DP1000 table with all registers
zero, the mux write for pin `(A, 0)` with the payload 3 returns 0 and leaves the
mux register of port A holding 3, so bit 1, which is neither bit 0 nor bit 16,
changes from 0 to 1. -/
theorem mux_payload_spills_over :
    (0 : Nat) < 16 ∧ (3 : Nat) < 2 ^ 32 ∧
    (ur_set_pin_mux dp1000_dev.drvdata { port := PORT_A, pin := 0, mode := 3 }).map
        (fun r => (r.1, readl_relaxed r.2.regs 0x2c0)) = some (0, 3) ∧
    readl_relaxed dp1000_dev.drvdata.regs 0x2c0 = 0 ∧
    (1 : Nat) ≠ 0 ∧ (1 : Nat) ≠ 0 + 16 ∧
    Nat.testBit 3 1 = true ∧ Nat.testBit 0 1 = false := by
  decide

/-- C6, amended: for every register state, every existing port, every offset
below 16 and every payload `value`, `ur_set_pin_mux` returns 0, writes only the
mux register of the port, and ORs the whole payload in, shifted by `offset`:
bit `j` of the new word (for `j < 32`) is the old bit `j`, cleared when `j` is
`offset` or `offset + 16`, or-ed with bit `j - offset` of `value` when
`offset <= j`. Every bit other than `offset` and `offset + 16` keeps its value
when the payload has no bit set besides bits 0 and 16. -/
theorem mux_write_bits (pin_ctrl : ur_pinctrl) (port offset value : Nat)
    (port_desc : ur_port_desc)
    (hget : pin_ctrl.match_data.ports[port]? = some port_desc) (hoff : offset < 16) :
    ∃ pin_ctrl2,
      ur_set_pin_mux pin_ctrl { port := port, pin := offset, mode := value }
        = some (0, pin_ctrl2) ∧
      (∀ j, (readl_relaxed pin_ctrl2.regs port_desc.func_offset).testBit j
        = (decide (j < 32) &&
            (((readl_relaxed pin_ctrl.regs port_desc.func_offset).testBit j
                && !(decide (j = offset) || decide (j = offset + 16)))
              || (decide (offset ≤ j) && value.testBit (j - offset))))) ∧
      ((∀ k, k ≠ 0 → k ≠ 16 → value.testBit k = false) →
        ∀ j, j ≠ offset → j ≠ offset + 16 →
          (readl_relaxed pin_ctrl2.regs port_desc.func_offset).testBit j
            = (readl_relaxed pin_ctrl.regs port_desc.func_offset).testBit j) ∧
      (∀ reg, reg ≠ port_desc.func_offset → pin_ctrl2.regs reg = pin_ctrl.regs reg) := by
  have hbits : ∀ j, (readl_relaxed (Function.update pin_ctrl.regs port_desc.func_offset
        (mux_word (pin_ctrl.regs port_desc.func_offset) offset value))
          port_desc.func_offset).testBit j
      = (decide (j < 32) &&
          (((readl_relaxed pin_ctrl.regs port_desc.func_offset).testBit j
              && !(decide (j = offset) || decide (j = offset + 16)))
            || (decide (offset ≤ j) && value.testBit (j - offset)))) := by
    intro j
    simp only [readl_relaxed, Function.update_same, u32_of_lt (mux_word_lt _ _ _)]
    rw [mux_word_testBit, testBit_u32]
    by_cases h32 : j < 32 <;> by_cases hle : offset ≤ j <;> by_cases h0 : j = offset <;>
      by_cases h16 : j = offset + 16 <;> simp [h32, hle, h0, h16]
  refine ⟨{ pin_ctrl with
              regs := Function.update pin_ctrl.regs port_desc.func_offset
                (mux_word (pin_ctrl.regs port_desc.func_offset) offset value) },
    ur_set_pin_mux_eq pin_ctrl port offset value port_desc hget (by omega), hbits, ?_, ?_⟩
  · intro hclean j hj0 hj16
    rw [hbits j]
    have hm : value.testBit (j - offset) = false ∨ ¬ offset ≤ j := by
      by_cases hle : offset ≤ j
      · exact Or.inl (hclean _ (by omega) (by omega))
      · exact Or.inr hle
    simp only [readl_relaxed, testBit_u32]
    rcases hm with hm | hm <;> simp [hm, hj0, hj16]
  · intro reg hreg
    exact Function.update_noteq hreg _ _

/-- Witness of the amended C6: payload 3 on pin `(A, 0)` of the DP1000 table. -/
theorem mux_write_bits_witness :
    ∃ pin_ctrl2,
      ur_set_pin_mux dp1000_dev.drvdata { port := PORT_A, pin := 0, mode := 3 }
        = some (0, pin_ctrl2) ∧
      (∀ j, (readl_relaxed pin_ctrl2.regs 0x2c0).testBit j
        = (decide (j < 32) &&
            (((readl_relaxed dp1000_dev.drvdata.regs 0x2c0).testBit j
                && !(decide (j = 0) || decide (j = 0 + 16)))
              || (decide (0 ≤ j) && Nat.testBit 3 (j - 0))))) ∧
      ((∀ k, k ≠ 0 → k ≠ 16 → Nat.testBit 3 k = false) →
        ∀ j, j ≠ 0 → j ≠ 0 + 16 →
          (readl_relaxed pin_ctrl2.regs 0x2c0).testBit j
            = (readl_relaxed dp1000_dev.drvdata.regs 0x2c0).testBit j) ∧
      (∀ reg, reg ≠ 0x2c0 → pin_ctrl2.regs reg = dp1000_dev.drvdata.regs reg) :=
  mux_write_bits dp1000_dev.drvdata PORT_A 0 3 ⟨"A", 16, 0x2c0, 0x310⟩ (by decide) (by decide)

/-! ## Lemmas on the config engine -/

theorem shl_nibble_lt {n s : Nat} (hn : n < 16) (hs : s ≤ 28) : n <<< s < 2 ^ 32 := by
  rw [Nat.shiftLeft_eq]
  have h1 : 2 ^ s ≤ 2 ^ 28 := Nat.pow_le_pow_right (by decide) hs
  have h2 : n * 2 ^ s ≤ 15 * 2 ^ 28 := Nat.mul_le_mul (by omega) h1
  have h3 : 15 * 2 ^ 28 < 2 ^ 32 := by decide
  omega

theorem not32_u32 (x : Nat) : not32 (u32 x) = not32 x := by
  unfold not32 u32
  rw [Nat.mod_mod]

theorem ur_set_pin_conf_eq (pin_ctrl : ur_pinctrl) (port pin conf : Nat)
    (port_desc : ur_port_desc)
    (hget : pin_ctrl.match_data.ports[port]? = some port_desc) (hpin : pin < 2 ^ 32) :
    ur_set_pin_conf pin_ctrl { port := port, pin := pin, mode := conf }
      = some (0, { pin_ctrl with
          regs := Function.update pin_ctrl.regs (conf_reg port_desc pin)
            (conf_word (pin_ctrl.regs (conf_reg port_desc pin)) pin conf) }) := by
  have h8 : UR_CONF_PIN_PER_REG = 8 := by decide
  have h4 : UR_CONF_BIT_PER_PIN = 4 := by decide
  have hreg : u32 (pin / 8 * 4) = pin / 8 * 4 := u32_of_lt (by omega)
  have hshift : u32 (pin % 8 * 4) = pin % 8 * 4 := u32_of_lt (by omega)
  have hlt : pin % 8 * 4 < 32 := by omega
  simp only [ur_set_pin_conf, hget, h8, h4, hreg, hshift, shl32, if_pos hlt, writel_relaxed,
    readl_relaxed, ur_pin_val.conf]
  rw [show ∀ x y z, (u32 x &&& not32 (u32 (UR_BIAS_MASK <<< (y % 8 * 4)))) ||| u32 (z <<< (y % 8 * 4))
        = conf_word x y z from fun _ _ _ => rfl, u32_of_lt (conf_word_lt _ _ _)]
  rfl

theorem conf_word_eq (old pin n : Nat) (hn : n < 16) :
    conf_word old pin n
      = (u32 old &&& not32 (UR_BIAS_MASK <<< ((pin % 8) * 4))) ||| (n <<< ((pin % 8) * 4)) := by
  unfold conf_word
  rw [not32_u32, u32_of_lt (shl_nibble_lt hn (by omega))]

theorem ur_config_to_pin_val_supported (pin_ctrl : ur_pinctrl) (pin_val : ur_pin_val)
    (config : packed_config) (h : supported config = true) :
    (ur_config_to_pin_val pin_ctrl pin_val config).1 = 0 ∧
    (ur_config_to_pin_val pin_ctrl pin_val config).2.port = pin_val.port ∧
    (ur_config_to_pin_val pin_ctrl pin_val config).2.pin = pin_val.pin ∧
    (pin_val.conf < 16 → (ur_config_to_pin_val pin_ctrl pin_val config).2.conf < 16) := by
  obtain ⟨param, argument⟩ := config
  have hand : ∀ x, pin_val.mode < 16 → pin_val.mode &&& x < 16 := fun x hlt =>
    Nat.lt_of_le_of_lt Nat.and_le_left hlt
  have hor : ∀ x, x < 16 → pin_val.mode < 16 → pin_val.mode ||| x < 16 := fun x hx hlt =>
    Nat.or_lt_two_pow (n := 4) hlt hx
  cases param <;> simp [supported, supported_param] at h <;>
    simp [ur_config_to_pin_val, pinconf_to_config_param, ur_pin_val.conf]
  · exact hand _
  · exact hand _
  · exact hor _ (by decide)
  · exact hor _ (by decide)
  · exact hor _ (by decide)

theorem ur_config_to_pin_val_unsupported (pin_ctrl : ur_pinctrl) (pin_val : ur_pin_val)
    (config : packed_config) (h : supported config = false) :
    ur_config_to_pin_val pin_ctrl pin_val config = (-EOPNOTSUPP, pin_val) := by
  obtain ⟨param, argument⟩ := config
  cases param <;> simp [supported, supported_param] at h <;>
    simp [ur_config_to_pin_val, pinconf_to_config_param]

theorem conf_word_conf_word (old pin n1 n2 : Nat) (hn1 : n1 < 16) :
    conf_word (conf_word old pin n1) pin n2 = conf_word old pin n2 := by
  apply Nat.eq_of_testBit_eq
  intro j
  rw [conf_word_testBit, conf_word_testBit, conf_word_testBit]
  by_cases hle : pin % 8 * 4 ≤ j
  · by_cases h4 : j < pin % 8 * 4 + 4
    · simp [hle, h4]
    · have hbit : n1.testBit (j - pin % 8 * 4) = false :=
        Nat.testBit_lt_two_pow (Nat.lt_of_lt_of_le (show n1 < 2 ^ 4 from hn1)
          (Nat.pow_le_pow_right (by decide) (by omega)))
      simp only [hle, h4, hbit, decide_True, decide_False, Bool.and_false, Bool.not_false,
        Bool.and_true, Bool.true_and, Bool.or_false]
      cases decide (j < 32) <;> simp
  · simp only [hle, decide_False, Bool.false_and, Bool.not_false, Bool.and_true, Bool.or_false]
    cases decide (j < 32) <;> simp

theorem fold_configs_cons (pin_ctrl : ur_pinctrl) (pin_val : ur_pin_val) (config : packed_config)
    (configs : List packed_config) :
    fold_configs pin_ctrl pin_val (config :: configs)
      = fold_configs pin_ctrl (ur_config_to_pin_val pin_ctrl pin_val config).2 configs := rfl

theorem fold_configs_supported (configs : List packed_config) :
    ∀ (pin_ctrl : ur_pinctrl) (pin_val : ur_pin_val),
      (∀ c ∈ configs, supported c = true) → pin_val.conf < 16 →
      (fold_configs pin_ctrl pin_val configs).port = pin_val.port ∧
      (fold_configs pin_ctrl pin_val configs).pin = pin_val.pin ∧
      (fold_configs pin_ctrl pin_val configs).conf < 16 := by
  induction configs with
  | nil => intro pin_ctrl pin_val _ h; exact ⟨rfl, rfl, h⟩
  | cons c cs ih =>
    intro pin_ctrl pin_val hsup hconf
    obtain ⟨_, hp, hq, hc⟩ :=
      ur_config_to_pin_val_supported pin_ctrl pin_val c (hsup c (List.mem_cons_self _ _))
    obtain ⟨h1, h2, h3⟩ := ih pin_ctrl (ur_config_to_pin_val pin_ctrl pin_val c).2
      (fun c2 hc2 => hsup c2 (List.mem_cons_of_mem _ hc2)) (hc hconf)
    rw [fold_configs_cons]
    exact ⟨h1.trans hp, h2.trans hq, h3⟩

/-- One step of the loop of `ur_pin_config_set` on a supported parameter. -/
theorem ur_pin_config_set_loop_step (config : packed_config) (configs : List packed_config)
    (pin_ctrl : ur_pinctrl) (pin_val : ur_pin_val) (port_desc : ur_port_desc)
    (hget : pin_ctrl.match_data.ports[pin_val.port]? = some port_desc)
    (hpin : pin_val.pin < 2 ^ 32) (hsup : supported config = true) :
    ur_pin_config_set_loop (config :: configs) pin_ctrl pin_val
      = ur_pin_config_set_loop configs
          { pin_ctrl with
            regs := Function.update pin_ctrl.regs (conf_reg port_desc pin_val.pin)
              (conf_word (pin_ctrl.regs (conf_reg port_desc pin_val.pin)) pin_val.pin
                (ur_config_to_pin_val pin_ctrl pin_val config).2.conf) }
          (ur_config_to_pin_val pin_ctrl pin_val config).2 := by
  obtain ⟨hret, hp, hq, _⟩ := ur_config_to_pin_val_supported pin_ctrl pin_val config hsup
  rw [ur_pin_config_set_loop]
  generalize ur_config_to_pin_val pin_ctrl pin_val config = r at hret hp hq ⊢
  obtain ⟨ret, ⟨port, pin, mode⟩⟩ := r
  simp only at hret hp hq ⊢
  subst hret hp hq
  simp only [lt_self_iff_false, if_false,
    ur_set_pin_conf_eq pin_ctrl pin_val.port pin_val.pin mode port_desc hget hpin]

theorem ur_pin_config_set_loop_supported (configs : List packed_config) :
    ∀ (config : packed_config) (pin_ctrl : ur_pinctrl) (pin_val : ur_pin_val)
      (port_desc : ur_port_desc),
      pin_ctrl.match_data.ports[pin_val.port]? = some port_desc →
      pin_val.pin < 2 ^ 32 → pin_val.conf < 16 →
      (∀ c ∈ config :: configs, supported c = true) →
      ur_pin_config_set_loop (config :: configs) pin_ctrl pin_val
        = some (0, { pin_ctrl with
            regs := Function.update pin_ctrl.regs (conf_reg port_desc pin_val.pin)
              (conf_word (pin_ctrl.regs (conf_reg port_desc pin_val.pin)) pin_val.pin
                (fold_configs pin_ctrl pin_val (config :: configs)).conf) }) := by
  induction configs with
  | nil =>
    intro config pin_ctrl pin_val port_desc hget hpin _ hsup
    rw [ur_pin_config_set_loop_step config [] pin_ctrl pin_val port_desc hget hpin
      (hsup config (List.mem_cons_self _ _))]
    rfl
  | cons c2 cs ih =>
    intro config pin_ctrl pin_val port_desc hget hpin hconf hsup
    obtain ⟨_, hp, hq, hc⟩ := ur_config_to_pin_val_supported pin_ctrl pin_val config
      (hsup config (List.mem_cons_self _ _))
    rw [ur_pin_config_set_loop_step config (c2 :: cs) pin_ctrl pin_val port_desc hget hpin
      (hsup config (List.mem_cons_self _ _))]
    rw [ih c2 _ _ port_desc (by rw [hp]; exact hget) (by rw [hq]; exact hpin) (hc hconf)
      (fun c hc2 => hsup c (List.mem_cons_of_mem _ hc2))]
    rw [hq]
    simp only [Function.update_same, Function.update_idem,
      conf_word_conf_word _ _ _ _ (hc hconf)]
    rfl

theorem ur_pin_config_set_loop_unsupported (pre : List packed_config) :
    ∀ (config : packed_config) (post : List packed_config) (pin_ctrl : ur_pinctrl)
      (pin_val : ur_pin_val) (port_desc : ur_port_desc),
      pin_ctrl.match_data.ports[pin_val.port]? = some port_desc →
      pin_val.pin < 2 ^ 32 →
      (∀ c ∈ pre, supported c = true) → supported config = false →
      ur_pin_config_set_loop (pre ++ config :: post) pin_ctrl pin_val
        = (ur_pin_config_set_loop pre pin_ctrl pin_val).map fun r => (-EOPNOTSUPP, r.2) := by
  induction pre with
  | nil =>
    intro config post pin_ctrl pin_val port_desc _ _ _ hbad
    simp only [List.nil_append, ur_pin_config_set_loop,
      ur_config_to_pin_val_unsupported pin_ctrl pin_val config hbad]
    rfl
  | cons c cs ih =>
    intro config post pin_ctrl pin_val port_desc hget hpin hsup hbad
    obtain ⟨_, hp, hq, _⟩ := ur_config_to_pin_val_supported pin_ctrl pin_val c
      (hsup c (List.mem_cons_self _ _))
    rw [List.cons_append,
      ur_pin_config_set_loop_step c (cs ++ config :: post) pin_ctrl pin_val port_desc hget hpin
        (hsup c (List.mem_cons_self _ _)),
      ur_pin_config_set_loop_step c cs pin_ctrl pin_val port_desc hget hpin
        (hsup c (List.mem_cons_self _ _))]
    exact ih config post _ _ port_desc (by rw [hp]; exact hget) (by rw [hq]; exact hpin)
      (fun x hx => hsup x (List.mem_cons_of_mem _ hx)) hbad

theorem exists_first_unsupported (configs : List packed_config)
    (hbad : ∃ c ∈ configs, supported c = false) :
    ∃ pre config post, configs = pre ++ config :: post ∧
      (∀ c ∈ pre, supported c = true) ∧ supported config = false := by
  induction configs with
  | nil => obtain ⟨c, hc, _⟩ := hbad; simp at hc
  | cons c cs ih =>
    by_cases hc : supported c = true
    · have hbad2 : ∃ x ∈ cs, supported x = false := by
        obtain ⟨x, hx, hxs⟩ := hbad
        rcases List.mem_cons.mp hx with h | h
        · subst h; rw [hc] at hxs; exact absurd hxs (by decide)
        · exact ⟨x, h, hxs⟩
      obtain ⟨pre, config, post, heq, hpre, hconfig⟩ := ih hbad2
      refine ⟨c :: pre, config, post, by rw [heq]; rfl, ?_, hconfig⟩
      intro x hx
      rcases List.mem_cons.mp hx with h | h
      · subst h; exact hc
      · exact hpre x h
    · exact ⟨[], c, cs, rfl, by simp, by simpa using hc⟩

/-- On a valid pin index `ur_pin_config_set` runs its loop on the pair found by the mapper. -/
theorem ur_pin_config_set_valid (pctldev : pinctrl_dev) (pin : Nat)
    (hok : port_table_ok pctldev.drvdata.match_data)
    (hpin : pin < total_pins pctldev.drvdata.match_data) :
    ∃ port offset port_desc,
      ur_pin_num_to_port_pin pctldev.drvdata.match_data { port := 0, pin := 0, mode := 0 } pin
        = some (0, { port := port, pin := offset, mode := 0 }) ∧
      pctldev.drvdata.match_data.ports[port]? = some port_desc ∧
      offset < port_desc.npins ∧ offset < 2 ^ 32 ∧
      ∀ configs, ur_pin_config_set pctldev pin configs
        = (ur_pin_config_set_loop configs pctldev.drvdata
            { port := port, pin := offset, mode := 0 }).map
          fun r => (r.1, { pctldev with drvdata := r.2 }) := by
  obtain ⟨hlen, hsum, h32⟩ := hok
  have hidx32 : pin < 2 ^ 32 := by omega
  obtain ⟨k, offset, port_desc, hw, hget, hoff, hadd⟩ :=
    port_walk_found pctldev.drvdata.match_data.ports 0 pin { port := 0, pin := 0, mode := 0 }
      hidx32 hpin
  simp only [Nat.zero_add] at hw
  have hmap := ur_pin_num_to_port_pin_eq pctldev.drvdata.match_data hlen
    { port := 0, pin := 0, mode := 0 } pin
  rw [hw] at hmap
  refine ⟨k, offset, port_desc, hmap, hget, hoff, by omega, ?_⟩
  intro configs
  simp only [ur_pin_config_set, pinctrl_dev_get_drvdata, hmap, lt_self_iff_false, if_false]
  cases ur_pin_config_set_loop configs pctldev.drvdata { port := k, pin := offset, mode := 0 } with
  | none => rfl
  | some r => rfl

theorem conf_word_field (old pin n k : Nat) (hk : k < 4) :
    (conf_word old pin n).testBit ((pin % 8) * 4 + k) = n.testBit k := by
  rw [conf_word_testBit]
  have h1 : pin % 8 * 4 + k < 32 := by omega
  have h2 : pin % 8 * 4 + k < pin % 8 * 4 + 4 := by omega
  simp [h1, h2]

theorem conf_word_frame (old pin n j : Nat) (hn : n < 16)
    (hj : ¬ ((pin % 8) * 4 ≤ j ∧ j < (pin % 8) * 4 + 4)) :
    (conf_word old pin n).testBit j = (u32 old).testBit j := by
  rw [conf_word_testBit, testBit_u32]
  by_cases hle : pin % 8 * 4 ≤ j
  · have hge : ¬ j < pin % 8 * 4 + 4 := fun h => hj ⟨hle, h⟩
    have hbit : n.testBit (j - pin % 8 * 4) = false :=
      Nat.testBit_lt_two_pow (Nat.lt_of_lt_of_le (show n < 2 ^ 4 from hn)
        (Nat.pow_le_pow_right (by decide) (by omega)))
    simp [hle, hge, hbit]
  · simp [hle]

theorem ur_pin_config_set_loop_ok (configs : List packed_config) (pin_ctrl : ur_pinctrl)
    (pin_val : ur_pin_val) (port_desc : ur_port_desc)
    (hget : pin_ctrl.match_data.ports[pin_val.port]? = some port_desc)
    (hpin : pin_val.pin < 2 ^ 32) (hconf : pin_val.conf < 16)
    (hsup : ∀ c ∈ configs, supported c = true) :
    ∃ pin_ctrl2, ur_pin_config_set_loop configs pin_ctrl pin_val = some (0, pin_ctrl2) ∧
      (configs = [] → pin_ctrl2 = pin_ctrl) := by
  cases configs with
  | nil => exact ⟨pin_ctrl, rfl, fun _ => rfl⟩
  | cons c cs =>
    exact ⟨_, ur_pin_config_set_loop_supported cs c pin_ctrl pin_val port_desc hget hpin hconf hsup,
      fun h => absurd h (List.cons_ne_nil _ _)⟩

theorem nibble_eq_of_testBit (x s n : Nat) (hn : n < 16)
    (h : ∀ k, k < 4 → x.testBit (s + k) = n.testBit k) : (x >>> s) % 16 = n := by
  apply Nat.eq_of_testBit_eq
  intro k
  rw [show (16 : Nat) = 2 ^ 4 from rfl, Nat.testBit_mod_two_pow, Nat.testBit_shiftRight]
  by_cases hk : k < 4
  · simp [hk, h k hk]
  · have hbit : n.testBit k = false :=
      Nat.testBit_lt_two_pow (Nat.lt_of_lt_of_le (show n < 2 ^ 4 from hn)
        (Nat.pow_le_pow_right (by decide) (by omega)))
    simp [hk, hbit]

/-! ## The config engine -/

/-- C7: for every register state, every existing port, every 32-bit pin offset
and every nibble `n < 16`, `ur_set_pin_conf` returns 0 and writes exactly one
register, at `conf_offset + (offset / 8) * 4`; with `s = (offset % 8) * 4` its new
value is `(old & ~(0xF << s)) | (n << s)`: the 4 bits at shift `s` equal `n`, the
other 28 bits are those of the old value, and every other register is unchanged. -/
theorem conf_write_primitive (pin_ctrl : ur_pinctrl) (port offset n : Nat)
    (port_desc : ur_port_desc)
    (hget : pin_ctrl.match_data.ports[port]? = some port_desc)
    (hoff : offset < 2 ^ 32) (hn : n < 16) :
    ∃ pin_ctrl2,
      ur_set_pin_conf pin_ctrl { port := port, pin := offset, mode := n } = some (0, pin_ctrl2) ∧
      pin_ctrl2.regs (port_desc.conf_offset + (offset / 8) * 4)
        = (readl_relaxed pin_ctrl.regs (port_desc.conf_offset + (offset / 8) * 4)
            &&& not32 (UR_BIAS_MASK <<< ((offset % 8) * 4))) ||| (n <<< ((offset % 8) * 4)) ∧
      (∀ k, k < 4 →
        (pin_ctrl2.regs (port_desc.conf_offset + (offset / 8) * 4)).testBit ((offset % 8) * 4 + k)
          = n.testBit k) ∧
      (∀ j, ¬ ((offset % 8) * 4 ≤ j ∧ j < (offset % 8) * 4 + 4) →
        (pin_ctrl2.regs (port_desc.conf_offset + (offset / 8) * 4)).testBit j
          = (readl_relaxed pin_ctrl.regs (port_desc.conf_offset + (offset / 8) * 4)).testBit j) ∧
      (∀ reg, reg ≠ port_desc.conf_offset + (offset / 8) * 4 →
        pin_ctrl2.regs reg = pin_ctrl.regs reg) ∧
      pin_ctrl2.match_data = pin_ctrl.match_data := by
  refine ⟨{ pin_ctrl with
              regs := Function.update pin_ctrl.regs (conf_reg port_desc offset)
                (conf_word (pin_ctrl.regs (conf_reg port_desc offset)) offset n) },
    ur_set_pin_conf_eq pin_ctrl port offset n port_desc hget hoff, ?_, ?_, ?_, ?_, rfl⟩
  · show Function.update pin_ctrl.regs (conf_reg port_desc offset) _ (conf_reg port_desc offset) = _
    rw [Function.update_same, conf_word_eq _ _ _ hn]
    rfl
  · intro k hk
    show (Function.update pin_ctrl.regs (conf_reg port_desc offset) _
      (conf_reg port_desc offset)).testBit _ = _
    rw [Function.update_same, conf_word_testBit]
    have h1 : offset % 8 * 4 + k < 32 := by omega
    have h2 : offset % 8 * 4 + k < offset % 8 * 4 + 4 := by omega
    simp [h1, h2]
  · intro j hj
    show (Function.update pin_ctrl.regs (conf_reg port_desc offset) _
      (conf_reg port_desc offset)).testBit _ = (readl_relaxed pin_ctrl.regs
        (conf_reg port_desc offset)).testBit _
    rw [Function.update_same, conf_word_testBit, readl_relaxed, testBit_u32]
    by_cases hle : offset % 8 * 4 ≤ j
    · have hge : ¬ j < offset % 8 * 4 + 4 := fun h => hj ⟨hle, h⟩
      have hbit : n.testBit (j - offset % 8 * 4) = false :=
        Nat.testBit_lt_two_pow (Nat.lt_of_lt_of_le (show n < 2 ^ 4 from hn)
          (Nat.pow_le_pow_right (by decide) (by omega)))
      simp [hle, hge, hbit]
    · simp [hle]
  · intro reg hreg
    exact Function.update_noteq hreg _ _

/-- Witness of C7: nibble 5 for pin 11 of port A on the DP1000 table. -/
theorem conf_write_primitive_witness :
    ∃ pin_ctrl2,
      ur_set_pin_conf dp1000_dev.drvdata { port := PORT_A, pin := 11, mode := 5 }
        = some (0, pin_ctrl2) ∧
      pin_ctrl2.regs (0x310 + (11 / 8) * 4)
        = (readl_relaxed dp1000_dev.drvdata.regs (0x310 + (11 / 8) * 4)
            &&& not32 (UR_BIAS_MASK <<< ((11 % 8) * 4))) ||| (5 <<< ((11 % 8) * 4)) ∧
      (∀ k, k < 4 →
        (pin_ctrl2.regs (0x310 + (11 / 8) * 4)).testBit ((11 % 8) * 4 + k) = Nat.testBit 5 k) ∧
      (∀ j, ¬ ((11 % 8) * 4 ≤ j ∧ j < (11 % 8) * 4 + 4) →
        (pin_ctrl2.regs (0x310 + (11 / 8) * 4)).testBit j
          = (readl_relaxed dp1000_dev.drvdata.regs (0x310 + (11 / 8) * 4)).testBit j) ∧
      (∀ reg, reg ≠ 0x310 + (11 / 8) * 4 → pin_ctrl2.regs reg = dp1000_dev.drvdata.regs reg) ∧
      pin_ctrl2.match_data = dp1000_dev.drvdata.match_data :=
  conf_write_primitive dp1000_dev.drvdata PORT_A 11 5 ⟨"A", 16, 0x2c0, 0x310⟩ (by decide)
    (by decide) (by decide)

/-- C8: for every register state, every valid global pin index of a well-formed
table and every non-empty list of supported parameters, `ur_pin_config_set`
returns 0 and leaves the 4-bit field of the pin (register
`conf_offset + (offset / 8) * 4`, shift `(offset % 8) * 4`, with `(port, offset)`
the pair of the pin) equal to the accumulator obtained by folding
`ur_config_to_pin_val` over the list from the empty nibble 0, and every other
bit of every register is unchanged; on the DP1000 table pin 19 (pin 3 of port B)
with `[bias-pull-up]` turns a config register holding 0 into 0x00001000. -/
theorem pin_config_set_supported :
    (∀ (pctldev : pinctrl_dev) (pin : Nat) (configs : List packed_config),
      port_table_ok pctldev.drvdata.match_data →
      pin < total_pins pctldev.drvdata.match_data →
      configs ≠ [] →
      (∀ c ∈ configs, supported c = true) →
      ∃ port offset port_desc pctldev2,
        ur_pin_num_to_port_pin pctldev.drvdata.match_data { port := 0, pin := 0, mode := 0 } pin
          = some (0, { port := port, pin := offset, mode := 0 }) ∧
        pctldev.drvdata.match_data.ports[port]? = some port_desc ∧
        ur_pin_config_set pctldev pin configs = some (0, pctldev2) ∧
        (fold_configs pctldev.drvdata { port := port, pin := offset, mode := 0 } configs).conf
          < 16 ∧
        (∀ k, k < 4 →
          (pctldev2.drvdata.regs (port_desc.conf_offset + (offset / 8) * 4)).testBit
              ((offset % 8) * 4 + k)
            = (fold_configs pctldev.drvdata { port := port, pin := offset, mode := 0 }
                configs).conf.testBit k) ∧
        (∀ j, ¬ ((offset % 8) * 4 ≤ j ∧ j < (offset % 8) * 4 + 4) →
          (pctldev2.drvdata.regs (port_desc.conf_offset + (offset / 8) * 4)).testBit j
            = (readl_relaxed pctldev.drvdata.regs
                (port_desc.conf_offset + (offset / 8) * 4)).testBit j) ∧
        (∀ reg, reg ≠ port_desc.conf_offset + (offset / 8) * 4 →
          pctldev2.drvdata.regs reg = pctldev.drvdata.regs reg)) ∧
    (∀ (pctldev : pinctrl_dev) (argument : Nat),
      pctldev.drvdata.match_data = ur_dp1000_match_data →
      readl_relaxed pctldev.drvdata.regs 0x318 = 0x00000000 →
      ∃ pctldev2,
        ur_pin_config_set pctldev 19
            [{ param := .PIN_CONFIG_BIAS_PULL_UP, argument := argument }] = some (0, pctldev2) ∧
        pctldev2.drvdata.regs 0x318 = 0x00001000) := by
  constructor
  · intro pctldev pin configs hok hpin hne hsup
    obtain ⟨port, offset, port_desc, hmap, hget, _, hoff32, hset⟩ :=
      ur_pin_config_set_valid pctldev pin hok hpin
    obtain ⟨_, _, hacc⟩ := fold_configs_supported configs pctldev.drvdata
      { port := port, pin := offset, mode := 0 } hsup (show (0 : Nat) < 16 by decide)
    cases configs with
    | nil => exact absurd rfl hne
    | cons c cs =>
      have hloop := ur_pin_config_set_loop_supported cs c pctldev.drvdata
        { port := port, pin := offset, mode := 0 } port_desc hget hoff32
        (show (0 : Nat) < 16 by decide) hsup
      refine ⟨port, offset, port_desc,
        { pctldev with
          drvdata := { pctldev.drvdata with
            regs := Function.update pctldev.drvdata.regs (conf_reg port_desc offset)
              (conf_word (pctldev.drvdata.regs (conf_reg port_desc offset)) offset
                (fold_configs pctldev.drvdata { port := port, pin := offset, mode := 0 }
                  (c :: cs)).conf) } },
        hmap, hget, ?_, hacc, ?_, ?_, ?_⟩
      · rw [hset, hloop]; rfl
      · intro k hk
        show (Function.update pctldev.drvdata.regs (conf_reg port_desc offset) _
          (conf_reg port_desc offset)).testBit _ = _
        rw [Function.update_same]
        exact conf_word_field _ _ _ k hk
      · intro j hj
        show (Function.update pctldev.drvdata.regs (conf_reg port_desc offset) _
          (conf_reg port_desc offset)).testBit _ = _
        rw [Function.update_same]
        exact conf_word_frame _ _ _ j hacc hj
      · intro reg hreg
        exact Function.update_noteq hreg _ _
  · intro pctldev argument hmd hzero
    have hmap : ur_pin_num_to_port_pin pctldev.drvdata.match_data
        { port := 0, pin := 0, mode := 0 } 19
        = some (0, { port := PORT_B, pin := 3, mode := 0 }) := by rw [hmd]; rfl
    have hget : pctldev.drvdata.match_data.ports[PORT_B]?
        = some ⟨"B", 8, 0x2c4, 0x318⟩ := by rw [hmd]; rfl
    have hloop := ur_pin_config_set_loop_supported []
      { param := .PIN_CONFIG_BIAS_PULL_UP, argument := argument } pctldev.drvdata
      { port := PORT_B, pin := 3, mode := 0 } _ hget (by decide) (by decide) (by simp [supported, supported_param])
    refine ⟨{ pctldev with
              drvdata := { pctldev.drvdata with
                regs := Function.update pctldev.drvdata.regs 0x318
                  (conf_word (pctldev.drvdata.regs 0x318) 3 UR_PULL_UP) } }, ?_, ?_⟩
    · simp only [ur_pin_config_set, pinctrl_dev_get_drvdata, hmap, lt_self_iff_false, if_false,
        hloop]
      rfl
    · show Function.update pctldev.drvdata.regs 0x318 _ 0x318 = _
      rw [Function.update_same]
      unfold readl_relaxed at hzero
      show (u32 (pctldev.drvdata.regs 0x318) &&& _) ||| _ = _
      rw [hzero]
      decide

/-- Witness of C8: pull-up then bias-disable then pull-down on pin 19 of the DP1000 device. -/
theorem pin_config_set_supported_witness :
    ∃ port offset port_desc pctldev2,
      ur_pin_num_to_port_pin dp1000_dev.drvdata.match_data { port := 0, pin := 0, mode := 0 } 19
        = some (0, { port := port, pin := offset, mode := 0 }) ∧
      dp1000_dev.drvdata.match_data.ports[port]? = some port_desc ∧
      ur_pin_config_set dp1000_dev 19
          [⟨.PIN_CONFIG_BIAS_PULL_UP, 0⟩, ⟨.PIN_CONFIG_BIAS_DISABLE, 0⟩,
           ⟨.PIN_CONFIG_BIAS_PULL_DOWN, 0⟩] = some (0, pctldev2) ∧
      (fold_configs dp1000_dev.drvdata { port := port, pin := offset, mode := 0 }
          [⟨.PIN_CONFIG_BIAS_PULL_UP, 0⟩, ⟨.PIN_CONFIG_BIAS_DISABLE, 0⟩,
           ⟨.PIN_CONFIG_BIAS_PULL_DOWN, 0⟩]).conf < 16 ∧
      (∀ k, k < 4 →
        (pctldev2.drvdata.regs (port_desc.conf_offset + (offset / 8) * 4)).testBit
            ((offset % 8) * 4 + k)
          = (fold_configs dp1000_dev.drvdata { port := port, pin := offset, mode := 0 }
              [⟨.PIN_CONFIG_BIAS_PULL_UP, 0⟩, ⟨.PIN_CONFIG_BIAS_DISABLE, 0⟩,
               ⟨.PIN_CONFIG_BIAS_PULL_DOWN, 0⟩]).conf.testBit k) ∧
      (∀ j, ¬ ((offset % 8) * 4 ≤ j ∧ j < (offset % 8) * 4 + 4) →
        (pctldev2.drvdata.regs (port_desc.conf_offset + (offset / 8) * 4)).testBit j
          = (readl_relaxed dp1000_dev.drvdata.regs
              (port_desc.conf_offset + (offset / 8) * 4)).testBit j) ∧
      (∀ reg, reg ≠ port_desc.conf_offset + (offset / 8) * 4 →
        pctldev2.drvdata.regs reg = dp1000_dev.drvdata.regs reg) :=
  pin_config_set_supported.1 dp1000_dev 19
    [⟨.PIN_CONFIG_BIAS_PULL_UP, 0⟩, ⟨.PIN_CONFIG_BIAS_DISABLE, 0⟩,
     ⟨.PIN_CONFIG_BIAS_PULL_DOWN, 0⟩]
    (by decide) (by decide) (List.cons_ne_nil _ _) (by decide)

/-- Counterexample to C9 as stated: on the DP1000 device with all registers
zero, `ur_pin_config_set` for pin 19 (pin 3 of port B, config register 0x318)
with `[bias-pull-up, drive-strength]` returns `-EOPNOTSUPP`, yet the config
register holds 0x1000 afterwards: the pull-up nibble was written before the
unsupported parameter was met. -/
theorem pin_config_set_writes_before_failure :
    supported ⟨.PIN_CONFIG_DRIVE_STRENGTH, 0⟩ = false ∧
    ur_pin_num_to_port_pin dp1000_dev.drvdata.match_data { port := 0, pin := 0, mode := 0 } 19
      = some (0, { port := PORT_B, pin := 3, mode := 0 }) ∧
    dp1000_dev.drvdata.regs 0x318 = 0 ∧
    (ur_pin_config_set dp1000_dev 19
        [⟨.PIN_CONFIG_BIAS_PULL_UP, 0⟩, ⟨.PIN_CONFIG_DRIVE_STRENGTH, 0⟩]).map
        (fun r => (r.1, r.2.drvdata.regs 0x318)) = some (-EOPNOTSUPP, 0x1000) := by
  decide

/-- C9, amended: for every valid pin of a well-formed table, every register
state and every parameter list with an unsupported parameter, split at its
first unsupported parameter into `pre ++ config :: post`, `ur_pin_config_set`
returns `-EOPNOTSUPP` and leaves the device in the state that the successful
call on the supported prefix `pre` produces (the register is written after each
translated parameter); nothing is written when the list starts with the
unsupported parameter. -/
theorem pin_config_set_unsupported (pctldev : pinctrl_dev) (pin : Nat)
    (configs : List packed_config)
    (hok : port_table_ok pctldev.drvdata.match_data)
    (hpin : pin < total_pins pctldev.drvdata.match_data)
    (hbad : ∃ c ∈ configs, supported c = false) :
    ∃ pre config post pctldev2,
      configs = pre ++ config :: post ∧
      (∀ c ∈ pre, supported c = true) ∧ supported config = false ∧
      ur_pin_config_set pctldev pin pre = some (0, pctldev2) ∧
      ur_pin_config_set pctldev pin configs = some (-EOPNOTSUPP, pctldev2) ∧
      (pre = [] → pctldev2 = pctldev) := by
  obtain ⟨pre, config, post, heq, hpre, hconfig⟩ := exists_first_unsupported configs hbad
  obtain ⟨port, offset, port_desc, _, hget, _, hoff32, hset⟩ :=
    ur_pin_config_set_valid pctldev pin hok hpin
  obtain ⟨pin_ctrl2, hloop, hnil⟩ := ur_pin_config_set_loop_ok pre pctldev.drvdata
    { port := port, pin := offset, mode := 0 } port_desc hget hoff32
    (show (0 : Nat) < 16 by decide) hpre
  refine ⟨pre, config, post, { pctldev with drvdata := pin_ctrl2 }, heq, hpre, hconfig, ?_, ?_, ?_⟩
  · rw [hset, hloop]; rfl
  · rw [heq, hset, ur_pin_config_set_loop_unsupported pre config post pctldev.drvdata
      { port := port, pin := offset, mode := 0 } port_desc hget hoff32 hpre hconfig, hloop]
    rfl
  · intro h
    rw [hnil h]

/-- Witness of the amended C9: pull-up followed by drive-strength on pin 19 of the DP1000 device. -/
theorem pin_config_set_unsupported_witness :
    ∃ pre config post pctldev2,
      [(⟨.PIN_CONFIG_BIAS_PULL_UP, 0⟩ : packed_config), ⟨.PIN_CONFIG_DRIVE_STRENGTH, 0⟩]
        = pre ++ config :: post ∧
      (∀ c ∈ pre, supported c = true) ∧ supported config = false ∧
      ur_pin_config_set dp1000_dev 19 pre = some (0, pctldev2) ∧
      ur_pin_config_set dp1000_dev 19
          [⟨.PIN_CONFIG_BIAS_PULL_UP, 0⟩, ⟨.PIN_CONFIG_DRIVE_STRENGTH, 0⟩]
        = some (-EOPNOTSUPP, pctldev2) ∧
      (pre = [] → pctldev2 = dp1000_dev) :=
  pin_config_set_unsupported dp1000_dev 19
    [⟨.PIN_CONFIG_BIAS_PULL_UP, 0⟩, ⟨.PIN_CONFIG_DRIVE_STRENGTH, 0⟩]
    (by decide) (by decide) ⟨⟨.PIN_CONFIG_DRIVE_STRENGTH, 0⟩, by decide, by decide⟩

/-- Counterexample to C10 as stated: on the DP1000 device with all registers
zero, `[bias-pull-up, bias-pull-down]` on pin 19 (shift 12 of register 0x318)
leaves the nibble 3, the union of `UR_PULL_UP` and `UR_PULL_DOWN`, whereas
`[bias-pull-down]` alone leaves the nibble 2. -/
theorem pull_up_then_down_gives_union :
    (ur_pin_config_set dp1000_dev 19
        [⟨.PIN_CONFIG_BIAS_PULL_UP, 0⟩, ⟨.PIN_CONFIG_BIAS_PULL_DOWN, 0⟩]).map
        (fun r => (r.1, (r.2.drvdata.regs 0x318 >>> 12) % 16)) = some (0, 3) ∧
    (ur_pin_config_set dp1000_dev 19 [⟨.PIN_CONFIG_BIAS_PULL_DOWN, 0⟩]).map
        (fun r => (r.1, (r.2.drvdata.regs 0x318 >>> 12) % 16)) = some (0, 2) ∧
    UR_PULL_DOWN = 2 ∧ UR_PULL_UP ||| UR_PULL_DOWN = 3 := by
  decide

/-- C10, amended: for every valid pin of a well-formed table and every register
state, `ur_pin_config_set` with `[bias-pull-up, bias-pull-down]` returns 0 and
leaves the nibble of the pin equal to `UR_PULL_UP | UR_PULL_DOWN = 0b0011`, the
union of the two bias bits; every other bit of every register is unchanged. -/
theorem pin_config_pull_up_then_down (pctldev : pinctrl_dev) (pin a1 a2 : Nat)
    (hok : port_table_ok pctldev.drvdata.match_data)
    (hpin : pin < total_pins pctldev.drvdata.match_data) :
    ∃ port offset port_desc pctldev2,
      ur_pin_num_to_port_pin pctldev.drvdata.match_data { port := 0, pin := 0, mode := 0 } pin
        = some (0, { port := port, pin := offset, mode := 0 }) ∧
      pctldev.drvdata.match_data.ports[port]? = some port_desc ∧
      ur_pin_config_set pctldev pin
          [⟨.PIN_CONFIG_BIAS_PULL_UP, a1⟩, ⟨.PIN_CONFIG_BIAS_PULL_DOWN, a2⟩]
        = some (0, pctldev2) ∧
      (pctldev2.drvdata.regs (port_desc.conf_offset + (offset / 8) * 4) >>> ((offset % 8) * 4))
          % 16 = UR_PULL_UP ||| UR_PULL_DOWN ∧
      UR_PULL_UP ||| UR_PULL_DOWN = 0b0011 ∧
      (∀ j, ¬ ((offset % 8) * 4 ≤ j ∧ j < (offset % 8) * 4 + 4) →
        (pctldev2.drvdata.regs (port_desc.conf_offset + (offset / 8) * 4)).testBit j
          = (readl_relaxed pctldev.drvdata.regs
              (port_desc.conf_offset + (offset / 8) * 4)).testBit j) ∧
      (∀ reg, reg ≠ port_desc.conf_offset + (offset / 8) * 4 →
        pctldev2.drvdata.regs reg = pctldev.drvdata.regs reg) := by
  obtain ⟨port, offset, port_desc, hmap, hget, _, hoff32, hset⟩ :=
    ur_pin_config_set_valid pctldev pin hok hpin
  have hsup : ∀ c ∈ [(⟨.PIN_CONFIG_BIAS_PULL_UP, a1⟩ : packed_config),
      ⟨.PIN_CONFIG_BIAS_PULL_DOWN, a2⟩], supported c = true := by
    intro c hc
    simp only [List.mem_cons, List.mem_singleton, List.not_mem_nil, or_false] at hc
    rcases hc with h | h <;> subst h <;> rfl
  have hloop := ur_pin_config_set_loop_supported [⟨.PIN_CONFIG_BIAS_PULL_DOWN, a2⟩]
    ⟨.PIN_CONFIG_BIAS_PULL_UP, a1⟩ pctldev.drvdata
    { port := port, pin := offset, mode := 0 } port_desc hget hoff32
    (show (0 : Nat) < 16 by decide) hsup
  have hfold : (fold_configs pctldev.drvdata { port := port, pin := offset, mode := 0 }
      [⟨.PIN_CONFIG_BIAS_PULL_UP, a1⟩, ⟨.PIN_CONFIG_BIAS_PULL_DOWN, a2⟩]).conf
      = UR_PULL_UP ||| UR_PULL_DOWN := by
    simp [fold_configs, ur_config_to_pin_val, pinconf_to_config_param, ur_pin_val.conf]
  rw [hfold] at hloop
  refine ⟨port, offset, port_desc,
    { pctldev with
      drvdata := { pctldev.drvdata with
        regs := Function.update pctldev.drvdata.regs (conf_reg port_desc offset)
          (conf_word (pctldev.drvdata.regs (conf_reg port_desc offset)) offset
            (UR_PULL_UP ||| UR_PULL_DOWN)) } },
    hmap, hget, ?_, ?_, rfl, ?_, ?_⟩
  · rw [hset, hloop]; rfl
  · show (Function.update pctldev.drvdata.regs (conf_reg port_desc offset) _
      (conf_reg port_desc offset) >>> _) % 16 = _
    rw [Function.update_same]
    exact nibble_eq_of_testBit _ _ _ (by decide) (fun k hk => conf_word_field _ _ _ k hk)
  · intro j hj
    show (Function.update pctldev.drvdata.regs (conf_reg port_desc offset) _
      (conf_reg port_desc offset)).testBit _ = _
    rw [Function.update_same]
    exact conf_word_frame _ _ _ j (by decide) hj
  · intro reg hreg
    exact Function.update_noteq hreg _ _

/-- Witness of the amended C10: pin 19 of the DP1000 device. -/
theorem pin_config_pull_up_then_down_witness :
    ∃ port offset port_desc pctldev2,
      ur_pin_num_to_port_pin dp1000_dev.drvdata.match_data { port := 0, pin := 0, mode := 0 } 19
        = some (0, { port := port, pin := offset, mode := 0 }) ∧
      dp1000_dev.drvdata.match_data.ports[port]? = some port_desc ∧
      ur_pin_config_set dp1000_dev 19
          [⟨.PIN_CONFIG_BIAS_PULL_UP, 0⟩, ⟨.PIN_CONFIG_BIAS_PULL_DOWN, 0⟩]
        = some (0, pctldev2) ∧
      (pctldev2.drvdata.regs (port_desc.conf_offset + (offset / 8) * 4) >>> ((offset % 8) * 4))
          % 16 = UR_PULL_UP ||| UR_PULL_DOWN ∧
      UR_PULL_UP ||| UR_PULL_DOWN = 0b0011 ∧
      (∀ j, ¬ ((offset % 8) * 4 ≤ j ∧ j < (offset % 8) * 4 + 4) →
        (pctldev2.drvdata.regs (port_desc.conf_offset + (offset / 8) * 4)).testBit j
          = (readl_relaxed dp1000_dev.drvdata.regs
              (port_desc.conf_offset + (offset / 8) * 4)).testBit j) ∧
      (∀ reg, reg ≠ port_desc.conf_offset + (offset / 8) * 4 →
        pctldev2.drvdata.regs reg = dp1000_dev.drvdata.regs reg) :=
  pin_config_pull_up_then_down dp1000_dev 19 0 0 (by decide) (by decide)

/-! ## The parameter translation -/

/-- C11: for every accumulator value `c` (the `conf` field of `*pin_vals`),
`ur_config_to_pin_val` follows the table: bias-disable returns 0 and clears the
bias bits (`UR_BIAS_MASK`, bits 0 to 3); bias-high-impedance returns 0 and clears
the pull-up and pull-down bits (bits 0 and 1); bias-pull-down and
bias-pull-default return 0 with `c | UR_PULL_DOWN`; bias-pull-up returns 0 with
`c | UR_PULL_UP`; drive-push-pull and persist-state return 0 with `c` unchanged;
every other parameter returns `-EOPNOTSUPP` and leaves `*pin_vals` unchanged. The
port and pin fields are never changed. -/
theorem config_translation_table (pin_ctrl : ur_pinctrl) (pin_vals : ur_pin_val)
    (argument : Nat) :
    (ur_config_to_pin_val pin_ctrl pin_vals ⟨.PIN_CONFIG_BIAS_DISABLE, argument⟩
        = (0, { pin_vals with mode := pin_vals.conf &&& not32 UR_BIAS_MASK }) ∧
      ∀ j, (pin_vals.conf &&& not32 UR_BIAS_MASK).testBit j
        = (pin_vals.conf.testBit j && decide (j < 32) && !decide (j < 4))) ∧
    (ur_config_to_pin_val pin_ctrl pin_vals ⟨.PIN_CONFIG_BIAS_HIGH_IMPEDANCE, argument⟩
        = (0, { pin_vals with mode := pin_vals.conf &&& not32 (UR_PULL_DOWN ||| UR_PULL_UP) }) ∧
      ∀ j, (pin_vals.conf &&& not32 (UR_PULL_DOWN ||| UR_PULL_UP)).testBit j
        = (pin_vals.conf.testBit j && decide (j < 32) && !decide (j < 2))) ∧
    ur_config_to_pin_val pin_ctrl pin_vals ⟨.PIN_CONFIG_BIAS_PULL_DOWN, argument⟩
      = (0, { pin_vals with mode := pin_vals.conf ||| UR_PULL_DOWN }) ∧
    ur_config_to_pin_val pin_ctrl pin_vals ⟨.PIN_CONFIG_BIAS_PULL_PIN_DEFAULT, argument⟩
      = (0, { pin_vals with mode := pin_vals.conf ||| UR_PULL_DOWN }) ∧
    ur_config_to_pin_val pin_ctrl pin_vals ⟨.PIN_CONFIG_BIAS_PULL_UP, argument⟩
      = (0, { pin_vals with mode := pin_vals.conf ||| UR_PULL_UP }) ∧
    ur_config_to_pin_val pin_ctrl pin_vals ⟨.PIN_CONFIG_DRIVE_PUSH_PULL, argument⟩
      = (0, pin_vals) ∧
    ur_config_to_pin_val pin_ctrl pin_vals ⟨.PIN_CONFIG_PERSIST_STATE, argument⟩
      = (0, pin_vals) ∧
    (∀ param, param ≠ .PIN_CONFIG_BIAS_DISABLE → param ≠ .PIN_CONFIG_BIAS_HIGH_IMPEDANCE →
      param ≠ .PIN_CONFIG_BIAS_PULL_DOWN → param ≠ .PIN_CONFIG_BIAS_PULL_PIN_DEFAULT →
      param ≠ .PIN_CONFIG_BIAS_PULL_UP → param ≠ .PIN_CONFIG_DRIVE_PUSH_PULL →
      param ≠ .PIN_CONFIG_PERSIST_STATE →
      ur_config_to_pin_val pin_ctrl pin_vals ⟨param, argument⟩ = (-EOPNOTSUPP, pin_vals)) ∧
    (∀ config, (ur_config_to_pin_val pin_ctrl pin_vals config).2.port = pin_vals.port ∧
      (ur_config_to_pin_val pin_ctrl pin_vals config).2.pin = pin_vals.pin) := by
  refine ⟨⟨rfl, ?_⟩, ⟨rfl, ?_⟩, rfl, rfl, rfl, rfl, rfl, ?_, ?_⟩
  · intro j
    rw [Nat.testBit_and, testBit_not32, testBit_bias_mask, Bool.and_assoc]
  · intro j
    have h3 : UR_PULL_DOWN ||| UR_PULL_UP = 2 ^ 2 - 1 := by decide
    rw [Nat.testBit_and, testBit_not32, h3, Nat.testBit_two_pow_sub_one, Bool.and_assoc]
  · intro param h1 h2 h3 h4 h5 h6 h7
    cases param <;> first | rfl | contradiction
  · intro config
    obtain ⟨param, arg⟩ := config
    cases param <;> exact ⟨rfl, rfl⟩

/-- Witness of C11: drive-strength is none of the seven translated parameters. -/
theorem config_translation_table_witness :
    ur_config_to_pin_val dp1000_dev.drvdata { port := PORT_B, pin := 3, mode := 5 }
      ⟨.PIN_CONFIG_DRIVE_STRENGTH, 8⟩ = (-EOPNOTSUPP, { port := PORT_B, pin := 3, mode := 5 }) :=
  (config_translation_table dp1000_dev.drvdata { port := PORT_B, pin := 3, mode := 5 } 8).2.2.2.2.2.2.2.1
    .PIN_CONFIG_DRIVE_STRENGTH (by decide) (by decide) (by decide) (by decide) (by decide)
    (by decide) (by decide)

/-! ## Two selections in one mux register -/

theorem mux_word_testBit_code (old pin mode j : Nat) (hpin : pin < 16)
    (hmode : mode = UR_FUNC_DEF ∨ mode = UR_FUNC0 ∨ mode = UR_FUNC1) :
    (mux_word old pin mode).testBit j
      = if j = pin then mode.testBit 0
        else if j = pin + 16 then mode.testBit 16
        else (u32 old).testBit j := by
  rw [mux_word_testBit, testBit_u32]
  by_cases h0 : j = pin
  · subst h0
    have h32 : j < 32 := by omega
    simp [h32]
  · by_cases h16 : j = pin + 16
    · subst h16
      have h32 : pin + 16 < 32 := by omega
      simp [h32]
    · rw [if_neg h0, if_neg h16]
      have hm : mode.testBit (j - pin) = false ∨ ¬ pin ≤ j := by
        by_cases hle : pin ≤ j
        · exact Or.inl (mode_code_testBit mode hmode _ (by omega) (by omega))
        · exact Or.inr hle
      rcases hm with hm | hm <;> simp [hm, h0, h16]

theorem mux_word_comm (old p q mp mq : Nat) (hp : p < 16) (hq : q < 16) (hpq : p ≠ q)
    (hmp : mp = UR_FUNC_DEF ∨ mp = UR_FUNC0 ∨ mp = UR_FUNC1)
    (hmq : mq = UR_FUNC_DEF ∨ mq = UR_FUNC0 ∨ mq = UR_FUNC1) :
    mux_word (mux_word old p mp) q mq = mux_word (mux_word old q mq) p mp := by
  apply Nat.eq_of_testBit_eq
  intro j
  rw [mux_word_testBit_code _ q mq j hq hmq, mux_word_testBit_code _ p mp j hp hmp,
    u32_of_lt (mux_word_lt _ _ _), u32_of_lt (mux_word_lt _ _ _),
    mux_word_testBit_code _ p mp j hp hmp, mux_word_testBit_code _ q mq j hq hmq]
  split_ifs <;> first | rfl | omega

/-- C12: for two different pins `p` and `q` of one port (offsets below 16, modes
among the defined mode codes) and every register state, the two per-pin mux
read-modify-writes succeed in either order and end in the same state; in the
mux register the bits `p`, `p + 16` hold the mode of `p`, the bits `q`, `q + 16`
the mode of `q`, and every other bit and every other register is unchanged. -/
theorem mux_two_pins_commute (pin_ctrl : ur_pinctrl) (port p q mp mq : Nat)
    (port_desc : ur_port_desc)
    (hget : pin_ctrl.match_data.ports[port]? = some port_desc)
    (hp : p < 16) (hq : q < 16) (hpq : p ≠ q)
    (hmp : mp = UR_FUNC_DEF ∨ mp = UR_FUNC0 ∨ mp = UR_FUNC1)
    (hmq : mq = UR_FUNC_DEF ∨ mq = UR_FUNC0 ∨ mq = UR_FUNC1) :
    ∃ c1 c12 c2 c21,
      ur_set_pin_mux pin_ctrl { port := port, pin := p, mode := mp } = some (0, c1) ∧
      ur_set_pin_mux c1 { port := port, pin := q, mode := mq } = some (0, c12) ∧
      ur_set_pin_mux pin_ctrl { port := port, pin := q, mode := mq } = some (0, c2) ∧
      ur_set_pin_mux c2 { port := port, pin := p, mode := mp } = some (0, c21) ∧
      c12 = c21 ∧
      (c12.regs port_desc.func_offset).testBit p = mp.testBit 0 ∧
      (c12.regs port_desc.func_offset).testBit (p + 16) = mp.testBit 16 ∧
      (c12.regs port_desc.func_offset).testBit q = mq.testBit 0 ∧
      (c12.regs port_desc.func_offset).testBit (q + 16) = mq.testBit 16 ∧
      (∀ j, j ≠ p → j ≠ p + 16 → j ≠ q → j ≠ q + 16 →
        (c12.regs port_desc.func_offset).testBit j
          = (readl_relaxed pin_ctrl.regs port_desc.func_offset).testBit j) ∧
      (∀ reg, reg ≠ port_desc.func_offset → c12.regs reg = pin_ctrl.regs reg) := by
  have h1 := ur_set_pin_mux_eq pin_ctrl port p mp port_desc hget (by omega)
  have h2 := ur_set_pin_mux_eq pin_ctrl port q mq port_desc hget (by omega)
  have h12 := ur_set_pin_mux_eq
    { pin_ctrl with
      regs := Function.update pin_ctrl.regs port_desc.func_offset
        (mux_word (pin_ctrl.regs port_desc.func_offset) p mp) }
    port q mq port_desc hget (by omega)
  have h21 := ur_set_pin_mux_eq
    { pin_ctrl with
      regs := Function.update pin_ctrl.regs port_desc.func_offset
        (mux_word (pin_ctrl.regs port_desc.func_offset) q mq) }
    port p mp port_desc hget (by omega)
  simp only [Function.update_same, Function.update_idem] at h12 h21
  rw [← mux_word_comm _ p q mp mq hp hq hpq hmp hmq] at h21
  have hbit : ∀ j, (mux_word (mux_word (pin_ctrl.regs port_desc.func_offset) p mp) q mq).testBit j
      = if j = q then mq.testBit 0 else if j = q + 16 then mq.testBit 16
        else if j = p then mp.testBit 0 else if j = p + 16 then mp.testBit 16
        else (readl_relaxed pin_ctrl.regs port_desc.func_offset).testBit j := by
    intro j
    rw [mux_word_testBit_code _ q mq j hq hmq, u32_of_lt (mux_word_lt _ _ _),
      mux_word_testBit_code _ p mp j hp hmp]
    rfl
  refine ⟨_, _, _, _, h1, h12, h2, h21, rfl, ?_, ?_, ?_, ?_, ?_, ?_⟩
  · show (Function.update pin_ctrl.regs port_desc.func_offset _ port_desc.func_offset).testBit _
      = _
    rw [Function.update_same, hbit, if_neg hpq, if_neg (by omega), if_pos rfl]
  · show (Function.update pin_ctrl.regs port_desc.func_offset _ port_desc.func_offset).testBit _
      = _
    rw [Function.update_same, hbit, if_neg (by omega), if_neg (by omega), if_neg (by omega),
      if_pos rfl]
  · show (Function.update pin_ctrl.regs port_desc.func_offset _ port_desc.func_offset).testBit _
      = _
    rw [Function.update_same, hbit, if_pos rfl]
  · show (Function.update pin_ctrl.regs port_desc.func_offset _ port_desc.func_offset).testBit _
      = _
    rw [Function.update_same, hbit, if_neg (by omega), if_pos rfl]
  · intro j hjp hjp16 hjq hjq16
    show (Function.update pin_ctrl.regs port_desc.func_offset _ port_desc.func_offset).testBit _
      = _
    rw [Function.update_same, hbit, if_neg hjq, if_neg hjq16, if_neg hjp, if_neg hjp16]
  · intro reg hreg
    exact Function.update_noteq hreg _ _

/-- Witness of C12: pins 2 (`UR_FUNC0`) and 5 (`UR_FUNC1`) of port A on the DP1000 table. -/
theorem mux_two_pins_commute_witness :
    ∃ c1 c12 c2 c21,
      ur_set_pin_mux dp1000_dev.drvdata { port := PORT_A, pin := 2, mode := UR_FUNC0 }
        = some (0, c1) ∧
      ur_set_pin_mux c1 { port := PORT_A, pin := 5, mode := UR_FUNC1 } = some (0, c12) ∧
      ur_set_pin_mux dp1000_dev.drvdata { port := PORT_A, pin := 5, mode := UR_FUNC1 }
        = some (0, c2) ∧
      ur_set_pin_mux c2 { port := PORT_A, pin := 2, mode := UR_FUNC0 } = some (0, c21) ∧
      c12 = c21 ∧
      (c12.regs 0x2c0).testBit 2 = UR_FUNC0.testBit 0 ∧
      (c12.regs 0x2c0).testBit (2 + 16) = UR_FUNC0.testBit 16 ∧
      (c12.regs 0x2c0).testBit 5 = UR_FUNC1.testBit 0 ∧
      (c12.regs 0x2c0).testBit (5 + 16) = UR_FUNC1.testBit 16 ∧
      (∀ j, j ≠ 2 → j ≠ 2 + 16 → j ≠ 5 → j ≠ 5 + 16 →
        (c12.regs 0x2c0).testBit j = (readl_relaxed dp1000_dev.drvdata.regs 0x2c0).testBit j) ∧
      (∀ reg, reg ≠ 0x2c0 → c12.regs reg = dp1000_dev.drvdata.regs reg) :=
  mux_two_pins_commute dp1000_dev.drvdata PORT_A 2 5 UR_FUNC0 UR_FUNC1 ⟨"A", 16, 0x2c0, 0x310⟩
    (by decide) (by decide) (by decide) (by decide) (Or.inr (Or.inl rfl)) (Or.inr (Or.inr rfl))

/-! ## Lemmas on the registry build -/

theorem ur_pin_to_desc_row (match_data : ur_pinctrl_match_data) (row : List Nat)
    (hport : row.getD 0 0 ≤ match_data.ports.length) :
    ur_pin_to_desc match_data (row_pin_val row) = some (row_index match_data row) :=
  ur_pin_to_desc_eq match_data _ _ _ hport

theorem getElem?_length_append_cons {α : Type} (pre : List α) (x : α) (rest : List α) :
    (pre ++ x :: rest)[pre.length]? = some x := by
  rw [List.getElem?_append_right (Nat.le_refl _)]
  simp

theorem pinctrl_parse_index_at (np : device_node) (name : String) (A B : List (List Nat))
    (row : List Nat) (hrows : np.rows name = some (A ++ row :: B)) :
    pinctrl_parse_index_with_args np name A.length
      = (0, { args_count := row.length, args := row }) := by
  simp only [pinctrl_parse_index_with_args, hrows, getElem?_length_append_cons]

theorem ur_subnode_to_pin_loop_ok (match_data : ur_pinctrl_match_data) (np : device_node)
    (name : String) (B : List (List Nat)) :
    ∀ (A : List (List Nat)) (PA ZP : List ur_pin_val) (GA ZG : List Int),
      np.rows name = some (A ++ B) →
      PA.length = A.length → ZP.length = B.length →
      GA.length = A.length → ZG.length = B.length →
      (∀ row ∈ B, 3 ≤ row.length ∧ row.getD 0 0 ≤ match_data.ports.length) →
      ur_subnode_to_pin_loop match_data np name B.length A.length (PA ++ ZP) (GA ++ ZG)
        = some (0, PA ++ B.map row_pin_val, GA ++ B.map (row_index match_data)) := by
  induction B with
  | nil =>
    intro A PA ZP GA ZG _ _ hZP _ hZG _
    have h1 : ZP = [] := List.length_eq_zero.mp hZP
    have h2 : ZG = [] := List.length_eq_zero.mp hZG
    subst h1 h2
    rfl
  | cons row B ih =>
    intro A PA ZP GA ZG hrows hPA hZP hGA hZG hall
    obtain ⟨hlen, hport⟩ := hall row (List.mem_cons_self _ _)
    cases ZP with
    | nil => simp at hZP
    | cons zp ZP =>
      cases ZG with
      | nil => simp at hZG
      | cons zg ZG =>
        have hparse := pinctrl_parse_index_at np name A B row hrows
        have hdesc := ur_pin_to_desc_row match_data row hport
        have hnot : ¬ row.length < 3 := by omega
        have hset1 : (PA ++ zp :: ZP).set A.length (row_pin_val row)
            = (PA ++ [row_pin_val row]) ++ ZP := by
          rw [← hPA]; simp
        have hset2 : (GA ++ zg :: ZG).set A.length (row_index match_data row)
            = (GA ++ [row_index match_data row]) ++ ZG := by
          rw [← hGA]; simp
        have hih := ih (A ++ [row]) (PA ++ [row_pin_val row]) ZP
          (GA ++ [row_index match_data row]) ZG
          (by simpa using hrows) (by simp [hPA]) (by simpa using hZP) (by simp [hGA])
          (by simpa using hZG) (fun r hr => hall r (List.mem_cons_of_mem _ hr))
        simp only [List.length_append, List.length_singleton, List.append_assoc,
          List.singleton_append] at hih
        rw [List.length_cons, ur_subnode_to_pin_loop]
        simp only [hparse, ne_eq, not_true_eq_false, if_false, hnot]
        change (match ur_pin_to_desc match_data (row_pin_val row) with
          | none => none
          | some index => ur_subnode_to_pin_loop match_data np name B.length (A.length + 1)
              ((PA ++ zp :: ZP).set A.length (row_pin_val row))
              ((GA ++ zg :: ZG).set A.length index)) = _
        rw [hdesc]
        simp only [hset1, hset2, List.append_assoc, List.singleton_append, List.map_cons, hih]

theorem ur_subnode_to_pin_loop_short (match_data : ur_pinctrl_match_data) (np : device_node)
    (name : String) (pre : List (List Nat)) :
    ∀ (A : List (List Nat)) (short : List Nat) (post : List (List Nat))
      (pin_vals : List ur_pin_val) (group_pins : List Int),
      np.rows name = some (A ++ (pre ++ short :: post)) →
      short.length < 3 →
      (∀ row ∈ pre, row.getD 0 0 ≤ match_data.ports.length) →
      ∃ pin_vals2 group_pins2,
        ur_subnode_to_pin_loop match_data np name (pre ++ short :: post).length A.length
          pin_vals group_pins = some (-EINVAL, pin_vals2, group_pins2) := by
  induction pre with
  | nil =>
    intro A short post pin_vals group_pins hrows hshort _
    have hparse := pinctrl_parse_index_at np name A post short (by simpa using hrows)
    refine ⟨pin_vals, group_pins, ?_⟩
    rw [List.nil_append, List.length_cons, ur_subnode_to_pin_loop]
    simp only [hparse, ne_eq, not_true_eq_false, if_false, hshort, if_true]
  | cons row pre ih =>
    intro A short post pin_vals group_pins hrows hshort hports
    have hparse := pinctrl_parse_index_at np name A (pre ++ short :: post) row
      (by simpa using hrows)
    rw [List.cons_append, List.length_cons, ur_subnode_to_pin_loop]
    simp only [hparse, ne_eq, not_true_eq_false, if_false]
    by_cases hrow : row.length < 3
    · exact ⟨pin_vals, group_pins, by simp only [hrow, if_true]⟩
    · simp only [hrow, if_false]
      change ∃ pin_vals2 group_pins2, (match ur_pin_to_desc match_data (row_pin_val row) with
        | none => none
        | some index => ur_subnode_to_pin_loop match_data np name (pre ++ short :: post).length
            (A.length + 1) (pin_vals.set A.length (row_pin_val row))
            (group_pins.set A.length index)) = _
      rw [ur_pin_to_desc_row match_data row (hports row (List.mem_cons_self _ _))]
      have := ih (A ++ [row]) short post (pin_vals.set A.length (row_pin_val row))
        (group_pins.set A.length (row_index match_data row)) (by simpa using hrows) hshort
        (fun r hr => hports r (List.mem_cons_of_mem _ hr))
      simpa using this

theorem ur_subnode_to_pin_eq (pctldev : pinctrl_dev) (name : String) (type : pinctrl_map_type)
    (np : device_node) (rows : List (List Nat)) (hrows : np.rows name = some rows)
    (hall : ∀ row ∈ rows, 3 ≤ row.length ∧
      row.getD 0 0 ≤ pctldev.drvdata.match_data.ports.length) :
    ur_subnode_to_pin pctldev name type np
      = some (subnode_register pctldev np.name
          (rows.map (row_index pctldev.drvdata.match_data)) (rows.map row_pin_val)
          rows.length) := by
  have hloop := ur_subnode_to_pin_loop_ok pctldev.drvdata.match_data np name rows [] []
    (List.replicate rows.length { port := 0, pin := 0, mode := 0 }) []
    (List.replicate rows.length 0) (by simpa using hrows) rfl (by simp) rfl (by simp) hall
  simp only [List.length_nil, List.nil_append] at hloop
  have hcount : pinctrl_count_index_with_args np name = (rows.length : Int) := by
    simp only [pinctrl_count_index_with_args, hrows]
  have hneg : ¬ ((rows.length : Int) < 0) := by omega
  simp only [ur_subnode_to_pin, hcount, hneg, if_false, Int.toNat_ofNat,
    pinctrl_dev_get_drvdata, hloop, ne_eq, not_true_eq_false, subnode_register]
  split_ifs <;> rfl

theorem subnode_register_fresh (pctldev : pinctrl_dev) (node_name : String)
    (group_pins : List Int) (pin_vals : List ur_pin_val) (rows : Nat)
    (hgroup : ∀ entry ∈ pctldev.pin_group_tree, (entry.2.grp.name == node_name) = false)
    (hfunc : ∀ entry ∈ pctldev.pin_function_tree, (entry.2.name == node_name) = false) :
    subnode_register pctldev node_name group_pins pin_vals rows
      = (0, some (group_pins, pin_vals, rows),
          { pctldev with
            pin_group_tree := pctldev.pin_group_tree ++
              [(pctldev.num_groups,
                { grp := { name := node_name, pins := group_pins, npins := rows },
                  data := some pin_vals })]
            num_groups := pctldev.num_groups + 1
            pin_function_tree := pctldev.pin_function_tree ++
              [(pctldev.num_functions,
                { name := node_name, group_names := [node_name], num_group_names := 1 })]
            num_functions := pctldev.num_functions + 1 }) := by
  have hg := any_false_of_forall _ _ hgroup
  have hf := any_false_of_forall _ _ hfunc
  have hn1 : ¬ ((pctldev.num_groups : Int) < 0) := by omega
  have hn2 : ¬ ((pctldev.num_functions : Int) < 0) := by omega
  simp only [subnode_register, pinctrl_generic_add_group, hg, Bool.false_eq_true, if_false, hn1,
    pinmux_generic_add_function, hf, hn2]

/-! ## The registry build -/

/-- C14: if a tuple of the property has fewer than three fields, `ur_subnode_to_pin`
returns `-EINVAL`, stores nothing through its out-parameters and leaves the
device, with its registry of groups and functions, exactly as it was, wherever
the short tuple sits and whatever the tuples after it are; the tuples before it
name ports within the table (for others the C code reads past the port table). -/
theorem subnode_short_tuple (pctldev : pinctrl_dev) (name : String) (type : pinctrl_map_type)
    (np : device_node) (pre : List (List Nat)) (short : List Nat) (post : List (List Nat))
    (hrows : np.rows name = some (pre ++ short :: post))
    (hshort : short.length < 3)
    (hports : ∀ row ∈ pre, row.getD 0 0 ≤ pctldev.drvdata.match_data.ports.length) :
    ur_subnode_to_pin pctldev name type np = some (-EINVAL, none, pctldev) := by
  have hcount : pinctrl_count_index_with_args np name
      = ((pre ++ short :: post).length : Int) := by
    simp only [pinctrl_count_index_with_args, hrows]
  have hneg : ¬ (((pre ++ short :: post).length : Int) < 0) := by omega
  obtain ⟨pin_vals2, group_pins2, hloop⟩ :=
    ur_subnode_to_pin_loop_short pctldev.drvdata.match_data np name pre [] short post
      (List.replicate (pre ++ short :: post).length { port := 0, pin := 0, mode := 0 })
      (List.replicate (pre ++ short :: post).length 0) (by simpa using hrows) hshort hports
  simp only [ur_subnode_to_pin, hcount, hneg, if_false, Int.toNat_ofNat,
    pinctrl_dev_get_drvdata]
  rw [show ([] : List (List Nat)).length = 0 from rfl] at hloop
  rw [hloop]
  simp only []
  rw [if_pos (by decide)]

/-- Witness of C14: a subnode of the DP1000 device whose second tuple is short. -/
theorem subnode_short_tuple_witness :
    ur_subnode_to_pin dp1000_i2c0_dev PINMUX_PROP_NAME .PIN_MAP_TYPE_MUX_GROUP np_short_tuple
      = some (-EINVAL, none, dp1000_i2c0_dev) :=
  subnode_short_tuple dp1000_i2c0_dev PINMUX_PROP_NAME .PIN_MAP_TYPE_MUX_GROUP np_short_tuple
    [[PORT_A, 4, UR_FUNC0]] [PORT_B, 3] [[PORT_C, 1, UR_FUNC1]] (by decide) (by decide)
    (by decide)

theorem ur_subnode_to_pin_alloc_all_ok (pctldev : pinctrl_dev) (name : String)
    (type : pinctrl_map_type) (np : device_node) :
    ur_subnode_to_pin_alloc alloc_all_ok pctldev name type np
      = ur_subnode_to_pin pctldev name type np := by
  simp only [ur_subnode_to_pin_alloc, ur_subnode_to_pin, alloc_all_ok,
    pinctrl_generic_add_group_alloc, pinmux_generic_add_function_alloc, if_true,
    Bool.true_eq_false, if_false]

theorem ur_subnode_to_pin_alloc_function_fails (pctldev : pinctrl_dev) (name : String)
    (type : pinctrl_map_type) (np : device_node) (rows : List (List Nat))
    (hrows : np.rows name = some rows)
    (hall : ∀ row ∈ rows, 3 ≤ row.length ∧
      row.getD 0 0 ≤ pctldev.drvdata.match_data.ports.length)
    (hgroup : ∀ entry ∈ pctldev.pin_group_tree, (entry.2.grp.name == np.name) = false)
    (hfunc : ∀ entry ∈ pctldev.pin_function_tree, (entry.2.name == np.name) = false)
    (hsel : ∀ entry ∈ pctldev.pin_group_tree, (entry.1 == of_int (-ENOMEM)) = false)
    (hnum : (pctldev.num_groups == of_int (-ENOMEM)) = false) :
    ur_subnode_to_pin_alloc alloc_function_fails pctldev name type np
      = some (-ENOMEM, none,
          { pctldev with
            pin_group_tree := pctldev.pin_group_tree ++
              [(pctldev.num_groups,
                { grp := { name := np.name,
                           pins := rows.map (row_index pctldev.drvdata.match_data),
                           npins := rows.length },
                  data := some (rows.map row_pin_val) })]
            num_groups := pctldev.num_groups + 1 }) := by
  have hloop := ur_subnode_to_pin_loop_ok pctldev.drvdata.match_data np name rows [] []
    (List.replicate rows.length { port := 0, pin := 0, mode := 0 }) []
    (List.replicate rows.length 0) (by simpa using hrows) rfl (by simp) rfl (by simp) hall
  simp only [List.length_nil, List.nil_append] at hloop
  have hcount : pinctrl_count_index_with_args np name = (rows.length : Int) := by
    simp only [pinctrl_count_index_with_args, hrows]
  have hneg : ¬ ((rows.length : Int) < 0) := by omega
  have hg := any_false_of_forall _ _ hgroup
  have hf := any_false_of_forall _ _ hfunc
  have hn1 : ¬ ((pctldev.num_groups : Int) < 0) := by omega
  have hm : (-ENOMEM : Int) < 0 := by decide
  have hs : ∀ g : group_desc, (pctldev.pin_group_tree ++ [(pctldev.num_groups, g)]).any
      (fun entry => entry.1 == of_int (-ENOMEM)) = false := by
    intro g
    rw [List.any_append, any_false_of_forall _ _ hsel]
    simp [hnum]
  simp only [ur_subnode_to_pin_alloc, hcount, hneg, if_false, Int.toNat_ofNat,
    pinctrl_dev_get_drvdata, hloop, ne_eq, not_true_eq_false, alloc_function_fails,
    Bool.true_eq_false, pinctrl_generic_add_group_alloc, if_true, pinctrl_generic_add_group, hg,
    Bool.false_eq_true, hn1, pinmux_generic_add_function_alloc, hf, hm,
    pinctrl_generic_remove_group, hs]

/-- C15, the code when the function registration fails. Whenever the tuples of
the property are complete, the node's name is not yet registered and the
allocation inside `pinmux_generic_add_function` fails, `ur_subnode_to_pin` has
added the group, gets `-ENOMEM` from `pinmux_generic_add_function`, calls
`pinctrl_generic_remove_group` at the label `free_group` with that return code
as selector (4294967284) and returns `-ENOMEM` with the group still registered
and `num_groups` one higher than before. On the DP1000 device with an empty
registry and the subnode "uart0" the registry holds no group before the call and
the group "uart0" under selector 0 after it; `pinctrl_generic_remove_group` with
selector 0, the value `pinctrl_generic_add_group` returned, would have removed
it. With every allocation succeeding the function is `ur_subnode_to_pin`. -/
theorem subnode_function_failure_keeps_group :
    (∀ (pctldev : pinctrl_dev) (name : String) (type : pinctrl_map_type) (np : device_node)
        (rows : List (List Nat)),
      np.rows name = some rows →
      (∀ row ∈ rows, 3 ≤ row.length ∧
        row.getD 0 0 ≤ pctldev.drvdata.match_data.ports.length) →
      (∀ entry ∈ pctldev.pin_group_tree, (entry.2.grp.name == np.name) = false) →
      (∀ entry ∈ pctldev.pin_function_tree, (entry.2.name == np.name) = false) →
      (∀ entry ∈ pctldev.pin_group_tree, entry.1 ≠ of_int (-ENOMEM)) →
      pctldev.num_groups ≠ of_int (-ENOMEM) →
      ur_subnode_to_pin_alloc alloc_function_fails pctldev name type np
        = some (-ENOMEM, none,
            { pctldev with
              pin_group_tree := pctldev.pin_group_tree ++
                [(pctldev.num_groups,
                  { grp := { name := np.name,
                             pins := rows.map (row_index pctldev.drvdata.match_data),
                             npins := rows.length },
                    data := some (rows.map row_pin_val) })]
              num_groups := pctldev.num_groups + 1 })) ∧
    (∀ (pctldev : pinctrl_dev) (name : String) (type : pinctrl_map_type) (np : device_node),
      ur_subnode_to_pin_alloc alloc_all_ok pctldev name type np
        = ur_subnode_to_pin pctldev name type np) ∧
    dp1000_dev.pin_group_tree = [] ∧
    dp1000_dev.num_groups = 0 ∧
    dp1000_dev.pin_function_tree = [] ∧
    of_int (-ENOMEM) = 4294967284 ∧
    (ur_subnode_to_pin_alloc alloc_function_fails dp1000_dev PINMUX_PROP_NAME
        .PIN_MAP_TYPE_MUX_GROUP np_uart0).map
        (fun r => (r.1, r.2.1, r.2.2.pin_group_tree, r.2.2.num_groups, r.2.2.pin_function_tree,
          r.2.2.num_functions))
      = some (-ENOMEM, none,
          [(0, { grp := { name := "uart0", pins := [2], npins := 1 },
                 data := some [{ port := PORT_A, pin := 2, mode := UR_FUNC0 }] })], 1, [], 0) ∧
    (ur_subnode_to_pin_alloc alloc_function_fails dp1000_dev PINMUX_PROP_NAME
        .PIN_MAP_TYPE_MUX_GROUP np_uart0).map
        (fun r => ((pinctrl_generic_remove_group r.2.2 0).2.pin_group_tree,
          (pinctrl_generic_remove_group r.2.2 0).2.num_groups))
      = some ([], 0) := by
  refine ⟨?_, ur_subnode_to_pin_alloc_all_ok, rfl, rfl, rfl, by decide, rfl, rfl⟩
  intro pctldev name type np rows hrows hall hgroup hfunc hsel hnum
  exact ur_subnode_to_pin_alloc_function_fails pctldev name type np rows hrows hall hgroup hfunc
    (fun entry hentry => beq_eq_false_iff_ne.mpr (hsel entry hentry))
    (beq_eq_false_iff_ne.mpr hnum)

/-- Counterexample to C16 as stated: on the DP1000 device with an empty registry,
`ur_pinconf_to_map` for the subnode "pull" (property `pinconf-pins`) returns 0
and registers the group "pull" and also a function "pull". -/
theorem pinconf_registers_function :
    dp1000_dev.pin_function_tree = [] ∧
    (ur_pinconf_to_map dp1000_dev np_pull).map
        (fun r => (r.1, r.2.1, r.2.2.pin_group_tree, r.2.2.pin_function_tree))
      = some (0,
          some { type := .PIN_MAP_TYPE_CONFIGS_GROUP,
                 data := .configs "pull" [{ port := PORT_B, pin := 3, mode := UR_PULL_UP }] 1 },
          [(0, { grp := { name := "pull", pins := [19], npins := 1 },
                 data := some [{ port := PORT_B, pin := 3, mode := UR_PULL_UP }] })],
          [(0, { name := "pull", group_names := ["pull"], num_group_names := 1 })]) :=
  ⟨rfl, rfl⟩

/-- C16, amended: `ur_subnode_to_pin` does not look at the purpose it is given,
and building a group for the config purpose (`ur_pinconf_to_map`, property
`pinconf-pins`) on a node whose tuples are complete and whose name is not yet
registered returns 0 and registers one group and also one function of the
node's name that refers to that group, just as the mux purpose does. -/
theorem pinconf_registers_group_and_function (pctldev : pinctrl_dev) (np : device_node)
    (rows : List (List Nat))
    (hrows : np.rows PINCONF_PROP_NAME = some rows)
    (hall : ∀ row ∈ rows, 3 ≤ row.length ∧
      row.getD 0 0 ≤ pctldev.drvdata.match_data.ports.length)
    (hgroup : ∀ entry ∈ pctldev.pin_group_tree, (entry.2.grp.name == np.name) = false)
    (hfunc : ∀ entry ∈ pctldev.pin_function_tree, (entry.2.name == np.name) = false) :
    (∀ (name : String) (type1 type2 : pinctrl_map_type),
      ur_subnode_to_pin pctldev name type1 np = ur_subnode_to_pin pctldev name type2 np) ∧
    ur_pinconf_to_map pctldev np
      = some (0,
          some { type := .PIN_MAP_TYPE_CONFIGS_GROUP,
                 data := .configs np.name (rows.map row_pin_val) rows.length },
          { pctldev with
            pin_group_tree := pctldev.pin_group_tree ++
              [(pctldev.num_groups,
                { grp := { name := np.name,
                           pins := rows.map (row_index pctldev.drvdata.match_data),
                           npins := rows.length },
                  data := some (rows.map row_pin_val) })]
            num_groups := pctldev.num_groups + 1
            pin_function_tree := pctldev.pin_function_tree ++
              [(pctldev.num_functions,
                { name := np.name, group_names := [np.name], num_group_names := 1 })]
            num_functions := pctldev.num_functions + 1 }) := by
  refine ⟨fun _ _ _ => rfl, ?_⟩
  simp only [ur_pinconf_to_map,
    ur_subnode_to_pin_eq pctldev PINCONF_PROP_NAME .PIN_MAP_TYPE_CONFIGS_GROUP np rows hrows hall,
    subnode_register_fresh pctldev np.name _ _ _ hgroup hfunc, ne_eq, not_true_eq_false,
    if_false]

/-- Witness of the amended C16: the subnode "pull" on the DP1000 device. -/
theorem pinconf_registers_group_and_function_witness :
    (∀ (name : String) (type1 type2 : pinctrl_map_type),
      ur_subnode_to_pin dp1000_dev name type1 np_pull
        = ur_subnode_to_pin dp1000_dev name type2 np_pull) ∧
    ur_pinconf_to_map dp1000_dev np_pull
      = some (0,
          some { type := .PIN_MAP_TYPE_CONFIGS_GROUP,
                 data := .configs np_pull.name
                   ([[PORT_B, 3, UR_PULL_UP]].map row_pin_val) [[PORT_B, 3, UR_PULL_UP]].length },
          { dp1000_dev with
            pin_group_tree := dp1000_dev.pin_group_tree ++
              [(dp1000_dev.num_groups,
                { grp := { name := np_pull.name,
                           pins := [[PORT_B, 3, UR_PULL_UP]].map
                             (row_index dp1000_dev.drvdata.match_data),
                           npins := [[PORT_B, 3, UR_PULL_UP]].length },
                  data := some ([[PORT_B, 3, UR_PULL_UP]].map row_pin_val) })]
            num_groups := dp1000_dev.num_groups + 1
            pin_function_tree := dp1000_dev.pin_function_tree ++
              [(dp1000_dev.num_functions,
                { name := np_pull.name, group_names := [np_pull.name], num_group_names := 1 })]
            num_functions := dp1000_dev.num_functions + 1 }) :=
  pinconf_registers_group_and_function dp1000_dev np_pull [[PORT_B, 3, UR_PULL_UP]]
    (by decide) (by decide) (by decide) (by decide)

/-! ## Read-back and the DP1000 table -/

/-- C17: for every pin, every group selector and every state of the device,
`ur_pin_config_get` and `ur_pin_config_group_get` return `-EOPNOTSUPP` and leave
the device, and with it every register, unchanged. -/
theorem config_read_back_unsupported (pctldev : pinctrl_dev) (pin selector : Nat)
    (config : packed_config) :
    ur_pin_config_get pctldev pin = (-EOPNOTSUPP, pctldev) ∧
    ur_pin_config_group_get pctldev selector config = (-EOPNOTSUPP, pctldev) ∧
    (ur_pin_config_get pctldev pin).2.drvdata.regs = pctldev.drvdata.regs ∧
    (ur_pin_config_group_get pctldev selector config).2.drvdata.regs = pctldev.drvdata.regs ∧
    (-EOPNOTSUPP : Int) < 0 :=
  ⟨rfl, rfl, rfl, rfl, by decide⟩

/-- C18: in the DP1000 table the pin counts of the ports are 16, 8, 8, 8 and 13,
their sum equals the advertised `npins`, which is the number of entries of
`ur_dp1000_pins`, 53; `num_ports` is the number of port entries, 5; and pin
descriptor `i` carries the number `i` for every `i` below 53. -/
theorem dp1000_table_counts :
    ur_dp1000_match_data.ports.map ur_port_desc.npins = [16, 8, 8, 8, 13] ∧
    total_pins ur_dp1000_match_data = ur_dp1000_match_data.npins ∧
    ur_dp1000_match_data.npins = ur_dp1000_pins.length ∧
    ur_dp1000_pins.length = 53 ∧
    16 + 8 + 8 + 8 + 13 = 53 ∧
    ur_dp1000_match_data.num_ports = ur_dp1000_match_data.ports.length ∧
    ur_dp1000_match_data.num_ports = 5 ∧
    ur_dp1000_match_data.pins = ur_dp1000_pins ∧
    (∀ i, i < 53 → (ur_dp1000_pins[i]?).map pinctrl_pin_desc.number = some i) := by
  decide

/-! ## Lemmas on lists of pin values -/

theorem ur_set_pin_conf_conf_write (pin_ctrl : ur_pinctrl) (pin_val : ur_pin_val)
    (hport : pin_val.port < pin_ctrl.match_data.ports.length) (hpin : pin_val.pin < 2 ^ 32) :
    ur_set_pin_conf pin_ctrl pin_val
      = some (0, { pin_ctrl with regs := conf_write pin_ctrl.match_data pin_ctrl.regs pin_val }) := by
  obtain ⟨port_desc, hget⟩ : ∃ port_desc, pin_ctrl.match_data.ports[pin_val.port]? = some port_desc :=
    ⟨_, List.getElem?_eq_getElem hport⟩
  have h := ur_set_pin_conf_eq pin_ctrl pin_val.port pin_val.pin pin_val.mode port_desc hget hpin
  simp only [conf_write, hget]
  exact h

theorem ur_pin_config_group_set_loop_eq (configs : List ur_pin_val) :
    ∀ (pin_ctrl : ur_pinctrl),
      (∀ pv ∈ configs, pv.port < pin_ctrl.match_data.ports.length ∧ pv.pin < 2 ^ 32) →
      ur_pin_config_group_set_loop configs pin_ctrl
        = some { pin_ctrl with
            regs := configs.foldl (conf_write pin_ctrl.match_data) pin_ctrl.regs } := by
  induction configs with
  | nil => intro pin_ctrl _; rfl
  | cons pv rest ih =>
    intro pin_ctrl hvalid
    obtain ⟨hport, hpin⟩ := hvalid pv (List.mem_cons_self _ _)
    rw [ur_pin_config_group_set_loop, ur_set_pin_conf_conf_write pin_ctrl pv hport hpin]
    exact ih { pin_ctrl with regs := conf_write pin_ctrl.match_data pin_ctrl.regs pv }
      (fun x hx => hvalid x (List.mem_cons_of_mem _ hx))

theorem conf_write_frame (match_data : ur_pinctrl_match_data) (regs : Regs) (pin_val : ur_pin_val)
    (reg j : Nat) (hconf : pin_val.conf < 16)
    (hout : ¬ in_conf_field match_data pin_val reg j) :
    (readl_relaxed (conf_write match_data regs pin_val) reg).testBit j
      = (readl_relaxed regs reg).testBit j := by
  unfold conf_write
  cases hget : match_data.ports[pin_val.port]? with
  | none => rfl
  | some port_desc =>
    simp only []
    by_cases hreg : reg = conf_reg port_desc pin_val.pin
    · subst hreg
      have hj : ¬ ((pin_val.pin % 8) * 4 ≤ j ∧ j < (pin_val.pin % 8) * 4 + 4) :=
        fun h => hout ⟨port_desc, hget, rfl, h.1, h.2⟩
      simp only [readl_relaxed, Function.update_same, u32_of_lt (conf_word_lt _ _ _)]
      exact conf_word_frame _ _ _ j hconf hj
    · simp only [readl_relaxed, Function.update_noteq hreg]

theorem conf_fold_frame (match_data : ur_pinctrl_match_data) (configs : List ur_pin_val) :
    ∀ (regs : Regs) (reg j : Nat),
      (∀ pv ∈ configs, pv.conf < 16) →
      (∀ pv ∈ configs, ¬ in_conf_field match_data pv reg j) →
      (readl_relaxed (configs.foldl (conf_write match_data) regs) reg).testBit j
        = (readl_relaxed regs reg).testBit j := by
  induction configs with
  | nil => intro regs reg j _ _; rfl
  | cons pv rest ih =>
    intro regs reg j hconf hout
    rw [List.foldl_cons, ih _ reg j (fun x hx => hconf x (List.mem_cons_of_mem _ hx))
      (fun x hx => hout x (List.mem_cons_of_mem _ hx))]
    exact conf_write_frame match_data regs pv reg j (hconf pv (List.mem_cons_self _ _))
      (hout pv (List.mem_cons_self _ _))

set_option maxRecDepth 100000 in
theorem pins_apart_dp1000 :
    ∀ i, i < 53 → ∀ j, j < 53 → pins_apart ur_dp1000_match_data i j = true := by
  decide

/-- The hardware positions `pin_hw` finds for the index of a valid pair. -/
theorem pin_hw_valid (match_data : ur_pinctrl_match_data) (hok : port_table_ok match_data)
    (port pin : Nat) (port_desc : ur_port_desc)
    (hget : match_data.ports[port]? = some port_desc) (hpin : pin < port_desc.npins) :
    pins_before match_data port + pin < total_pins match_data ∧
    pin_hw match_data (pins_before match_data port + pin)
      = some { port := port, offset := pin, mux_reg := port_desc.func_offset,
               conf_reg := conf_reg port_desc pin, conf_shift := (pin % 8) * 4 } := by
  have hvalid : valid_pair match_data port pin := valid_pair_of_getElem? hok.1 hget hpin
  obtain ⟨index, _, h2, hlt, h4⟩ :=
    round_trip_valid match_data hok port pin 0 { port := 0, pin := 0, mode := 0 } hvalid
  rw [h2] at h4
  refine ⟨hlt, ?_⟩
  simp only [pin_hw, h4, hget]

/-- On a well-formed table whose pins are pairwise apart, the config fields of
two different valid pairs differ. -/
theorem conf_field_distinct (match_data : ur_pinctrl_match_data)
    (hok : port_table_ok match_data)
    (hapart : ∀ i, i < total_pins match_data → ∀ j, j < total_pins match_data →
      pins_apart match_data i j = true)
    (port1 pin1 port2 pin2 : Nat) (pd1 pd2 : ur_port_desc)
    (hget1 : match_data.ports[port1]? = some pd1) (hpin1 : pin1 < pd1.npins)
    (hget2 : match_data.ports[port2]? = some pd2) (hpin2 : pin2 < pd2.npins)
    (hne : ¬ (port1 = port2 ∧ pin1 = pin2)) :
    ¬ (conf_reg pd1 pin1 = conf_reg pd2 pin2 ∧ pin1 % 8 = pin2 % 8) := by
  obtain ⟨hlt1, hw1⟩ := pin_hw_valid match_data hok port1 pin1 pd1 hget1 hpin1
  obtain ⟨hlt2, hw2⟩ := pin_hw_valid match_data hok port2 pin2 pd2 hget2 hpin2
  have key := hapart _ hlt1 _ hlt2
  unfold pins_apart at key
  rw [hw1, hw2] at key
  have hkey := of_decide_eq_true key
  have hij : pins_before match_data port1 + pin1 ≠ pins_before match_data port2 + pin2 := by
    intro h
    rw [h, hw2] at hw1
    simp only [Option.some.injEq, pin_slots.mk.injEq] at hw1
    exact hne ⟨hw1.1.symm, hw1.2.1.symm⟩
  have hslot := (hkey.1 hij).2.2.2.2
  intro h
  apply hslot
  simp only [Prod.mk.injEq]
  exact ⟨h.1, by rw [h.2]⟩

/-- The config field of a valid pair is no field of a different valid pair. -/
theorem in_conf_field_other (match_data : ur_pinctrl_match_data)
    (hok : port_table_ok match_data)
    (hapart : ∀ i, i < total_pins match_data → ∀ j, j < total_pins match_data →
      pins_apart match_data i j = true)
    (pv : ur_pin_val) (port pin reg j : Nat)
    (hpv : valid_pair match_data pv.port pv.pin) (hvalid : valid_pair match_data port pin)
    (hne : ¬ (pv.port = port ∧ pv.pin = pin))
    (hin : in_conf_field match_data { port := port, pin := pin, mode := 0 } reg j) :
    ¬ in_conf_field match_data pv reg j := by
  intro hin2
  obtain ⟨pd, hget, hreg, hlo, hhi⟩ := hin
  obtain ⟨pd2, hget2, hreg2, hlo2, hhi2⟩ := hin2
  obtain ⟨pd3, hget3, hpin3⟩ := valid_pair_getElem? hvalid
  obtain ⟨pd4, hget4, hpin4⟩ := valid_pair_getElem? hpv
  simp only at hget hreg hlo hhi
  rw [hget3] at hget
  rw [hget4] at hget2
  simp only [Option.some.injEq] at hget hget2
  subst hget hget2
  refine conf_field_distinct match_data hok hapart pv.port pv.pin port pin pd4 pd3 hget4 hpin4
    hget3 hpin3 hne ⟨?_, ?_⟩
  · rw [← hreg2, hreg]
  · omega

/-! ## Group configuration -/

/-- Counterexample to C19 as stated: on the DP1000 device with the group "i2c0"
under selector 0 and all registers zero, `ur_pin_config_group_set` with the one
entry `(A, 0, conf = 0x10)` returns 0 and leaves config register 0x310 holding
0x10: bit 4, which lies in the field of pin 1 of port A (bits 4 to 7) and not in
the field of the named pin 0 (bits 0 to 3), has changed. -/
theorem group_config_payload_spills_over :
    (ur_pin_config_group_set dp1000_i2c0_dev 0 [{ port := PORT_A, pin := 0, mode := 0x10 }]).map
        (fun r => (r.1, r.2.drvdata.regs 0x310)) = some (0, 0x10) ∧
    dp1000_i2c0_dev.drvdata.regs 0x310 = 0 ∧
    (0x10 : Nat) < 2 ^ 32 ∧
    Nat.testBit 0x10 4 = true ∧ Nat.testBit 0 4 = false ∧
    conf_reg ⟨"A", 16, 0x2c0, 0x310⟩ 0 = 0x310 ∧ (0 % 8) * 4 + 4 ≤ 4 ∧
    conf_reg ⟨"A", 16, 0x2c0, 0x310⟩ 1 = 0x310 ∧ (1 % 8) * 4 ≤ 4 ∧ 4 < (1 % 8) * 4 + 4 := by
  decide

/-- C19, amended: for a resolvable group and every list of pin values (ports of
the table, 32-bit pins and payloads), `ur_pin_config_group_set` returns 0 and the
register state is the one obtained by applying `ur_set_pin_conf` to the entries
in list order, each write storing `(old & ~(0xF << s)) | (conf << s)` modulo
`2 ^ 32` at the location computed from the entry. When every payload is below
16, the only bits that can differ from the initial state are those of the 4-bit
fields at the locations computed from the entries. When in addition every entry
names a pin of the table (`pin < npins[port]`) and the table is well-formed with
pins that are pairwise apart (as the DP1000 table is), the nibble of every pin
of the table that is not named in the list is preserved. An entry whose offset
is `>= npins[port]` is accepted and written at its computed location: on the
DP1000 device `(B, 8, 5)` stores 5 in register 0x31c at shift 0, the nibble of
pin 0 of port C. -/
theorem group_config_set_writes (pctldev : pinctrl_dev) (selector : Nat)
    (configs : List ur_pin_val) (ur_group : group_desc)
    (hgroup : pinctrl_generic_get_group pctldev selector = some ur_group)
    (hvalid : ∀ pv ∈ configs,
      pv.port < pctldev.drvdata.match_data.ports.length ∧ pv.pin < 2 ^ 32) :
    ∃ pctldev2, ur_pin_config_group_set pctldev selector configs = some (0, pctldev2) ∧
      pctldev2.drvdata.regs
        = configs.foldl (conf_write pctldev.drvdata.match_data) pctldev.drvdata.regs ∧
      (∀ (pin_ctrl : ur_pinctrl) (pv : ur_pin_val),
        pin_ctrl.match_data = pctldev.drvdata.match_data → pv ∈ configs →
        ur_set_pin_conf pin_ctrl pv
          = some (0, { pin_ctrl with
              regs := conf_write pctldev.drvdata.match_data pin_ctrl.regs pv })) ∧
      ((∀ pv ∈ configs, pv.conf < 16) →
        ∀ reg j, (∀ pv ∈ configs, ¬ in_conf_field pctldev.drvdata.match_data pv reg j) →
          (readl_relaxed pctldev2.drvdata.regs reg).testBit j
            = (readl_relaxed pctldev.drvdata.regs reg).testBit j) ∧
      ((∀ pv ∈ configs, pv.conf < 16) →
        (∀ pv ∈ configs, valid_pair pctldev.drvdata.match_data pv.port pv.pin) →
        port_table_ok pctldev.drvdata.match_data →
        (∀ i, i < total_pins pctldev.drvdata.match_data →
          ∀ j, j < total_pins pctldev.drvdata.match_data →
            pins_apart pctldev.drvdata.match_data i j = true) →
        ∀ port pin, valid_pair pctldev.drvdata.match_data port pin →
          (∀ pv ∈ configs, ¬ (pv.port = port ∧ pv.pin = pin)) →
          ∀ reg j,
            in_conf_field pctldev.drvdata.match_data { port := port, pin := pin, mode := 0 }
              reg j →
            (readl_relaxed pctldev2.drvdata.regs reg).testBit j
              = (readl_relaxed pctldev.drvdata.regs reg).testBit j) ∧
      (¬ valid_pair ur_dp1000_match_data PORT_B 8 ∧ valid_pair ur_dp1000_match_data PORT_C 0 ∧
        (ur_pin_config_group_set dp1000_i2c0_dev 0 [{ port := PORT_B, pin := 8, mode := 5 }]).map
            (fun r => (r.1, r.2.drvdata.regs 0x31c)) = some (0, 5) ∧
        dp1000_i2c0_dev.drvdata.regs 0x31c = 0 ∧
        conf_reg ⟨"C", 8, 0x2c8, 0x31c⟩ 0 = 0x31c ∧ (0 % 8) * 4 = 0 ∧
        ur_dp1000_match_data.ports[PORT_C]? = some ⟨"C", 8, 0x2c8, 0x31c⟩) := by
  refine ⟨{ pctldev with
            drvdata := { pctldev.drvdata with
              regs := configs.foldl (conf_write pctldev.drvdata.match_data)
                pctldev.drvdata.regs } }, ?_, rfl, ?_, ?_, ?_, ?_⟩
  · simp only [ur_pin_config_group_set, hgroup, pinctrl_dev_get_drvdata,
      ur_pin_config_group_set_loop_eq configs pctldev.drvdata hvalid]
  · intro pin_ctrl pv hmd hmem
    obtain ⟨hport, hpin⟩ := hvalid pv hmem
    rw [← hmd]
    exact ur_set_pin_conf_conf_write pin_ctrl pv (by rw [hmd]; exact hport) hpin
  · intro hconf reg j hout
    exact conf_fold_frame pctldev.drvdata.match_data configs pctldev.drvdata.regs reg j hconf hout
  · intro hconf hpairs hok hapart port pin hpair hother reg j hin
    exact conf_fold_frame pctldev.drvdata.match_data configs pctldev.drvdata.regs reg j hconf
      (fun pv hpv => in_conf_field_other pctldev.drvdata.match_data hok hapart pv port pin reg j
        (hpairs pv hpv) hpair (hother pv hpv) hin)
  · decide


/-- Witness of the amended C19: the entries `(A, 4, 5)` and `(B, 3, 9)` on the
DP1000 device with the group "i2c0"; the nibbles of pin 5 of port A, which
shares register 0x310 with pin 4, and of pin 0 of port C are preserved. -/
theorem group_config_set_writes_witness :
    ∃ pctldev2,
      ur_pin_config_group_set dp1000_i2c0_dev 0
          [{ port := PORT_A, pin := 4, mode := 5 }, { port := PORT_B, pin := 3, mode := 9 }]
        = some (0, pctldev2) ∧
      pctldev2.drvdata.regs
        = [{ port := PORT_A, pin := 4, mode := 5 }, { port := PORT_B, pin := 3, mode := 9 }].foldl
            (conf_write dp1000_i2c0_dev.drvdata.match_data) dp1000_i2c0_dev.drvdata.regs ∧
      (∀ (pin_ctrl : ur_pinctrl) (pv : ur_pin_val),
        pin_ctrl.match_data = dp1000_i2c0_dev.drvdata.match_data →
        pv ∈ [({ port := PORT_A, pin := 4, mode := 5 } : ur_pin_val),
              { port := PORT_B, pin := 3, mode := 9 }] →
        ur_set_pin_conf pin_ctrl pv
          = some (0, { pin_ctrl with
              regs := conf_write dp1000_i2c0_dev.drvdata.match_data pin_ctrl.regs pv })) ∧
      (∀ reg j,
        (∀ pv ∈ [({ port := PORT_A, pin := 4, mode := 5 } : ur_pin_val),
                 { port := PORT_B, pin := 3, mode := 9 }],
          ¬ in_conf_field dp1000_i2c0_dev.drvdata.match_data pv reg j) →
        (readl_relaxed pctldev2.drvdata.regs reg).testBit j
          = (readl_relaxed dp1000_i2c0_dev.drvdata.regs reg).testBit j) ∧
      (∀ reg j,
        in_conf_field dp1000_i2c0_dev.drvdata.match_data { port := PORT_A, pin := 5, mode := 0 }
          reg j →
        (readl_relaxed pctldev2.drvdata.regs reg).testBit j
          = (readl_relaxed dp1000_i2c0_dev.drvdata.regs reg).testBit j) ∧
      (∀ reg j,
        in_conf_field dp1000_i2c0_dev.drvdata.match_data { port := PORT_C, pin := 0, mode := 0 }
          reg j →
        (readl_relaxed pctldev2.drvdata.regs reg).testBit j
          = (readl_relaxed dp1000_i2c0_dev.drvdata.regs reg).testBit j) := by
  obtain ⟨pctldev2, h1, h2, h3, h4, h5, _⟩ := group_config_set_writes dp1000_i2c0_dev 0
    [{ port := PORT_A, pin := 4, mode := 5 }, { port := PORT_B, pin := 3, mode := 9 }]
    { grp := { name := "i2c0", pins := [4, 19], npins := 2 },
      data := some [{ port := PORT_A, pin := 4, mode := UR_FUNC0 },
                    { port := PORT_B, pin := 3, mode := UR_FUNC1 }] }
    (by decide) (by decide)
  exact ⟨pctldev2, h1, h2, h3, h4 (by decide),
    h5 (by decide) (by decide) (by decide) (fun i hi j hj => pins_apart_dp1000 i hi j hj)
      PORT_A 5 (by decide) (by decide),
    h5 (by decide) (by decide) (by decide) (fun i hi j hj => pins_apart_dp1000 i hi j hj)
      PORT_C 0 (by decide) (by decide)⟩

theorem ur_set_pin_mux_mux_write (pin_ctrl : ur_pinctrl) (pin_val : ur_pin_val)
    (hport : pin_val.port < pin_ctrl.match_data.ports.length) (hpin : pin_val.pin < 32) :
    ur_set_pin_mux pin_ctrl pin_val
      = some (0, { pin_ctrl with regs := mux_write pin_ctrl.match_data pin_ctrl.regs pin_val }) := by
  obtain ⟨port_desc, hget⟩ : ∃ port_desc, pin_ctrl.match_data.ports[pin_val.port]? = some port_desc :=
    ⟨_, List.getElem?_eq_getElem hport⟩
  have h := ur_set_pin_mux_eq pin_ctrl pin_val.port pin_val.pin pin_val.mode port_desc hget hpin
  simp only [mux_write, hget]
  exact h

theorem ur_set_mux_loop_eq (rest : List ur_pin_val) :
    ∀ (pre : List ur_pin_val) (pin_ctrl : ur_pinctrl),
      (∀ pv ∈ rest, pv.port < pin_ctrl.match_data.ports.length ∧ pv.pin < 32) →
      ur_set_mux_loop (pre ++ rest) rest.length pre.length pin_ctrl
        = some { pin_ctrl with
            regs := rest.foldl (mux_write pin_ctrl.match_data) pin_ctrl.regs } := by
  induction rest with
  | nil => intro pre pin_ctrl _; rfl
  | cons pv rest ih =>
    intro pre pin_ctrl hvalid
    obtain ⟨hport, hpin⟩ := hvalid pv (List.mem_cons_self _ _)
    have h := ih (pre ++ [pv])
      { pin_ctrl with regs := mux_write pin_ctrl.match_data pin_ctrl.regs pv }
      (fun x hx => hvalid x (List.mem_cons_of_mem _ hx))
    simp only [List.append_assoc, List.singleton_append, List.length_append,
      List.length_singleton] at h
    rw [List.length_cons, ur_set_mux_loop, getElem?_length_append_cons]
    simp only [ur_set_pin_mux_mux_write pin_ctrl pv hport hpin, h, List.foldl_cons]

theorem mux_write_frame (match_data : ur_pinctrl_match_data) (regs : Regs) (pin_val : ur_pin_val)
    (reg j : Nat) (hpin : pin_val.pin < 16)
    (hmode : pin_val.mode = UR_FUNC_DEF ∨ pin_val.mode = UR_FUNC0 ∨ pin_val.mode = UR_FUNC1)
    (hout : ¬ is_mux_bit match_data pin_val reg j) :
    (readl_relaxed (mux_write match_data regs pin_val) reg).testBit j
      = (readl_relaxed regs reg).testBit j := by
  unfold mux_write
  cases hget : match_data.ports[pin_val.port]? with
  | none => rfl
  | some port_desc =>
    simp only []
    by_cases hreg : reg = port_desc.func_offset
    · subst hreg
      have h0 : j ≠ pin_val.pin := fun h => hout ⟨port_desc, hget, rfl, Or.inl h⟩
      have h16 : j ≠ pin_val.pin + 16 := fun h => hout ⟨port_desc, hget, rfl, Or.inr h⟩
      simp only [readl_relaxed, Function.update_same, u32_of_lt (mux_word_lt _ _ _)]
      rw [mux_word_testBit_code _ _ _ j hpin hmode, if_neg h0, if_neg h16]
    · simp only [readl_relaxed, Function.update_noteq hreg]

theorem mux_write_owned (match_data : ur_pinctrl_match_data) (regs : Regs) (pin_val : ur_pin_val)
    (port_desc : ur_port_desc) (hget : match_data.ports[pin_val.port]? = some port_desc)
    (hpin : pin_val.pin < 16)
    (hmode : pin_val.mode = UR_FUNC_DEF ∨ pin_val.mode = UR_FUNC0 ∨ pin_val.mode = UR_FUNC1) :
    (readl_relaxed (mux_write match_data regs pin_val) port_desc.func_offset).testBit pin_val.pin
      = pin_val.mode.testBit 0 ∧
    (readl_relaxed (mux_write match_data regs pin_val) port_desc.func_offset).testBit
        (pin_val.pin + 16) = pin_val.mode.testBit 16 := by
  simp only [mux_write, hget, readl_relaxed, Function.update_same, u32_of_lt (mux_word_lt _ _ _)]
  constructor
  · rw [mux_word_testBit_code _ _ _ _ hpin hmode, if_pos rfl]
  · rw [mux_word_testBit_code _ _ _ _ hpin hmode, if_neg (by omega), if_pos rfl]

theorem mux_fold_frame (match_data : ur_pinctrl_match_data) (pin_vals : List ur_pin_val) :
    ∀ (regs : Regs) (reg j : Nat),
      (∀ pv ∈ pin_vals, pv.pin < 16 ∧
        (pv.mode = UR_FUNC_DEF ∨ pv.mode = UR_FUNC0 ∨ pv.mode = UR_FUNC1)) →
      (∀ pv ∈ pin_vals, ¬ is_mux_bit match_data pv reg j) →
      (readl_relaxed (pin_vals.foldl (mux_write match_data) regs) reg).testBit j
        = (readl_relaxed regs reg).testBit j := by
  induction pin_vals with
  | nil => intro regs reg j _ _; rfl
  | cons pv rest ih =>
    intro regs reg j hok hout
    rw [List.foldl_cons, ih _ reg j (fun x hx => hok x (List.mem_cons_of_mem _ hx))
      (fun x hx => hout x (List.mem_cons_of_mem _ hx))]
    exact mux_write_frame match_data regs pv reg j (hok pv (List.mem_cons_self _ _)).1
      (hok pv (List.mem_cons_self _ _)).2 (hout pv (List.mem_cons_self _ _))

theorem mux_regs_distinct_port (match_data : ur_pinctrl_match_data)
    (hregs : mux_regs_distinct match_data) (p1 p2 : Nat) (d1 d2 : ur_port_desc)
    (h1 : match_data.ports[p1]? = some d1) (h2 : match_data.ports[p2]? = some d2)
    (heq : d1.func_offset = d2.func_offset) : p1 = p2 := by
  have m1 : (match_data.ports.map ur_port_desc.func_offset)[p1]? = some d1.func_offset := by
    rw [List.getElem?_map, h1]; rfl
  have m2 : (match_data.ports.map ur_port_desc.func_offset)[p2]? = some d2.func_offset := by
    rw [List.getElem?_map, h2]; rfl
  obtain ⟨hlt1, e1⟩ := List.getElem?_eq_some_iff.mp m1
  obtain ⟨hlt2, e2⟩ := List.getElem?_eq_some_iff.mp m2
  exact (List.Nodup.getElem_inj_iff hregs).mp (by rw [e1, e2, heq])

theorem mux_bits_disjoint (match_data : ur_pinctrl_match_data) (a b : ur_pin_val)
    (port_desc : ur_port_desc)
    (hregs : mux_regs_distinct match_data)
    (hget : match_data.ports[a.port]? = some port_desc)
    (ha : a.pin < 16) (hb : b.pin < 16)
    (hne : a.port ≠ b.port ∨ a.pin ≠ b.pin) :
    ¬ is_mux_bit match_data b port_desc.func_offset a.pin ∧
    ¬ is_mux_bit match_data b port_desc.func_offset (a.pin + 16) := by
  constructor
  · rintro ⟨d, hd, hreg, hj⟩
    have hport : a.port = b.port :=
      mux_regs_distinct_port match_data hregs _ _ _ _ hget hd hreg
    rcases hne with h | h
    · exact h hport
    · omega
  · rintro ⟨d, hd, hreg, hj⟩
    have hport : a.port = b.port :=
      mux_regs_distinct_port match_data hregs _ _ _ _ hget hd hreg
    rcases hne with h | h
    · exact h hport
    · omega

theorem mux_fold_owned (match_data : ur_pinctrl_match_data)
    (hregs : mux_regs_distinct match_data)
    (pin_vals : List ur_pin_val) :
    ∀ (regs : Regs),
      (∀ pv ∈ pin_vals, pv.pin < 16 ∧
        (pv.mode = UR_FUNC_DEF ∨ pv.mode = UR_FUNC0 ∨ pv.mode = UR_FUNC1)) →
      pin_vals.Pairwise (fun a b => a.port ≠ b.port ∨ a.pin ≠ b.pin) →
      ∀ pv ∈ pin_vals, ∀ port_desc, match_data.ports[pv.port]? = some port_desc →
        (readl_relaxed (pin_vals.foldl (mux_write match_data) regs)
            port_desc.func_offset).testBit pv.pin = pv.mode.testBit 0 ∧
        (readl_relaxed (pin_vals.foldl (mux_write match_data) regs)
            port_desc.func_offset).testBit (pv.pin + 16) = pv.mode.testBit 16 := by
  induction pin_vals with
  | nil => intro regs _ _ pv hpv; simp at hpv
  | cons hd rest ih =>
    intro regs hok hpair pv hpv port_desc hget
    obtain ⟨hhead, hrest⟩ := List.pairwise_cons.mp hpair
    have hokrest : ∀ x ∈ rest, x.pin < 16 ∧
        (x.mode = UR_FUNC_DEF ∨ x.mode = UR_FUNC0 ∨ x.mode = UR_FUNC1) :=
      fun x hx => hok x (List.mem_cons_of_mem _ hx)
    rw [List.foldl_cons]
    rcases List.mem_cons.mp hpv with h | h
    · subst h
      obtain ⟨hpin, hmode⟩ := hok pv (List.mem_cons_self _ _)
      have hdis : ∀ x ∈ rest, ¬ is_mux_bit match_data x port_desc.func_offset pv.pin ∧
          ¬ is_mux_bit match_data x port_desc.func_offset (pv.pin + 16) :=
        fun x hx => mux_bits_disjoint match_data pv x port_desc hregs hget hpin
          (hokrest x hx).1 (hhead x hx)
      rw [mux_fold_frame match_data rest _ _ _ hokrest (fun x hx => (hdis x hx).1),
        mux_fold_frame match_data rest _ _ _ hokrest (fun x hx => (hdis x hx).2)]
      exact mux_write_owned match_data regs pv port_desc hget hpin hmode
    · exact ih _ hokrest hrest pv h port_desc hget

/-! ## Selecting a group -/

/-- C20: on a table whose `num_ports` counts its entries and whose ports have
distinct mux registers, for every resolvable group whose pin values name
pairwise distinct pins (`port < num_ports`, offset below 16) with modes among the
defined mode codes, and for every register state, `ur_set_mux` returns 0; the
register state is the one obtained by applying `ur_set_pin_mux` to the entries
in list order; afterwards the bits `offset` and `offset + 16` of the mux register
of every listed pin hold bits 0 and 16 of that pin's mode, and every bit that
is not a mux bit of a listed pin is unchanged, in every register. -/
theorem set_mux_group (pctldev : pinctrl_dev) (func_selector group_selector : Nat)
    (grp : pingroup) (pin_vals : List ur_pin_val)
    (hgroup : pinctrl_generic_get_group pctldev group_selector
      = some { grp := grp, data := some pin_vals })
    (hnpins : grp.npins = pin_vals.length)
    (hlen : pctldev.drvdata.match_data.num_ports = pctldev.drvdata.match_data.ports.length)
    (hregs : mux_regs_distinct pctldev.drvdata.match_data)
    (hvalid : ∀ pv ∈ pin_vals, pv.port < pctldev.drvdata.match_data.num_ports ∧ pv.pin < 16 ∧
      (pv.mode = UR_FUNC_DEF ∨ pv.mode = UR_FUNC0 ∨ pv.mode = UR_FUNC1))
    (hdistinct : pin_vals.Pairwise (fun a b => a.port ≠ b.port ∨ a.pin ≠ b.pin)) :
    ∃ pctldev2, ur_set_mux pctldev func_selector group_selector = some (0, pctldev2) ∧
      pctldev2.drvdata.regs
        = pin_vals.foldl (mux_write pctldev.drvdata.match_data) pctldev.drvdata.regs ∧
      (∀ (pin_ctrl : ur_pinctrl) (pv : ur_pin_val),
        pin_ctrl.match_data = pctldev.drvdata.match_data → pv ∈ pin_vals →
        ur_set_pin_mux pin_ctrl pv
          = some (0, { pin_ctrl with
              regs := mux_write pctldev.drvdata.match_data pin_ctrl.regs pv })) ∧
      (∀ pv ∈ pin_vals, ∃ port_desc,
        pctldev.drvdata.match_data.ports[pv.port]? = some port_desc ∧
        (readl_relaxed pctldev2.drvdata.regs port_desc.func_offset).testBit pv.pin
          = pv.mode.testBit 0 ∧
        (readl_relaxed pctldev2.drvdata.regs port_desc.func_offset).testBit (pv.pin + 16)
          = pv.mode.testBit 16) ∧
      (∀ reg j, (∀ pv ∈ pin_vals, ¬ is_mux_bit pctldev.drvdata.match_data pv reg j) →
        (readl_relaxed pctldev2.drvdata.regs reg).testBit j
          = (readl_relaxed pctldev.drvdata.regs reg).testBit j) := by
  have hport : ∀ pv ∈ pin_vals, pv.port < pctldev.drvdata.match_data.ports.length ∧ pv.pin < 32 :=
    fun pv hpv => ⟨by rw [← hlen]; exact (hvalid pv hpv).1, by have := (hvalid pv hpv).2.1; omega⟩
  have hok : ∀ pv ∈ pin_vals, pv.pin < 16 ∧
      (pv.mode = UR_FUNC_DEF ∨ pv.mode = UR_FUNC0 ∨ pv.mode = UR_FUNC1) :=
    fun pv hpv => (hvalid pv hpv).2
  have hloop := ur_set_mux_loop_eq pin_vals [] pctldev.drvdata hport
  simp only [List.nil_append, List.length_nil] at hloop
  refine ⟨{ pctldev with
            drvdata := { pctldev.drvdata with
              regs := pin_vals.foldl (mux_write pctldev.drvdata.match_data)
                pctldev.drvdata.regs } }, ?_, rfl, ?_, ?_, ?_⟩
  · simp only [ur_set_mux, hgroup, hnpins, pinctrl_dev_get_drvdata, hloop]
  · intro pin_ctrl pv hmd hmem
    rw [← hmd]
    exact ur_set_pin_mux_mux_write pin_ctrl pv (by rw [hmd]; exact (hport pv hmem).1)
      (hport pv hmem).2
  · intro pv hmem
    obtain ⟨port_desc, hget⟩ :
        ∃ port_desc, pctldev.drvdata.match_data.ports[pv.port]? = some port_desc :=
      ⟨_, List.getElem?_eq_getElem (hport pv hmem).1⟩
    exact ⟨port_desc, hget, mux_fold_owned pctldev.drvdata.match_data hregs pin_vals
      pctldev.drvdata.regs hok hdistinct pv hmem port_desc hget⟩
  · intro reg j hout
    exact mux_fold_frame pctldev.drvdata.match_data pin_vals pctldev.drvdata.regs reg j hok hout

/-- Witness of C20: the group "i2c0" of the DP1000 device, pins `(A, 4)` and `(B, 3)`. -/
theorem set_mux_group_witness :
    ∃ pctldev2, ur_set_mux dp1000_i2c0_dev 0 0 = some (0, pctldev2) ∧
      pctldev2.drvdata.regs
        = [{ port := PORT_A, pin := 4, mode := UR_FUNC0 },
           { port := PORT_B, pin := 3, mode := UR_FUNC1 }].foldl
            (mux_write dp1000_i2c0_dev.drvdata.match_data) dp1000_i2c0_dev.drvdata.regs ∧
      (∀ (pin_ctrl : ur_pinctrl) (pv : ur_pin_val),
        pin_ctrl.match_data = dp1000_i2c0_dev.drvdata.match_data →
        pv ∈ [({ port := PORT_A, pin := 4, mode := UR_FUNC0 } : ur_pin_val),
              { port := PORT_B, pin := 3, mode := UR_FUNC1 }] →
        ur_set_pin_mux pin_ctrl pv
          = some (0, { pin_ctrl with
              regs := mux_write dp1000_i2c0_dev.drvdata.match_data pin_ctrl.regs pv })) ∧
      (∀ pv ∈ [({ port := PORT_A, pin := 4, mode := UR_FUNC0 } : ur_pin_val),
               { port := PORT_B, pin := 3, mode := UR_FUNC1 }], ∃ port_desc,
        dp1000_i2c0_dev.drvdata.match_data.ports[pv.port]? = some port_desc ∧
        (readl_relaxed pctldev2.drvdata.regs port_desc.func_offset).testBit pv.pin
          = pv.mode.testBit 0 ∧
        (readl_relaxed pctldev2.drvdata.regs port_desc.func_offset).testBit (pv.pin + 16)
          = pv.mode.testBit 16) ∧
      (∀ reg j,
        (∀ pv ∈ [({ port := PORT_A, pin := 4, mode := UR_FUNC0 } : ur_pin_val),
                 { port := PORT_B, pin := 3, mode := UR_FUNC1 }],
          ¬ is_mux_bit dp1000_i2c0_dev.drvdata.match_data pv reg j) →
        (readl_relaxed pctldev2.drvdata.regs reg).testBit j
          = (readl_relaxed dp1000_i2c0_dev.drvdata.regs reg).testBit j) :=
  set_mux_group dp1000_i2c0_dev 0 0 { name := "i2c0", pins := [4, 19], npins := 2 }
    [{ port := PORT_A, pin := 4, mode := UR_FUNC0 }, { port := PORT_B, pin := 3, mode := UR_FUNC1 }]
    (by decide) (by decide) (by decide) (by decide) (by decide) (by decide)

/-! ## Mapping a configuration node -/

/-- Counterexample to C21 as stated: on the DP1000 device with an empty registry,
the node "mixed" supplies both properties; its mux property holds a tuple of two
fields, so building the mux group fails with `-EINVAL`, while its config
property is built. `ur_dt_node_to_map` returns 0 with `num_maps = 1`. -/
theorem dt_node_failure_not_surfaced :
    of_property_present np_mux_short_conf_ok PINMUX_PROP_NAME = true ∧
    of_property_present np_mux_short_conf_ok PINCONF_PROP_NAME = true ∧
    (ur_pinmux_to_map dp1000_dev np_mux_short_conf_ok).map (fun r => r.1) = some (-EINVAL) ∧
    (ur_dt_node_to_map dp1000_dev np_mux_short_conf_ok).map (fun r => (r.1, r.2.1))
      = some (0, some ([{ type := .PIN_MAP_TYPE_CONFIGS_GROUP,
                          data := .configs "mixed"
                            [{ port := PORT_B, pin := 3, mode := UR_PULL_UP }] 1 }], 1)) :=
  ⟨rfl, rfl, rfl, rfl⟩

/-- C21, amended: `ur_dt_node_to_map` returns `-EINVAL` when the node has neither
property. With exactly one property it returns the code of that build when the
build fails and 0 with `num_maps = 1` when it succeeds. With both properties it
returns a failure, the code of the config build, only when both builds fail;
when at least one build succeeds it returns 0 with `num_maps` the number of
properties that were built, 1 or 2. -/
theorem dt_node_to_map_results (pctldev : pinctrl_dev) (np : device_node) :
    (of_property_present np PINMUX_PROP_NAME = false →
      of_property_present np PINCONF_PROP_NAME = false →
      ur_dt_node_to_map pctldev np = some (-EINVAL, none, pctldev)) ∧
    (of_property_present np PINMUX_PROP_NAME = true →
      of_property_present np PINCONF_PROP_NAME = false →
      ∀ ret map pctldev1, ur_pinmux_to_map pctldev np = some (ret, map, pctldev1) →
        ur_dt_node_to_map pctldev np
          = if ret = 0 then some (0, some (map.toList, 1), pctldev1)
            else some (ret, none, pctldev1)) ∧
    (of_property_present np PINMUX_PROP_NAME = false →
      of_property_present np PINCONF_PROP_NAME = true →
      ∀ ret map pctldev1, ur_pinconf_to_map pctldev np = some (ret, map, pctldev1) →
        ur_dt_node_to_map pctldev np
          = if ret = 0 then some (0, some (map.toList, 1), pctldev1)
            else some (ret, none, pctldev1)) ∧
    (of_property_present np PINMUX_PROP_NAME = true →
      of_property_present np PINCONF_PROP_NAME = true →
      ∀ ret1 map1 pctldev1 ret2 map2 pctldev2,
        ur_pinmux_to_map pctldev np = some (ret1, map1, pctldev1) →
        ur_pinconf_to_map pctldev1 np = some (ret2, map2, pctldev2) →
        ur_dt_node_to_map pctldev np
          = if ret1 = 0 ∧ ret2 = 0 then
              some (0, some (map1.toList ++ map2.toList, 2), pctldev2)
            else if ret1 = 0 then some (0, some (map1.toList, 1), pctldev2)
            else if ret2 = 0 then some (0, some (map2.toList, 1), pctldev2)
            else some (ret2, none, pctldev2)) := by
  refine ⟨?_, ?_, ?_, ?_⟩
  · intro hm hc
    simp [ur_dt_node_to_map, hm, hc]
  · intro hm hc ret map pctldev1 hmux
    by_cases hret : ret = 0 <;> simp [ur_dt_node_to_map, hm, hc, hmux, hret]
  · intro hm hc ret map pctldev1 hconf
    by_cases hret : ret = 0 <;> simp [ur_dt_node_to_map, hm, hc, hconf, hret]
  · intro hm hc ret1 map1 pctldev1 ret2 map2 pctldev2 hmux hconf
    by_cases h1 : ret1 = 0 <;> by_cases h2 : ret2 = 0 <;>
      simp [ur_dt_node_to_map, hm, hc, hmux, hconf, h1, h2]

/-- Witness of the amended C21: the node "mixed" on the DP1000 device. -/
theorem dt_node_to_map_results_witness :
    ur_dt_node_to_map dp1000_dev np_mux_short_conf_ok
      = some (0,
          some ([{ type := .PIN_MAP_TYPE_CONFIGS_GROUP,
                   data := .configs "mixed" [{ port := PORT_B, pin := 3, mode := UR_PULL_UP }] 1 }],
            1),
          { dp1000_dev with
            pin_group_tree :=
              [(0, { grp := { name := "mixed", pins := [19], npins := 1 },
                     data := some [{ port := PORT_B, pin := 3, mode := UR_PULL_UP }] })]
            num_groups := 1
            pin_function_tree :=
              [(0, { name := "mixed", group_names := ["mixed"], num_group_names := 1 })]
            num_functions := 1 }) :=
  ((dt_node_to_map_results dp1000_dev np_mux_short_conf_ok).2.2.2 rfl rfl
    (-EINVAL) none dp1000_dev 0
    (some { type := .PIN_MAP_TYPE_CONFIGS_GROUP,
            data := .configs "mixed" [{ port := PORT_B, pin := 3, mode := UR_PULL_UP }] 1 })
    { dp1000_dev with
      pin_group_tree :=
        [(0, { grp := { name := "mixed", pins := [19], npins := 1 },
               data := some [{ port := PORT_B, pin := 3, mode := UR_PULL_UP }] })]
      num_groups := 1
      pin_function_tree :=
        [(0, { name := "mixed", group_names := ["mixed"], num_group_names := 1 })]
      num_functions := 1 }
    rfl rfl).trans rfl

/-! ## Hardware positions of the DP1000 pins -/

theorem pin_hw_dp1000_pair :
    ∀ i, i < 53 →
      ur_pin_num_to_port_pin ur_dp1000_match_data { port := 0, pin := 0, mode := 0 } i
        = (pin_hw ur_dp1000_match_data i).map
            fun a => (0, { port := a.port, pin := a.offset, mode := 0 }) := by
  decide

/-- C22: in the DP1000 table every port has at most 16 pins, and any two global
pin indices `i`, `j` below 53 are mapped by `ur_pin_num_to_port_pin` to hardware
positions such that, when `i` and `j` differ, the mux bits `(func_offset, offset)`
and `(func_offset, offset + 16)` of one pin differ from both mux bits of the other
and the config slots `(conf_offset + (offset / 8) * 4, (offset % 8) * 4)` differ;
all mux bits lie below bit 32 and every config field ends within the word; no
config word is a mux register, and config words of different ports differ. -/
theorem dp1000_pins_share_no_bit :
    (∀ port_desc ∈ ur_dp1000_match_data.ports, port_desc.npins ≤ 16) ∧
    (∀ i j, i < 53 → j < 53 →
      ∃ a b, pin_hw ur_dp1000_match_data i = some a ∧ pin_hw ur_dp1000_match_data j = some b ∧
        ur_pin_num_to_port_pin ur_dp1000_match_data { port := 0, pin := 0, mode := 0 } i
          = some (0, { port := a.port, pin := a.offset, mode := 0 }) ∧
        (i ≠ j → slots_disjoint a b) ∧ words_apart a b ∧
        a.offset + 16 < 32 ∧ a.conf_shift + 4 ≤ 32) := by
  refine ⟨by decide, ?_⟩
  intro i j hi hj
  have key := pins_apart_dp1000 i hi j hj
  unfold pins_apart at key
  cases ha : pin_hw ur_dp1000_match_data i with
  | none => rw [ha] at key; exact absurd key (by simp)
  | some a =>
    cases hb : pin_hw ur_dp1000_match_data j with
    | none => rw [ha, hb] at key; exact absurd key (by simp)
    | some b =>
      rw [ha, hb] at key
      have hkey := of_decide_eq_true key
      refine ⟨a, b, rfl, rfl, ?_, hkey.1, hkey.2.1, hkey.2.2.1, hkey.2.2.2⟩
      rw [pin_hw_dp1000_pair i hi, ha]
      rfl

/-- Witness of C22: pin 15 (the last pin of port A) and pin 16 (the first pin of port B). -/
theorem dp1000_pins_share_no_bit_witness :
    ∃ a b, pin_hw ur_dp1000_match_data 15 = some a ∧ pin_hw ur_dp1000_match_data 16 = some b ∧
      ur_pin_num_to_port_pin ur_dp1000_match_data { port := 0, pin := 0, mode := 0 } 15
        = some (0, { port := a.port, pin := a.offset, mode := 0 }) ∧
      (15 ≠ 16 → slots_disjoint a b) ∧ words_apart a b ∧
      a.offset + 16 < 32 ∧ a.conf_shift + 4 ≤ 32 :=
  dp1000_pins_share_no_bit.2 15 16 (by decide) (by decide)

/-! ## The nibble encoding of the binding header -/

/-- C23, the code at the failing input: from the empty accumulator
`ur_config_to_pin_val` produces 1 for bias-pull-up and 2 for bias-pull-down,
while the binding macro gives `UR_DP1000_BIAS(UR_PULL_UP, 0) = 4` and
`UR_DP1000_BIAS(UR_PULL_DOWN, 0) = 8`. The bits the translation sets lie inside
`UR_DRIVE_MASK` and outside `UR_PULL_MASK`: the produced nibbles are those the
macro gives for no pull with drive strength 1 and 2. -/
theorem pull_encoding_differs_from_binding :
    ur_config_to_pin_val dp1000_dev.drvdata { port := PORT_B, pin := 3, mode := 0 }
        ⟨.PIN_CONFIG_BIAS_PULL_UP, 0⟩ = (0, { port := PORT_B, pin := 3, mode := 1 }) ∧
    UR_DP1000_BIAS UR_PULL_UP 0 = 4 ∧
    ur_config_to_pin_val dp1000_dev.drvdata { port := PORT_B, pin := 3, mode := 0 }
        ⟨.PIN_CONFIG_BIAS_PULL_DOWN, 0⟩ = (0, { port := PORT_B, pin := 3, mode := 2 }) ∧
    UR_DP1000_BIAS UR_PULL_DOWN 0 = 8 ∧
    1 &&& UR_PULL_MASK = 0 ∧ 1 &&& UR_DRIVE_MASK = 1 ∧
    2 &&& UR_PULL_MASK = 0 ∧ 2 &&& UR_DRIVE_MASK = 2 ∧
    UR_DP1000_BIAS UR_PULL_UP 0 &&& UR_PULL_MASK = UR_DP1000_BIAS UR_PULL_UP 0 ∧
    UR_DP1000_BIAS UR_PULL_DOWN 0 &&& UR_PULL_MASK = UR_DP1000_BIAS UR_PULL_DOWN 0 ∧
    UR_DP1000_BIAS UR_PULL_DIS UR_DRIVE_1 = 1 ∧ UR_DP1000_BIAS UR_PULL_DIS UR_DRIVE_2 = 2 := by
  decide

end UltraRisc
